import Mathlib

/-!
The graph utilities of celerity-runtime, `include/graph_utils.h`.

A shallow embedding of the graph helpers of `graph_utils.h` and of the parts of
the Boost Graph Library they call.

* A graph is a vector of vertex bundles plus the list of its edges in insertion
  order.  Vertex descriptors are indices (`graph_utils.h` compares a vertex with
  `std::numeric_limits<size_t>::max()`), and the edge containers are taken to be
  vectors: they keep insertion order and allow parallel edges.  The out-edges
  (in-edges) of a vertex are the edges with that source (target), in insertion
  order.
* Captured-by-reference state of a functor is passed explicitly: a functor maps
  a state and a vertex to its result and the next state.
* `assert` is taken to be enabled; a failed assertion yields `none`.
-/

namespace celerity

/-- An edge descriptor: source and target.  A vertex descriptor is an index
into the vertex vector, a `Nat`; so are `node_id`, `task_id` and `buffer_id`. -/
abbrev edge_descriptor := Nat × Nat

/-- The value `std::numeric_limits<size_t>::max()` of a 64-bit `size_t`. -/
def size_t_max : Nat := 2 ^ 64 - 1

/-- A vector-backed adjacency list: the vertex bundles, and all edges in the
order in which they were added. -/
structure Graph (P : Type) where
  m_vertices : List P
  m_edges : List edge_descriptor
deriving DecidableEq, Repr

namespace Graph

variable {P : Type}

/-- Number of vertices, `boost::num_vertices`. -/
def num_vertices (g : Graph P) : Nat := g.m_vertices.length

/-- The edge's source, `boost::source`. -/
def source (e : edge_descriptor) : Nat := e.1

/-- The edge's target, `boost::target`. -/
def target (e : edge_descriptor) : Nat := e.2

/-- The out-edges of `v` in storage order, `boost::out_edges`. -/
def out_edges (v : Nat) (g : Graph P) : List edge_descriptor :=
  g.m_edges.filter (fun e => e.1 == v)

/-- The in-edges of `v` in storage order, `boost::in_edges`. -/
def in_edges (v : Nat) (g : Graph P) : List edge_descriptor :=
  g.m_edges.filter (fun e => e.2 == v)

/-- The lookup `boost::edge(u, v, g)`: a descriptor and whether the edge exists. -/
def edge (u v : Nat) (g : Graph P) : edge_descriptor × Bool :=
  ((u, v), g.m_edges.contains (u, v))

/-- Appends a default-constructed vertex and returns its index, `boost::add_vertex`. -/
def add_vertex [Inhabited P] (g : Graph P) : Nat × Graph P :=
  (g.m_vertices.length, { g with m_vertices := g.m_vertices ++ [default] })

/-- Appends the edge `u -> v`, `boost::add_edge`.  A vector-backed graph first
grows its vertex vector so that both end points are vertices. -/
def add_edge [Inhabited P] (u v : Nat) (g : Graph P) : Graph P :=
  { m_vertices := g.m_vertices ++ List.replicate (max u v + 1 - g.m_vertices.length) default
    m_edges := g.m_edges ++ [(u, v)] }

/-- Removes every edge `u -> v`, `boost::remove_edge(u, v, g)`; the other edges
keep their order. -/
def remove_edge (u v : Nat) (g : Graph P) : Graph P :=
  { g with m_edges := g.m_edges.filter (fun e => !(e.1 == u && e.2 == v)) }

/-- Reads the bundle of `v`, the rvalue `g[v]`. -/
def get [Inhabited P] (g : Graph P) (v : Nat) : P := g.m_vertices.getD v default

/-- Writes to the bundle of `v`, an assignment `g[v].field = x`. -/
def update [Inhabited P] (g : Graph P) (v : Nat) (f : P → P) : Graph P :=
  { g with m_vertices := g.m_vertices.set v (f (g.m_vertices.getD v default)) }

/-- There is an edge `u -> v`. -/
def has_edge (g : Graph P) (u v : Nat) : Prop := (u, v) ∈ g.m_edges

instance (g : Graph P) (u v : Nat) : Decidable (g.has_edge u v) :=
  inferInstanceAs (Decidable ((u, v) ∈ g.m_edges))

/-- The vertex `v` is a vertex of the graph. -/
def is_vertex (g : Graph P) (v : Nat) : Prop := v < g.m_vertices.length

instance (g : Graph P) (v : Nat) : Decidable (g.is_vertex v) :=
  inferInstanceAs (Decidable (v < g.m_vertices.length))

/-- Both end points of every edge are vertices.  Boost keeps this for every
vector-backed graph. -/
def well_formed (g : Graph P) : Prop :=
  ∀ e ∈ g.m_edges, e.1 < g.m_vertices.length ∧ e.2 < g.m_vertices.length

instance (g : Graph P) : Decidable g.well_formed :=
  inferInstanceAs (Decidable (∀ e ∈ g.m_edges, e.1 < g.m_vertices.length ∧ e.2 < g.m_vertices.length))

/-- There is a path (possibly empty) from `a` to `b`. -/
def reachable (g : Graph P) (a b : Nat) : Prop :=
  Relation.ReflTransGen (fun x y => (x, y) ∈ g.m_edges) a b

end Graph

namespace graph_utils

open Graph

variable {P σ : Type}

/-- The pair `std::pair<vertex, vertex>`: begin and end vertex of a task. -/
abbrev task_vertices := Nat × Nat

/-- A functor called on a vertex.  It either returns a `bool` or nothing; the
state `σ` stands for what it captured by reference. -/
inductive vertex_fn (σ : Type) where
  | returns_bool (fn : σ → Nat → Bool × σ)
  | returns_void (fn : σ → Nat → σ)

/-- The two overloads of `call_for_vertex_fn`: a `bool` functor's result is
passed on, a `void` functor is called and `true` is returned. -/
def call_for_vertex_fn (fn : vertex_fn σ) (v : Nat) (s : σ) : Bool × σ :=
  match fn with
  | .returns_bool f => f s v
  | .returns_void f => (true, f s v)

/-- The loop of `for_predecessors` over the in-edge range. -/
def for_predecessors_loop (f : vertex_fn σ) : List edge_descriptor → σ → Bool × σ
  | [], s => (true, s)
  | eit :: rest, s =>
    let pre := source eit
    let r := call_for_vertex_fn f pre s
    if r.1 == false then (false, r.2) else for_predecessors_loop f rest r.2

/-- Calls a functor on every predecessor of `v`; `false` if the loop was aborted. -/
def for_predecessors (graph : Graph P) (v : Nat) (f : vertex_fn σ) (s : σ) : Bool × σ :=
  for_predecessors_loop f (in_edges v graph) s

/-- The loop of `for_successors` over the out-edge range. -/
def for_successors_loop (f : vertex_fn σ) : List edge_descriptor → σ → Bool × σ
  | [], s => (true, s)
  | eit :: rest, s =>
    let suc := target eit
    let r := call_for_vertex_fn f suc s
    if r.1 == false then (false, r.2) else for_successors_loop f rest r.2

/-- Calls a functor on every successor of `v`; `false` if the loop was aborted. -/
def for_successors (graph : Graph P) (v : Nat) (f : vertex_fn σ) (s : σ) : Bool × σ :=
  for_successors_loop f (out_edges v graph) s

/-- The function `insert_vertex_on_edge`: looks the edge up (the result is not
used), adds a vertex `w`, removes `u -> v`, adds `u -> w` and `w -> v`. -/
def insert_vertex_on_edge [Inhabited P] (u v : Nat) (graph : Graph P) : Nat × Graph P :=
  let _e := edge u v graph
  let r := add_vertex graph
  let w := r.1
  let graph := remove_edge u v r.2
  let graph := add_edge u w graph
  let graph := add_edge w v graph
  (w, graph)

/-! ## Breadth-first search -/

/-- How a call into the search ended: normally, or by `abort_search_exception`
leaving the callee; either way with the captured state. -/
inductive unwinding (σ : Type) where
  | normal (s : σ)
  | abort_search_exception (s : σ)

/-- The visitor hook `bfs_visitor::discover_vertex`: throws when the functor
returns `true`. -/
def discover_vertex (f : σ → Nat → Graph P → Bool × σ) (v : Nat) (graph : Graph P)
    (s : σ) : unwinding σ :=
  let r := f s v graph
  if r.1 == true then .abort_search_exception r.2 else .normal r.2

/-- The state of `boost::breadth_first_visit`: the vertices that are no longer
white (in the order they were coloured), the queue, and the functor's state. -/
structure bfs_state (σ : Type) where
  color : List Nat
  Q : List Nat
  st : σ

/-- The out-edge loop of `boost::breadth_first_visit` for one examined vertex:
a white target is coloured gray, discovered and pushed on the queue. -/
def bfs_examine (f : σ → Nat → Graph P → Bool × σ) (graph : Graph P) :
    List edge_descriptor → bfs_state σ → unwinding (bfs_state σ)
  | [], b => .normal b
  | e :: rest, b =>
    let v := target e
    if b.color.contains v then bfs_examine f graph rest b
    else
      match discover_vertex f v graph b.st with
      | .abort_search_exception s =>
        .abort_search_exception { color := b.color ++ [v], Q := b.Q, st := s }
      | .normal s =>
        bfs_examine f graph rest { color := b.color ++ [v], Q := b.Q ++ [v], st := s }

/-- The queue loop of `boost::breadth_first_visit`.  It runs at most once per
vertex; `none` means the iteration bound was used up with the queue not empty. -/
def bfs_loop (f : σ → Nat → Graph P → Bool × σ) (graph : Graph P) :
    Nat → bfs_state σ → Option (unwinding σ)
  | _, { color := _, Q := [], st := s } => some (.normal s)
  | 0, { color := _, Q := _ :: _, st := _ } => none
  | fuel + 1, { color := color, Q := u :: Q, st := s } =>
    match bfs_examine f graph (out_edges u graph) { color := color, Q := Q, st := s } with
    | .abort_search_exception b => some (.abort_search_exception b.st)
    | .normal b => bfs_loop f graph fuel b

/-- The call `boost::breadth_first_search(graph, start, visitor(vis))` with the
default colour map and a FIFO queue: all vertices start white, the start vertex
is coloured gray, discovered and queued. -/
def breadth_first_search (graph : Graph P) (start : Nat)
    (f : σ → Nat → Graph P → Bool × σ) (s : σ) : Option (unwinding σ) :=
  match discover_vertex f start graph s with
  | .abort_search_exception s => some (.abort_search_exception s)
  | .normal s => bfs_loop f graph (num_vertices graph) { color := [start], Q := [start], st := s }

/-- The function `search_vertex_bf`: runs the search and swallows
`abort_search_exception`.  The result is the functor's captured state. -/
def search_vertex_bf (start : Nat) (graph : Graph P) (f : σ → Nat → Graph P → Bool × σ)
    (s : σ) : Option σ :=
  match breadth_first_search graph start f s with
  | none => none
  | some (.normal s) => some s
  | some (.abort_search_exception s) => some s

end graph_utils

/-! ## The command graph -/

/-- Modelled from the spec: the enumeration of command.h, which is not part of
the sources.  Section 3 lists the four command kinds; `NOP` is the kind of a
vertex that carries no command, such as the begin and end vertex of a task. -/
inductive command where
  | NOP
  | COMPUTE
  | MASTER_ACCESS
  | PULL
  | AWAIT_PULL
deriving DecidableEq, Repr

/-- Modelled from the spec: a sub-range of an iteration space (subrange.h is not
part of the sources), given by its offset and its extent per dimension. -/
structure subrange where
  offset : List Nat
  range : List Nat
deriving DecidableEq, Repr

/-- Modelled from the spec: a box of a buffer region (grid.h is not part of the
sources), given by its lower and upper corner. -/
structure GridBox where
  box_min : List Nat
  box_max : List Nat
deriving DecidableEq, Repr

/-- Modelled from the spec: the region stored in a command.  The conversions
`command_subrange` and `detail::grid_box_to_subrange` belong to the region
algebra, which is not part of the sources; the value records which argument was
converted. -/
inductive command_subrange where
  | of_subrange (chunk : subrange)
  | of_grid_box (req : GridBox)
deriving DecidableEq, Repr

/-- Modelled from the spec: the kind-specific payload `data` of a command
(command.h is not part of the sources), with the members that `graph_utils.h`
assigns. -/
inductive command_data where
  | unset
  | compute (chunk : command_subrange)
  | pull (bid : Nat) (source : Nat) (subrange : command_subrange)
  | await_pull (bid : Nat) (target : Nat) (target_tid : Nat)
      (subrange : command_subrange)
deriving DecidableEq, Repr

/-- The text of a label is produced by `fmt::format`; the value records the
format that was used and its arguments. -/
inductive label_text where
  | blank
  | compute_label (nid : Nat) (chunk : subrange)
  | pull_label (nid : Nat) (bid : Nat) (source_nid : Nat) (req : GridBox)
  | await_pull_label (source_nid : Nat) (bid : Nat) (nid : Nat) (req : GridBox)
deriving DecidableEq, Repr

/-- Modelled from the spec: the bundle of a command-graph vertex (graph.h is not
part of the sources), with the members that `graph_utils.h` reads and writes. -/
structure cdag_vertex_properties where
  label : label_text
  cmd : command
  nid : Nat
  tid : Nat
  data : command_data
deriving DecidableEq, Repr

instance : Inhabited cdag_vertex_properties :=
  ⟨{ label := .blank, cmd := .NOP, nid := 0, tid := 0, data := .unset }⟩

/-- The command graph. -/
abbrev command_dag := Graph cdag_vertex_properties

namespace graph_utils

open Graph

/-- The function `add_compute_cmd`: a new vertex `v` with `tv.first -> v` and
`v -> tv.second`, then the fields of `v`. -/
def add_compute_cmd (nid : Nat) (tv : task_vertices) (chunk : subrange) (cdag : command_dag) :
    Nat × command_dag :=
  let r := add_vertex cdag
  let v := r.1
  let cdag := add_edge tv.1 v r.2
  let cdag := add_edge v tv.2 cdag
  let cdag := cdag.update v (fun p => { p with cmd := command.COMPUTE })
  let cdag := cdag.update v (fun p => { p with nid := nid })
  let cdag := cdag.update v (fun p => { p with tid := (cdag.get tv.1).tid })
  let cdag := cdag.update v (fun p => { p with label := label_text.compute_label nid chunk })
  let cdag := cdag.update v (fun p => { p with data := command_data.compute (.of_subrange chunk) })
  (v, cdag)

/-- The functor that `add_pull_cmd` hands to `search_vertex_bf`.  Its state is
the captured `source_command_v`. -/
def find_source_command (source_nid : Nat) (_source_tv : task_vertices) :
    Nat → Nat → command_dag → Bool × Nat :=
  fun source_command_v v cdag =>
    if (cdag.get v).cmd = command.MASTER_ACCESS ∨
        (cdag.get v).cmd = command.COMPUTE ∧ (cdag.get v).nid = source_nid then
      (true, v)
    else (false, source_command_v)

/-- The first part of `add_pull_cmd` (lines 136 to 143): the PULL vertex is put on
the edge `tv.first -> req_cmd` and its fields are set. -/
def add_pull_cmd_pull (nid source_nid : Nat) (bid : Nat) (tv : task_vertices)
    (req_cmd : Nat) (req : GridBox) (cdag : command_dag) : Nat × command_dag :=
  let r := insert_vertex_on_edge tv.1 req_cmd cdag
  let v := r.1
  let cdag := r.2
  let cdag := cdag.update v (fun p => { p with cmd := command.PULL })
  let cdag := cdag.update v (fun p => { p with nid := nid })
  let cdag := cdag.update v (fun p => { p with tid := (cdag.get tv.1).tid })
  let cdag := cdag.update v (fun p => { p with label := label_text.pull_label nid bid source_nid req })
  let cdag := cdag.update v (fun p => { p with data := command_data.pull bid source_nid (.of_grid_box req) })
  (v, cdag)

/-- The last part of `add_pull_cmd` (lines 166 to 180): the AWAIT_PULL vertex is
put on the edge `source_tv.first -> source_command_v`, its fields are set, and it
is linked with the PULL vertex `v` in both directions. -/
def add_pull_cmd_await (nid source_nid : Nat) (bid : Nat) (tv source_tv : task_vertices)
    (req : GridBox) (v source_command_v : Nat) (cdag : command_dag) : Nat × command_dag :=
  let r := insert_vertex_on_edge source_tv.1 source_command_v cdag
  let w := r.1
  let cdag := r.2
  let cdag := cdag.update w (fun p => { p with cmd := command.AWAIT_PULL })
  let cdag := cdag.update w (fun p => { p with nid := source_nid })
  let cdag := cdag.update w (fun p => { p with tid := (cdag.get source_tv.1).tid })
  let cdag := cdag.update w (fun p => { p with label := label_text.await_pull_label source_nid bid nid req })
  let cdag := cdag.update w (fun p =>
    { p with data := command_data.await_pull bid nid (cdag.get tv.1).tid (.of_grid_box req) })
  let cdag := add_edge w v cdag
  let cdag := add_edge v w cdag
  (w, cdag)

/-- The fallback of line 163: without a match and with the master node as
source, the end vertex of the source task is taken. -/
def master_fallback (source_nid : Nat) (source_tv : task_vertices) (source_command_v : Nat) :
    Nat :=
  if source_command_v = size_t_max ∧ source_nid = 0 then source_tv.2 else source_command_v

/-- The function `add_pull_cmd`.  The result is `none` when an assertion fails
(or the search does not come to an end), else the PULL vertex and the graph. -/
def add_pull_cmd (nid source_nid : Nat) (bid : Nat) (tv source_tv : task_vertices)
    (req_cmd : Nat) (req : GridBox) (cdag : command_dag) : Option (Nat × command_dag) :=
  if (cdag.get req_cmd).cmd = command.COMPUTE ∨ (cdag.get req_cmd).cmd = command.MASTER_ACCESS then
    let r := add_pull_cmd_pull nid source_nid bid tv req_cmd req cdag
    let v := r.1
    let cdag := r.2
    match search_vertex_bf source_tv.1 cdag (find_source_command source_nid source_tv) size_t_max with
    | none => none
    | some source_command_v =>
      let source_command_v := master_fallback source_nid source_tv source_command_v
      if source_command_v ≠ size_t_max then
        let r := add_pull_cmd_await nid source_nid bid tv source_tv req v source_command_v cdag
        some (v, r.2)
      else none
  else none

end graph_utils

end celerity

namespace celerity

namespace graph_utils

/-! ## Graph printing -/

/-- The newline character, written as "\n" in the source. -/
def newline_char : Char := Char.ofNat 10

/-- The double-quote character. -/
def quote_char : Char := Char.ofNat 34

/-- The backslash character. -/
def backslash_char : Char := Char.ofNat 92

/-- The call `boost::replace_all(str, search, format)` for a search string of
one character, as in both calls of `write_graph_mux`: every occurrence of the
character is replaced, from left to right. -/
def replace_all : List Char → Char → List Char → List Char
  | [], _, _ => []
  | c :: rest, search, format =>
    (if c = search then format else [c]) ++ replace_all rest search format

/-- The function `write_graph_mux`, given the text that `write_graphviz` wrote to
the stream and the name of the graph: the result is the map handed to the
logger. -/
def write_graph_mux (rendered : List Char) (name : List Char) : List (String × List Char) :=
  let str := rendered
  let str := replace_all str newline_char [backslash_char, 'n']
  let str := replace_all str quote_char [backslash_char, quote_char]
  [("name", name), ("data", str)]

end graph_utils

end celerity

/-! ## Observing a functor

The definitions below are not part of `graph_utils.h`.  They record the calls
of a functor, so that statements can speak about the vertices on which it was
invoked, and fix the small graphs used as concrete inputs. -/

namespace celerity

namespace graph_utils

open Graph

variable {P σ : Type}

/-- The functor `f`, additionally appending every vertex it is called on to a
log kept next to its state. -/
def logged : vertex_fn σ → vertex_fn (σ × List Nat)
  | .returns_bool fn => .returns_bool (fun s v => ((fn s.1 v).1, ((fn s.1 v).2, s.2 ++ [v])))
  | .returns_void fn => .returns_void (fun s v => (fn s.1 v, s.2 ++ [v]))

/-- A `bool` functor without state that returns `true` on every call. -/
def always_true : Unit → Nat → Bool × Unit := fun s _ => (true, s)

/-- A `bool` functor without state that returns `false` on every call. -/
def always_false : Unit → Nat → Bool × Unit := fun s _ => (false, s)

/-- The graph with the edges 0 -> 1, 0 -> 2, 1 -> 3, 2 -> 3. -/
def diamond : Graph Unit := { m_vertices := [(), (), (), ()], m_edges := [(0, 1), (0, 2), (1, 3), (2, 3)] }

/-- The search functor `f`, additionally appending every vertex it is called on
to a log kept next to its state. -/
def traced (f : σ → Nat → Graph P → Bool × σ) :
    σ × List Nat → Nat → Graph P → Bool × (σ × List Nat) :=
  fun s v g => ((f s.1 v g).1, ((f s.1 v g).2, s.2 ++ [v]))

/-- A search functor without state that never stops the search. -/
def never_stop : Unit → Nat → Graph P → Bool × Unit := fun s _ _ => (false, s)

/-- The breadth-first discovery order from `start`: the vertices on which the
search calls a functor that never stops it, in the order of the calls. -/
def discovery_order (g : Graph P) (start : Nat) : Option (List Nat) :=
  (search_vertex_bf start g (traced never_stop) ((), [])).map (fun r => r.2)

/-- Calls `f` on the vertices of a list in order and stops right after the first
call that returns `true`.  The result tells whether a call returned `true`, and
gives the final state and the vertices `f` was called on. -/
def call_until_true (f : σ → Nat → Graph P → Bool × σ) (g : Graph P) :
    List Nat → σ → Bool × σ × List Nat
  | [], s => (false, s, [])
  | v :: vs, s =>
    if (f s v g).1 = true then (true, (f s v g).2, [v])
    else
      ((call_until_true f g vs (f s v g).2).1, (call_until_true f g vs (f s v g).2).2.1,
        v :: (call_until_true f g vs (f s v g).2).2.2)

/-- The vertices that the out-edge loop of the search discovers, in order, when
no call stops it: the targets that are white when their edge is examined. -/
def examine_new : List edge_descriptor → List Nat → List Nat
  | [], _ => []
  | e :: rest, color =>
    if color.contains e.2 then examine_new rest color
    else e.2 :: examine_new rest (color ++ [e.2])

/-- The vertices that the queue loop of the search discovers, in order, when no
call stops it; `none` when the iteration bound is used up. -/
def bfs_rest (g : Graph P) : Nat → List Nat → List Nat → Option (List Nat)
  | _, _, [] => some []
  | 0, _, _ :: _ => none
  | fuel + 1, color, u :: Q =>
    match bfs_rest g fuel (color ++ examine_new (out_edges u g) color)
        (Q ++ examine_new (out_edges u g) color) with
    | none => none
    | some D => some (examine_new (out_edges u g) color ++ D)

/-- The condition under which the functor of `add_pull_cmd` returns `true` on `v`:
a MASTER_ACCESS command, or a COMPUTE command on `source_nid`. -/
def is_source_command (source_nid : Nat) (cdag : command_dag) (v : Nat) : Bool :=
  decide ((cdag.get v).cmd = command.MASTER_ACCESS ∨
    (cdag.get v).cmd = command.COMPUTE ∧ (cdag.get v).nid = source_nid)

/-- The bundle that `add_pull_cmd` gives the PULL vertex. -/
def pull_properties (nid source_nid bid : Nat) (tv : task_vertices) (req : GridBox)
    (cdag : command_dag) : cdag_vertex_properties :=
  { label := label_text.pull_label nid bid source_nid req
    cmd := command.PULL
    nid := nid
    tid := (cdag.get tv.1).tid
    data := command_data.pull bid source_nid (.of_grid_box req) }

/-- The bundle that `add_pull_cmd` gives the AWAIT_PULL vertex. -/
def await_pull_properties (nid source_nid bid : Nat) (tv source_tv : task_vertices) (req : GridBox)
    (cdag : command_dag) : cdag_vertex_properties :=
  { label := label_text.await_pull_label source_nid bid nid req
    cmd := command.AWAIT_PULL
    nid := source_nid
    tid := (cdag.get source_tv.1).tid
    data := command_data.await_pull bid nid (cdag.get tv.1).tid (.of_grid_box req) }

/-- The graph after the first part of `add_pull_cmd`: the PULL vertex is the
vertex `num_vertices cdag`, on the edge `tv.first -> req_cmd`. -/
def pull_graph (nid source_nid bid : Nat) (tv : task_vertices) (req_cmd : Nat) (req : GridBox)
    (cdag : command_dag) : command_dag :=
  { m_vertices := cdag.m_vertices ++ [pull_properties nid source_nid bid tv req cdag]
    m_edges := cdag.m_edges.filter (fun e => !(e.1 == tv.1 && e.2 == req_cmd)) ++
      [(tv.1, cdag.m_vertices.length), (cdag.m_vertices.length, req_cmd)] }

/-- The graph after `add_pull_cmd` when the AWAIT_PULL vertex is put before the
vertex `m`: the AWAIT_PULL vertex is the vertex `num_vertices cdag + 1`, on the
edge `source_tv.first -> m`, and linked with the PULL vertex both ways. -/
def pull_await_graph (nid source_nid bid : Nat) (tv source_tv : task_vertices) (req_cmd : Nat)
    (req : GridBox) (cdag : command_dag) (m : Nat) : command_dag :=
  { m_vertices := cdag.m_vertices ++
      [pull_properties nid source_nid bid tv req cdag,
       await_pull_properties nid source_nid bid tv source_tv req cdag]
    m_edges :=
      (pull_graph nid source_nid bid tv req_cmd req cdag).m_edges.filter
          (fun e => !(e.1 == source_tv.1 && e.2 == m)) ++
        [(source_tv.1, cdag.m_vertices.length + 1), (cdag.m_vertices.length + 1, m),
         (cdag.m_vertices.length + 1, cdag.m_vertices.length),
         (cdag.m_vertices.length, cdag.m_vertices.length + 1)] }

/-- A vertex that carries no command and belongs to task `tid`. -/
def span_vertex (tid : Nat) : cdag_vertex_properties :=
  { label := .blank, cmd := .NOP, nid := 0, tid := tid, data := .unset }

/-- Two tasks without commands: task 1 with begin 0 and end 1, task 2 with
begin 2 and end 3, and the edge 1 -> 2 from the end of task 1 to the begin of
task 2.  With `span_edges` the edges 0 -> 1 and 2 -> 3 from each begin to its
end are there as well. -/
def two_spans (span_edges : Bool) : command_dag :=
  { m_vertices := [span_vertex 1, span_vertex 1, span_vertex 2, span_vertex 2]
    m_edges := if span_edges then [(0, 1), (2, 3), (1, 2)] else [(1, 2)] }

/-- The sub-range `[0, 10)` in one dimension. -/
def chunk_0_10 : subrange := { offset := [0], range := [10] }

/-- The box `[0, 10)` in one dimension. -/
def box_0_10 : GridBox := { box_min := [0], box_max := [10] }

/-- The end-to-end scenario: task 1 has the COMPUTE command 4 on node 0, task 2
the COMPUTE command 5 on node 1, both added by `add_compute_cmd`. -/
def two_tasks (span_edges : Bool) : command_dag :=
  (add_compute_cmd 1 (2, 3) chunk_0_10
    (add_compute_cmd 0 (0, 1) chunk_0_10 (two_spans span_edges)).2).2

/-- The vertex `a` is of kind `k` and linked with `v` by an edge in each
direction. -/
def is_partner (g : command_dag) (k : command) (v a : Nat) : Prop :=
  (g.get a).cmd = k ∧ g.has_edge v a ∧ g.has_edge a v

instance (g : command_dag) (k : command) (v a : Nat) : Decidable (is_partner g k v a) :=
  inferInstanceAs (Decidable ((g.get a).cmd = k ∧ g.has_edge v a ∧ g.has_edge a v))

/-- Exactly one vertex of the graph is a partner of kind `k` of `v`. -/
def has_one_partner (g : command_dag) (k : command) (v : Nat) : Prop :=
  ∃ a, a < g.m_vertices.length ∧
    (is_partner g k v a ∧ ∀ b, b < g.m_vertices.length → is_partner g k v b → b = a)

instance (g : command_dag) (k : command) (v : Nat) : Decidable (has_one_partner g k v) :=
  inferInstanceAs (Decidable (∃ a, a < g.m_vertices.length ∧
    (is_partner g k v a ∧ ∀ b, b < g.m_vertices.length → is_partner g k v b → b = a)))

/-- Pull/await pairing: every PULL vertex is linked, by an edge in each
direction, with exactly one AWAIT_PULL vertex, and every AWAIT_PULL vertex with
exactly one PULL vertex. -/
def paired (g : command_dag) : Prop :=
  ∀ v, v < g.m_vertices.length →
    ((g.get v).cmd = command.PULL → has_one_partner g command.AWAIT_PULL v) ∧
    ((g.get v).cmd = command.AWAIT_PULL → has_one_partner g command.PULL v)

instance (g : command_dag) : Decidable (paired g) :=
  inferInstanceAs (Decidable (∀ v, v < g.m_vertices.length →
    ((g.get v).cmd = command.PULL → has_one_partner g command.AWAIT_PULL v) ∧
    ((g.get v).cmd = command.AWAIT_PULL → has_one_partner g command.PULL v)))

/-- The scenario in which the search leaves the source task: task 1 has only the
COMPUTE command 4 on node 1; task 2 has the COMPUTE command 5 on node 0 and the
COMPUTE command 6 on node 1; all three were added by `add_compute_cmd`. -/
def three_commands (span_edges : Bool) : command_dag :=
  (add_compute_cmd 1 (2, 3) chunk_0_10
    (add_compute_cmd 0 (2, 3) chunk_0_10
      (add_compute_cmd 1 (0, 1) chunk_0_10 (two_spans span_edges)).2).2).2

/-- Reachability decided by the search: `b` is in the discovery order from `a`. -/
def reaches (g : Graph P) (a b : Nat) : Bool :=
  match discovery_order g a with
  | some order => order.contains b
  | none => false

/-- Span reachability for the task with begin and end `tv`: the end is
reachable from the begin, and every command of the task (a vertex with a
command and the task id of the begin vertex) lies on a path from the begin to
the end. -/
def span_reachability (g : command_dag) (tv : task_vertices) : Prop :=
  g.reachable tv.1 tv.2 ∧
  ∀ x, x < g.m_vertices.length → (g.get x).cmd ≠ command.NOP →
    (g.get x).tid = (g.get tv.1).tid → g.reachable tv.1 x ∧ g.reachable x tv.2

/-- Span reachability, decided by the search. -/
def span_reachability_check (g : command_dag) (tv : task_vertices) : Bool :=
  reaches g tv.1 tv.2 &&
  (List.range g.m_vertices.length).all (fun x =>
    decide ((g.get x).cmd = command.NOP) || decide ((g.get x).tid ≠ (g.get tv.1).tid) ||
      (reaches g tv.1 x && reaches g x tv.2))

/-- The bundle that `add_compute_cmd` gives the COMPUTE vertex. -/
def compute_properties (nid : Nat) (tv : task_vertices) (chunk : subrange) (cdag : command_dag) :
    cdag_vertex_properties :=
  { label := label_text.compute_label nid chunk
    cmd := command.COMPUTE
    nid := nid
    tid := (cdag.get tv.1).tid
    data := command_data.compute (.of_subrange chunk) }

/-- What a character of the rendered text becomes: a newline becomes backslash
and `n`, a double quote becomes backslash and double quote, any other character
stays. -/
def escape_char (c : Char) : List Char :=
  if c = newline_char then [backslash_char, 'n']
  else if c = quote_char then [backslash_char, quote_char]
  else [c]

/-- The text with every character escaped, in one pass. -/
def escape_text : List Char → List Char
  | [] => []
  | c :: rest => escape_char c ++ escape_text rest

/-- Every double quote of the text stands right after a backslash. -/
def quotes_escaped (l : List Char) : Prop :=
  ∀ pre post, l = pre ++ quote_char :: post → ∃ pre', pre = pre' ++ [backslash_char]

/-- The edge joins a PULL vertex and an AWAIT_PULL vertex, in either direction. -/
def is_link (g : command_dag) (e : edge_descriptor) : Bool :=
  decide (((g.get e.1).cmd = command.PULL ∧ (g.get e.2).cmd = command.AWAIT_PULL) ∨
    ((g.get e.1).cmd = command.AWAIT_PULL ∧ (g.get e.2).cmd = command.PULL))

/-- An edge `a -> b` that does not join a PULL and an AWAIT_PULL vertex: an
edge of the local ordering. -/
def local_edge (g : command_dag) (a b : Nat) : Prop :=
  g.has_edge a b ∧ is_link g (a, b) = false

instance (g : command_dag) (a b : Nat) : Decidable (local_edge g a b) :=
  inferInstanceAs (Decidable (g.has_edge a b ∧ is_link g (a, b) = false))

/-- There is a cycle of edges of the local ordering. -/
def has_local_cycle (g : command_dag) : Prop :=
  ∃ x, Relation.TransGen (local_edge g) x x

/-- Every edge of the local ordering goes up in the given ranking of the
vertices. -/
def ranked (g : command_dag) (rank : List Nat) : Prop :=
  ∀ e ∈ g.m_edges, is_link g e = false → rank.getD e.1 0 < rank.getD e.2 0

instance (g : command_dag) (rank : List Nat) : Decidable (ranked g rank) :=
  inferInstanceAs (Decidable
    (∀ e ∈ g.m_edges, is_link g e = false → rank.getD e.1 0 < rank.getD e.2 0))

/-- The scenario with three nodes: task 1 (begin 0, end 1) has the COMPUTE
command 4 on node 0; task 2 (begin 2, end 3) has the COMPUTE command 5 on node 1
and the COMPUTE command 6 on node 2; all were added by `add_compute_cmd`. -/
def three_nodes : command_dag :=
  (add_compute_cmd 2 (2, 3) chunk_0_10 (two_tasks true)).2

/-- The three-node scenario after node 1 pulled buffer 7 from node 0 for its
command 5, with task 1 as source: PULL vertex 7, AWAIT_PULL vertex 8 before the
command 4. -/
def three_nodes_pulled : command_dag :=
  pull_await_graph 1 0 7 (2, 3) (0, 1) 5 box_0_10 three_nodes 4

/-- There is a path from `a` to `b` with at most `k` edges. -/
def reach_within (g : Graph P) : Nat → Nat → Nat → Prop
  | 0, a, b => a = b
  | k + 1, a, b => a = b ∨ ∃ c, reach_within g k a c ∧ g.has_edge c b

/-- The vertex `x` is at most as far from `s` as `y`: whenever `y` is reached
from `s` within `k` edges, so is `x`. -/
def not_farther (g : Graph P) (s x y : Nat) : Prop :=
  ∀ k, reach_within g k s y → reach_within g k s x

end graph_utils

end celerity

/-! ## Theorems -/

namespace celerity

namespace graph_utils

open Graph

variable {P σ : Type}

/-! ### Edge splitting -/

theorem insert_vertex_on_edge_fst [Inhabited P] (u v : Nat) (g : Graph P) :
    (insert_vertex_on_edge u v g).1 = g.m_vertices.length := rfl

theorem insert_vertex_on_edge_edges [Inhabited P] (u v : Nat) (g : Graph P) :
    (insert_vertex_on_edge u v g).2.m_edges =
      g.m_edges.filter (fun e => !(e.1 == u && e.2 == v)) ++
        [(u, g.m_vertices.length), (g.m_vertices.length, v)] := by
  simp [insert_vertex_on_edge, add_vertex, remove_edge, add_edge]

theorem insert_vertex_on_edge_vertices [Inhabited P] (u v : Nat) (g : Graph P)
    (hu : u < g.m_vertices.length) (hv : v < g.m_vertices.length) :
    (insert_vertex_on_edge u v g).2.m_vertices = g.m_vertices ++ [default] := by
  have h1 : max u g.m_vertices.length + 1 - (g.m_vertices.length + 1) = 0 := by
    rw [Nat.max_def]; split <;> omega
  have h2 : max g.m_vertices.length v + 1 - (g.m_vertices.length + 1) = 0 := by
    rw [Nat.max_def]; split <;> omega
  simp [insert_vertex_on_edge, add_vertex, remove_edge, add_edge, h1, h2]

theorem has_edge_insert_vertex_on_edge [Inhabited P] (u v a b : Nat) (g : Graph P) :
    (insert_vertex_on_edge u v g).2.has_edge a b ↔
      (g.has_edge a b ∧ (a, b) ≠ (u, v)) ∨ (a, b) = (u, g.m_vertices.length) ∨
        (a, b) = (g.m_vertices.length, v) := by
  unfold has_edge
  rw [insert_vertex_on_edge_edges]
  simp only [List.mem_append, List.mem_filter, List.mem_cons, List.mem_singleton, List.not_mem_nil,
    or_false, Bool.not_eq_true', Bool.and_eq_false_imp, beq_iff_eq, Prod.mk.injEq, ne_eq, not_and,
    beq_eq_false_iff_ne]

theorem well_formed_fst {g : Graph P} (hwf : g.well_formed) {a b : Nat} (h : g.has_edge a b) :
    a < g.m_vertices.length := (hwf (a, b) h).1

theorem well_formed_snd {g : Graph P} (hwf : g.well_formed) {a b : Nat} (h : g.has_edge a b) :
    b < g.m_vertices.length := (hwf (a, b) h).2

end graph_utils

end celerity

namespace celerity

namespace graph_utils

open Graph

variable {P σ : Type}

/-! ### The predecessor and successor loops -/

theorem for_predecessors_loop_void (fn : σ → Nat → σ) (es : List edge_descriptor) (s : σ)
    (l : List Nat) :
    for_predecessors_loop (logged (.returns_void fn)) es (s, l) =
      (true, ((es.map source).foldl fn s, l ++ es.map source)) := by
  induction es generalizing s l with
  | nil => simp [for_predecessors_loop]
  | cons e rest ih =>
    have h := ih (fn s (source e)) (l ++ [source e])
    simp only [logged] at h ⊢
    simp [for_predecessors_loop, call_for_vertex_fn, h]

theorem for_successors_loop_void (fn : σ → Nat → σ) (es : List edge_descriptor) (s : σ)
    (l : List Nat) :
    for_successors_loop (logged (.returns_void fn)) es (s, l) =
      (true, ((es.map target).foldl fn s, l ++ es.map target)) := by
  induction es generalizing s l with
  | nil => simp [for_successors_loop]
  | cons e rest ih =>
    have h := ih (fn s (target e)) (l ++ [target e])
    simp only [logged] at h ⊢
    simp [for_successors_loop, call_for_vertex_fn, h]

theorem mem_in_edges_source (g : Graph P) (v x : Nat) :
    x ∈ (in_edges v g).map source ↔ g.has_edge x v := by
  simp only [in_edges, source, has_edge, List.mem_map, List.mem_filter, beq_iff_eq, Prod.exists]
  constructor
  · rintro ⟨a, b, ⟨h, rfl⟩, rfl⟩; exact h
  · intro h; exact ⟨x, v, ⟨h, rfl⟩, rfl⟩

theorem mem_out_edges_target (g : Graph P) (v x : Nat) :
    x ∈ (out_edges v g).map target ↔ g.has_edge v x := by
  simp only [out_edges, target, has_edge, List.mem_map, List.mem_filter, beq_iff_eq, Prod.exists]
  constructor
  · rintro ⟨a, b, ⟨h, rfl⟩, rfl⟩; exact h
  · intro h; exact ⟨v, x, ⟨h, rfl⟩, rfl⟩

theorem count_in_edges_source (es : List edge_descriptor) (v x : Nat) :
    ((es.filter (fun e => e.2 == v)).map source).count x = es.count (x, v) := by
  induction es with
  | nil => rfl
  | cons e rest ih =>
    rcases e with ⟨a, b⟩
    by_cases hb : b = v
    · by_cases ha : a = x
      · subst hb; subst ha
        simp [List.filter_cons, source, ih]
      · have : ¬ ((a, b) = (x, v)) := by simp [ha]
        simp [List.filter_cons, source, hb, ih, List.count_cons, ha]
    · have : ¬ ((a, b) = (x, v)) := by simp [hb]
      simp [List.filter_cons, hb, ih, List.count_cons]

theorem count_out_edges_target (es : List edge_descriptor) (v x : Nat) :
    ((es.filter (fun e => e.1 == v)).map target).count x = es.count (v, x) := by
  induction es with
  | nil => rfl
  | cons e rest ih =>
    rcases e with ⟨a, b⟩
    by_cases ha : a = v
    · by_cases hb : b = x
      · subst hb; subst ha
        simp [List.filter_cons, target, ih]
      · have : ¬ ((a, b) = (v, x)) := by simp [hb]
        simp [List.filter_cons, target, ha, ih, List.count_cons, hb]
    · have : ¬ ((a, b) = (v, x)) := by simp [ha]
      simp [List.filter_cons, ha, ih, List.count_cons]

end graph_utils

end celerity

namespace celerity

namespace graph_utils

open Graph

variable {P σ : Type}

/-! ### The search against the discovery order -/

theorem call_until_true_cons_true (f : σ → Nat → Graph P → Bool × σ) (g : Graph P)
    (v : Nat) (vs : List Nat) (s : σ) (h : (f s v g).1 = true) :
    call_until_true f g (v :: vs) s = (true, (f s v g).2, [v]) := by
  simp [call_until_true, h]

theorem call_until_true_cons_false (f : σ → Nat → Graph P → Bool × σ) (g : Graph P)
    (v : Nat) (vs : List Nat) (s : σ) (h : (f s v g).1 = false) :
    call_until_true f g (v :: vs) s =
      ((call_until_true f g vs (f s v g).2).1, (call_until_true f g vs (f s v g).2).2.1,
        v :: (call_until_true f g vs (f s v g).2).2.2) := by
  simp [call_until_true, h]

theorem call_until_true_append (f : σ → Nat → Graph P → Bool × σ) (g : Graph P)
    (l1 l2 : List Nat) (s : σ) :
    call_until_true f g (l1 ++ l2) s =
      if (call_until_true f g l1 s).1 = true then call_until_true f g l1 s
      else ((call_until_true f g l2 (call_until_true f g l1 s).2.1).1,
            (call_until_true f g l2 (call_until_true f g l1 s).2.1).2.1,
            l1 ++ (call_until_true f g l2 (call_until_true f g l1 s).2.1).2.2) := by
  induction l1 generalizing s with
  | nil => simp [call_until_true]
  | cons v vs ih =>
    cases h : (f s v g).1 with
    | true => simp [call_until_true_cons_true f g v _ s h]
    | false =>
      rw [List.cons_append, call_until_true_cons_false f g v _ s h,
        call_until_true_cons_false f g v _ s h, ih]
      cases h2 : (call_until_true f g vs (f s v g).2).1 <;> simp [h2]

theorem call_until_true_calls_of_not_stopped (f : σ → Nat → Graph P → Bool × σ) (g : Graph P)
    (l : List Nat) (s : σ) (h : (call_until_true f g l s).1 = false) :
    (call_until_true f g l s).2.2 = l := by
  induction l generalizing s with
  | nil => simp [call_until_true]
  | cons v vs ih =>
    cases hv : (f s v g).1 with
    | true => simp [call_until_true_cons_true f g v _ s hv] at h
    | false =>
      rw [call_until_true_cons_false f g v _ s hv] at h ⊢
      simp only at h ⊢
      rw [ih _ h]

theorem call_until_true_calls_prefix (f : σ → Nat → Graph P → Bool × σ) (g : Graph P)
    (l : List Nat) (s : σ) : (call_until_true f g l s).2.2 <+: l := by
  induction l generalizing s with
  | nil => simp [call_until_true]
  | cons v vs ih =>
    cases hv : (f s v g).1 with
    | true =>
      rw [call_until_true_cons_true f g v _ s hv]
      exact ⟨vs, rfl⟩
    | false =>
      rw [call_until_true_cons_false f g v _ s hv]
      obtain ⟨t, ht⟩ := ih (f s v g).2
      exact ⟨t, by simp [ht]⟩

theorem call_until_true_traced (f : σ → Nat → Graph P → Bool × σ) (g : Graph P)
    (l : List Nat) (s : σ) (tr : List Nat) :
    call_until_true (traced f) g l (s, tr) =
      ((call_until_true f g l s).1,
        ((call_until_true f g l s).2.1, tr ++ (call_until_true f g l s).2.2),
        (call_until_true f g l s).2.2) := by
  induction l generalizing s tr with
  | nil => simp [call_until_true]
  | cons v vs ih =>
    cases hv : (f s v g).1 with
    | true =>
      have hv' : (traced f (s, tr) v g).1 = true := by simp [traced, hv]
      rw [call_until_true_cons_true f g v _ s hv, call_until_true_cons_true _ g v _ _ hv']
      simp [traced]
    | false =>
      have hv' : (traced f (s, tr) v g).1 = false := by simp [traced, hv]
      rw [call_until_true_cons_false f g v _ s hv, call_until_true_cons_false _ g v _ _ hv']
      have h2 : (traced f (s, tr) v g).2 = ((f s v g).2, tr ++ [v]) := by simp [traced]
      rw [h2, ih]
      simp

theorem call_until_true_never_stop (g : Graph P) (l : List Nat) (s : Unit) :
    call_until_true never_stop g l s = (false, (), l) := by
  induction l generalizing s with
  | nil => simp [call_until_true]
  | cons v vs ih =>
    rw [call_until_true_cons_false never_stop g v _ s rfl, ih]

theorem discover_vertex_of_true (f : σ → Nat → Graph P → Bool × σ) (g : Graph P) (v : Nat)
    (s : σ) (h : (f s v g).1 = true) :
    discover_vertex f v g s = .abort_search_exception (f s v g).2 := by
  simp [discover_vertex, h]

theorem discover_vertex_of_false (f : σ → Nat → Graph P → Bool × σ) (g : Graph P) (v : Nat)
    (s : σ) (h : (f s v g).1 = false) :
    discover_vertex f v g s = .normal (f s v g).2 := by
  simp [discover_vertex, h]

theorem examine_new_cons_mem (e : edge_descriptor) (rest : List edge_descriptor)
    (color : List Nat) (h : color.contains e.2 = true) :
    examine_new (e :: rest) color = examine_new rest color := by
  simp only [examine_new, h, ↓reduceIte]

theorem examine_new_cons_not_mem (e : edge_descriptor) (rest : List edge_descriptor)
    (color : List Nat) (h : color.contains e.2 = false) :
    examine_new (e :: rest) color = e.2 :: examine_new rest (color ++ [e.2]) := by
  simp only [examine_new, h, Bool.false_eq_true, ↓reduceIte]

/-- The out-edge loop, when no call stops it. -/
theorem bfs_examine_normal (f : σ → Nat → Graph P → Bool × σ) (g : Graph P)
    (es : List edge_descriptor) (b : bfs_state σ)
    (h : (call_until_true f g (examine_new es b.color) b.st).1 = false) :
    bfs_examine f g es b =
      .normal { color := b.color ++ examine_new es b.color, Q := b.Q ++ examine_new es b.color,
                st := (call_until_true f g (examine_new es b.color) b.st).2.1 } := by
  induction es generalizing b with
  | nil => simp [bfs_examine, examine_new, call_until_true]
  | cons e rest ih =>
    cases hc : b.color.contains e.2 with
    | true =>
      rw [examine_new_cons_mem e rest _ hc] at h ⊢
      simp only [bfs_examine, target, hc, ↓reduceIte]
      exact ih b h
    | false =>
      rw [examine_new_cons_not_mem e rest _ hc] at h ⊢
      cases hv : (f b.st e.2 g).1 with
      | true => simp [call_until_true_cons_true f g _ _ _ hv] at h
      | false =>
        rw [call_until_true_cons_false f g _ _ _ hv] at h ⊢
        simp only at h
        have := ih { color := b.color ++ [e.2], Q := b.Q ++ [e.2], st := (f b.st e.2 g).2 } h
        simp only [bfs_examine, target, hc, discover_vertex, hv, Bool.false_eq_true, ↓reduceIte]
        simpa [List.append_assoc] using this

/-- The out-edge loop, when a call stops it. -/
theorem bfs_examine_abort (f : σ → Nat → Graph P → Bool × σ) (g : Graph P)
    (es : List edge_descriptor) (b : bfs_state σ)
    (h : (call_until_true f g (examine_new es b.color) b.st).1 = true) :
    ∃ b', bfs_examine f g es b = .abort_search_exception b' ∧
      b'.st = (call_until_true f g (examine_new es b.color) b.st).2.1 := by
  induction es generalizing b with
  | nil => simp [examine_new, call_until_true] at h
  | cons e rest ih =>
    cases hc : b.color.contains e.2 with
    | true =>
      rw [examine_new_cons_mem e rest _ hc] at h ⊢
      simp only [bfs_examine, target, hc, ↓reduceIte]
      exact ih b h
    | false =>
      rw [examine_new_cons_not_mem e rest _ hc] at h ⊢
      cases hv : (f b.st e.2 g).1 with
      | true =>
        rw [call_until_true_cons_true f g _ _ _ hv]
        simp only [bfs_examine, target, hc, discover_vertex, hv, Bool.false_eq_true, ↓reduceIte,
          beq_self_eq_true]
        exact ⟨_, rfl, rfl⟩
      | false =>
        rw [call_until_true_cons_false f g _ _ _ hv] at h ⊢
        simp only at h
        have := ih { color := b.color ++ [e.2], Q := b.Q ++ [e.2], st := (f b.st e.2 g).2 } h
        simp only [bfs_examine, target, hc, discover_vertex, hv, Bool.false_eq_true, ↓reduceIte]
        simpa using this

/-- The queue loop against the discovery order. -/
theorem bfs_loop_eq (f : σ → Nat → Graph P → Bool × σ) (g : Graph P) (fuel : Nat)
    (b : bfs_state σ) (D : List Nat) (h : bfs_rest g fuel b.color b.Q = some D) :
    bfs_loop f g fuel b =
      some (if (call_until_true f g D b.st).1 = true
        then .abort_search_exception (call_until_true f g D b.st).2.1
        else .normal (call_until_true f g D b.st).2.1) := by
  induction fuel generalizing b D with
  | zero =>
    rcases b with ⟨color, Q, st⟩
    cases Q with
    | nil =>
      simp only [bfs_rest, Option.some.injEq] at h
      subst h
      simp [bfs_loop, call_until_true]
    | cons u Q => simp [bfs_rest] at h
  | succ fuel ih =>
    rcases b with ⟨color, Q, st⟩
    cases Q with
    | nil =>
      simp only [bfs_rest, Option.some.injEq] at h
      subst h
      simp [bfs_loop, call_until_true]
    | cons u Q =>
      simp only [bfs_rest] at h
      split at h
      · exact absurd h (by simp)
      · rename_i D' hD'
        simp only [Option.some.injEq] at h
        subst h
        rw [call_until_true_append]
        by_cases hs : (call_until_true f g (examine_new (out_edges u g) color) st).1 = true
        · obtain ⟨b', hb', hst⟩ := bfs_examine_abort f g (out_edges u g)
            { color := color, Q := Q, st := st } hs
          simp only [bfs_loop, hb', hs, if_true, hst]
        · have hs' : (call_until_true f g (examine_new (out_edges u g) color) st).1 = false := by
            simpa using hs
          have hn := bfs_examine_normal f g (out_edges u g) { color := color, Q := Q, st := st } hs'
          simp only [bfs_loop, hn, hs, if_false]
          exact ih _ D' hD'

/-- The search against the discovery order. -/
theorem search_vertex_bf_eq (f : σ → Nat → Graph P → Bool × σ) (g : Graph P) (start : Nat) (s : σ)
    (D : List Nat) (h : bfs_rest g (num_vertices g) [start] [start] = some D) :
    search_vertex_bf start g f s = some (call_until_true f g (start :: D) s).2.1 := by
  cases hv : (f s start g).1 with
  | true =>
    rw [call_until_true_cons_true f g _ _ _ hv]
    simp [search_vertex_bf, breadth_first_search, discover_vertex_of_true f g start s hv]
  | false =>
    have := bfs_loop_eq f g (num_vertices g) { color := [start], Q := [start], st := (f s start g).2 }
      D h
    rw [call_until_true_cons_false f g _ _ _ hv]
    simp only at this
    simp only [search_vertex_bf, breadth_first_search, discover_vertex_of_false f g start s hv]
    rw [this]
    by_cases hc : (call_until_true f g D (f s start g).2).1 = true <;> simp [hc]

end graph_utils

end celerity

namespace celerity

namespace graph_utils

open Graph

variable {P σ : Type}

/-! ### The discovery order: termination, no repetition, reachability -/

theorem examine_new_sound (es : List edge_descriptor) (color : List Nat) :
    ∀ x ∈ examine_new es color, x ∉ color ∧ ∃ e ∈ es, e.2 = x := by
  induction es generalizing color with
  | nil => simp [examine_new]
  | cons e rest ih =>
    intro x hx
    cases hc : color.contains e.2 with
    | true =>
      rw [examine_new_cons_mem e rest _ hc] at hx
      obtain ⟨h1, e', he', h2⟩ := ih color x hx
      exact ⟨h1, e', List.mem_cons_of_mem _ he', h2⟩
    | false =>
      rw [examine_new_cons_not_mem e rest _ hc] at hx
      have hm : e.2 ∉ color := by simpa using hc
      rcases List.mem_cons.mp hx with h | h
      · subst h
        exact ⟨hm, e, List.mem_cons_self _ _, rfl⟩
      · obtain ⟨h1, e', he', h2⟩ := ih (color ++ [e.2]) x h
        exact ⟨fun hx' => h1 (List.mem_append_left _ hx'), e', List.mem_cons_of_mem _ he', h2⟩

theorem examine_new_nodup (es : List edge_descriptor) (color : List Nat) (h : color.Nodup) :
    (color ++ examine_new es color).Nodup := by
  induction es generalizing color with
  | nil => simpa [examine_new] using h
  | cons e rest ih =>
    cases hc : color.contains e.2 with
    | true =>
      rw [examine_new_cons_mem e rest _ hc]
      exact ih color h
    | false =>
      rw [examine_new_cons_not_mem e rest _ hc]
      have hm : e.2 ∉ color := by simpa using hc
      have h2 : (color ++ [e.2]).Nodup := by
        rw [List.nodup_append]
        refine ⟨h, List.nodup_singleton _, ?_⟩
        intro a ha hb
        rw [List.mem_singleton] at hb
        subst hb
        exact hm ha
      have := ih (color ++ [e.2]) h2
      simpa [List.append_assoc] using this

theorem examine_new_complete (es : List edge_descriptor) (color : List Nat) :
    ∀ e ∈ es, e.2 ∈ color ++ examine_new es color := by
  induction es generalizing color with
  | nil => simp
  | cons e rest ih =>
    intro e' he'
    cases hc : color.contains e.2 with
    | true =>
      rw [examine_new_cons_mem e rest _ hc]
      have hm : e.2 ∈ color := by simpa using hc
      rcases List.mem_cons.mp he' with h | h
      · subst h; exact List.mem_append_left _ hm
      · exact ih color e' h
    | false =>
      rw [examine_new_cons_not_mem e rest _ hc]
      rcases List.mem_cons.mp he' with h | h
      · subst h; simp
      · have := ih (color ++ [e.2]) e' h
        simpa [List.append_assoc] using this

theorem length_le_of_nodup_of_lt (l : List Nat) (n : Nat) (hn : l.Nodup) (hlt : ∀ x ∈ l, x < n) :
    l.length ≤ n := by
  have hsub : l ⊆ List.range n := fun x hx => List.mem_range.mpr (hlt x hx)
  have := (List.subperm_of_subset hn hsub).length_le
  simpa using this

/-- The queue loop comes to an end within the iteration bound. -/
theorem bfs_rest_some (g : Graph P) (hwf : g.well_formed) (fuel : Nat) (color Q : List Nat)
    (hn : color.Nodup) (hlt : ∀ x ∈ color, x < g.m_vertices.length)
    (hfuel : g.m_vertices.length - color.length + Q.length ≤ fuel) :
    ∃ D, bfs_rest g fuel color Q = some D := by
  induction fuel generalizing color Q with
  | zero =>
    cases Q with
    | nil => exact ⟨[], by simp [bfs_rest]⟩
    | cons u Q => simp at hfuel
  | succ fuel ih =>
    cases Q with
    | nil => exact ⟨[], by simp [bfs_rest]⟩
    | cons u Q =>
      have hn2 := examine_new_nodup (out_edges u g) color hn
      have hlt2 : ∀ x ∈ color ++ examine_new (out_edges u g) color, x < g.m_vertices.length := by
        intro x hx
        rcases List.mem_append.mp hx with h | h
        · exact hlt x h
        · obtain ⟨_, e, he, rfl⟩ := examine_new_sound (out_edges u g) color x h
          exact (hwf e (List.mem_of_mem_filter he)).2
      have hlen := length_le_of_nodup_of_lt _ _ hn2 hlt2
      have hfuel2 : g.m_vertices.length - (color ++ examine_new (out_edges u g) color).length +
          (Q ++ examine_new (out_edges u g) color).length ≤ fuel := by
        simp only [List.length_append, List.length_cons] at hlen hfuel ⊢
        omega
      obtain ⟨D, hD⟩ := ih _ _ hn2 hlt2 hfuel2
      exact ⟨examine_new (out_edges u g) color ++ D, by simp [bfs_rest, hD]⟩

theorem bfs_rest_nodup (g : Graph P) (fuel : Nat) (color Q D : List Nat)
    (h : bfs_rest g fuel color Q = some D) (hn : color.Nodup) : (color ++ D).Nodup := by
  induction fuel generalizing color Q D with
  | zero =>
    cases Q with
    | nil => simp only [bfs_rest, Option.some.injEq] at h; subst h; simpa using hn
    | cons u Q => simp [bfs_rest] at h
  | succ fuel ih =>
    cases Q with
    | nil => simp only [bfs_rest, Option.some.injEq] at h; subst h; simpa using hn
    | cons u Q =>
      simp only [bfs_rest] at h
      split at h
      · exact absurd h (by simp)
      · rename_i D' hD'
        simp only [Option.some.injEq] at h
        subst h
        have := ih _ _ D' hD' (examine_new_nodup (out_edges u g) color hn)
        simpa [List.append_assoc] using this

theorem bfs_rest_sound (g : Graph P) (fuel : Nat) (color Q D : List Nat)
    (h : bfs_rest g fuel color Q = some D) :
    ∀ x ∈ D, ∃ q ∈ Q, g.reachable q x := by
  induction fuel generalizing color Q D with
  | zero =>
    cases Q with
    | nil => simp only [bfs_rest, Option.some.injEq] at h; subst h; simp
    | cons u Q => simp [bfs_rest] at h
  | succ fuel ih =>
    cases Q with
    | nil => simp only [bfs_rest, Option.some.injEq] at h; subst h; simp
    | cons u Q =>
      simp only [bfs_rest] at h
      split at h
      · exact absurd h (by simp)
      · rename_i D' hD'
        simp only [Option.some.injEq] at h
        subst h
        have hnew : ∀ y ∈ examine_new (out_edges u g) color, g.reachable u y := by
          intro y hy
          obtain ⟨_, e, he, rfl⟩ := examine_new_sound (out_edges u g) color y hy
          have he' := List.mem_filter.mp he
          have h1 : e.1 = u := by simpa using he'.2
          apply Relation.ReflTransGen.single
          show (u, e.2) ∈ g.m_edges
          rw [← h1]
          exact he'.1
        intro x hx
        rcases List.mem_append.mp hx with hx | hx
        · exact ⟨u, List.mem_cons_self _ _, hnew x hx⟩
        · obtain ⟨q, hq, hqx⟩ := ih _ _ D' hD' x hx
          rcases List.mem_append.mp hq with hq | hq
          · exact ⟨q, List.mem_cons_of_mem _ hq, hqx⟩
          · exact ⟨u, List.mem_cons_self _ _, (hnew q hq).trans hqx⟩

theorem bfs_rest_closed (g : Graph P) (fuel : Nat) (color Q D : List Nat)
    (h : bfs_rest g fuel color Q = some D)
    (hinv : ∀ x ∈ color, x ∉ Q → ∀ y, g.has_edge x y → y ∈ color) :
    ∀ x ∈ color ++ D, ∀ y, g.has_edge x y → y ∈ color ++ D := by
  induction fuel generalizing color Q D with
  | zero =>
    cases Q with
    | nil =>
      simp only [bfs_rest, Option.some.injEq] at h; subst h
      intro x hx y hxy
      simp only [List.append_nil] at hx ⊢
      exact hinv x hx (List.not_mem_nil _) y hxy
    | cons u Q => simp [bfs_rest] at h
  | succ fuel ih =>
    cases Q with
    | nil =>
      simp only [bfs_rest, Option.some.injEq] at h; subst h
      intro x hx y hxy
      simp only [List.append_nil] at hx ⊢
      exact hinv x hx (List.not_mem_nil _) y hxy
    | cons u Q =>
      simp only [bfs_rest] at h
      split at h
      · exact absurd h (by simp)
      · rename_i D' hD'
        simp only [Option.some.injEq] at h
        subst h
        have hinv2 : ∀ x ∈ color ++ examine_new (out_edges u g) color,
            x ∉ Q ++ examine_new (out_edges u g) color →
            ∀ y, g.has_edge x y → y ∈ color ++ examine_new (out_edges u g) color := by
          intro x hx hxQ y hxy
          have hxQ1 : x ∉ Q := fun hq => hxQ (List.mem_append_left _ hq)
          have hxn : x ∉ examine_new (out_edges u g) color :=
            fun hq => hxQ (List.mem_append_right _ hq)
          have hxc : x ∈ color := by
            rcases List.mem_append.mp hx with h | h
            · exact h
            · exact absurd h hxn
          by_cases hxu : x = u
          · subst hxu
            have : (x, y) ∈ out_edges x g := by
              simp only [out_edges, List.mem_filter, beq_self_eq_true, and_true]
              exact hxy
            exact examine_new_complete (out_edges x g) color (x, y) this
          · have hxQ' : x ∉ u :: Q := by
              simp only [List.mem_cons, not_or]
              exact ⟨hxu, hxQ1⟩
            exact List.mem_append_left _ (hinv x hxc hxQ' y hxy)
        have := ih _ _ D' hD' hinv2
        simpa [List.append_assoc] using this

/-- The discovery order exists for every well-formed graph and vertex (the
search comes to an end), starts with the start vertex, repeats no vertex, and
holds exactly the vertices reachable from the start vertex. -/
theorem discovery_order_spec (g : Graph P) (start : Nat) (hwf : g.well_formed)
    (hstart : g.is_vertex start) :
    ∃ D, bfs_rest g (num_vertices g) [start] [start] = some D ∧
      discovery_order g start = some (start :: D) ∧ (start :: D).Nodup ∧
      ∀ x, x ∈ start :: D ↔ g.reachable start x := by
  have hlen : 0 < g.m_vertices.length := Nat.lt_of_le_of_lt (Nat.zero_le _) hstart
  obtain ⟨D, hD⟩ := bfs_rest_some g hwf (num_vertices g) [start] [start] (List.nodup_singleton _)
    (by intro x hx; rw [List.mem_singleton] at hx; subst hx; exact hstart)
    (by simp only [num_vertices, List.length_singleton]; omega)
  refine ⟨D, hD, ?_, ?_, ?_⟩
  · unfold discovery_order
    rw [search_vertex_bf_eq (traced never_stop) g start ((), []) D hD, call_until_true_traced,
      call_until_true_never_stop]
    simp
  · have := bfs_rest_nodup g _ _ _ D hD (List.nodup_singleton start)
    simpa using this
  · intro x
    constructor
    · intro hx
      rcases List.mem_cons.mp hx with h | h
      · subst h; exact Relation.ReflTransGen.refl
      · obtain ⟨q, hq, hqx⟩ := bfs_rest_sound g _ _ _ D hD x h
        rw [List.mem_singleton] at hq
        subst hq
        exact hqx
    · intro hx
      have hclosed := bfs_rest_closed g _ _ _ D hD
        (by intro x hx hxQ; exact absurd hx hxQ)
      induction hx with
      | refl => exact List.mem_cons_self _ _
      | tail _ hbc ih => exact hclosed _ ih _ hbc

end graph_utils

end celerity

namespace celerity

namespace graph_utils

open Graph

variable {P : Type}

/-! ### The discovery order goes level by level -/

theorem reach_within_self (g : Graph P) (k a : Nat) : reach_within g k a a := by
  cases k with
  | zero => rfl
  | succ k => exact Or.inl rfl

theorem reach_within_mono (g : Graph P) (k a b : Nat) (h : reach_within g k a b) :
    reach_within g (k + 1) a b := by
  induction k generalizing b with
  | zero => exact Or.inl h
  | succ k ih =>
    rcases h with h | ⟨c, hc, hcb⟩
    · exact Or.inl h
    · exact Or.inr ⟨c, ih c hc, hcb⟩

theorem reach_within_step (g : Graph P) (k a c b : Nat) (h : reach_within g k a c)
    (hcb : g.has_edge c b) : reach_within g (k + 1) a b :=
  Or.inr ⟨c, h, hcb⟩

theorem reachable_iff_reach_within (g : Graph P) (a b : Nat) :
    g.reachable a b ↔ ∃ k, reach_within g k a b := by
  constructor
  · intro h
    induction h with
    | refl => exact ⟨0, rfl⟩
    | tail _ hbc ih =>
      obtain ⟨k, hk⟩ := ih
      exact ⟨k + 1, reach_within_step g k a _ _ hk hbc⟩
  · rintro ⟨k, hk⟩
    induction k generalizing b with
    | zero =>
      have : a = b := hk
      subst this
      exact Relation.ReflTransGen.refl
    | succ k ih =>
      rcases hk with h | ⟨c, hc, hcb⟩
      · subst h
        exact Relation.ReflTransGen.refl
      · exact (ih c hc).tail hcb

/-- A vertex that is not yet coloured is strictly farther from the start than
the head of the queue. -/
theorem undiscovered_farther (g : Graph P) (s u : Nat) (done Qt : List Nat)
    (hs : s ∈ done ++ u :: Qt)
    (hsorted : (done ++ u :: Qt).Pairwise (not_farther g s))
    (hclosed : ∀ x ∈ done, ∀ y, g.has_edge x y → y ∈ done ++ u :: Qt)
    (k v : Nat) (hv : v ∉ done ++ u :: Qt) (hk : reach_within g k s v) :
    1 ≤ k ∧ reach_within g (k - 1) s u := by
  induction k generalizing v with
  | zero =>
    have : s = v := hk
    subst this
    exact absurd hs hv
  | succ k ih =>
    refine ⟨by omega, ?_⟩
    simp only [Nat.add_sub_cancel]
    rcases hk with h | ⟨c, hc, hcv⟩
    · subst h
      exact absurd hs hv
    · by_cases hcc : c ∈ done ++ u :: Qt
      · rcases List.mem_append.mp hcc with hcd | hcq
        · exact absurd (hclosed c hcd v hcv) hv
        · rcases List.mem_cons.mp hcq with hcu | hct
          · subst hcu
            exact hc
          · have hp := (List.pairwise_append.mp hsorted).2.1
            exact (List.pairwise_cons.mp hp).1 c hct k hc
      · obtain ⟨h1, h2⟩ := ih c hcc hc
        have := reach_within_mono g (k - 1) s u h2
        have hk1 : k - 1 + 1 = k := by omega
        rw [hk1] at this
        exact this

/-- The order in which the queue loop discovers vertices goes from near to far. -/
theorem bfs_rest_level_sorted (g : Graph P) (s : Nat) (fuel : Nat) (done Q D : List Nat)
    (h : bfs_rest g fuel (done ++ Q) Q = some D)
    (hs : s ∈ done ++ Q)
    (hsorted : (done ++ Q).Pairwise (not_farther g s))
    (hclosed : ∀ x ∈ done, ∀ y, g.has_edge x y → y ∈ done ++ Q)
    (hnear : ∀ u ∈ Q, ∀ v ∈ done ++ Q, ∀ k, reach_within g k s u → reach_within g (k + 1) s v) :
    (done ++ Q ++ D).Pairwise (not_farther g s) := by
  induction fuel generalizing done Q D with
  | zero =>
    cases Q with
    | nil =>
      simp only [bfs_rest, Option.some.injEq] at h
      subst h
      simpa using hsorted
    | cons u Qt => simp [bfs_rest] at h
  | succ fuel ih =>
    cases Q with
    | nil =>
      simp only [bfs_rest, Option.some.injEq] at h
      subst h
      simpa using hsorted
    | cons u Qt =>
      simp only [bfs_rest] at h
      split at h
      · exact absurd h (by simp)
      · rename_i D' hD'
        simp only [Option.some.injEq] at h
        subst h
        have hfar := undiscovered_farther g s u done Qt hs hsorted hclosed
        have hu : u ∈ done ++ u :: Qt := List.mem_append_right _ (List.mem_cons_self _ _)
        -- every new vertex is a successor of `u` and was not coloured
        have hnew : ∀ v ∈ examine_new (out_edges u g) (done ++ u :: Qt),
            v ∉ done ++ u :: Qt ∧ g.has_edge u v := by
          intro v hv
          obtain ⟨h1, e, he, rfl⟩ := examine_new_sound (out_edges u g) _ v hv
          have he' := List.mem_filter.mp he
          have h2 : e.1 = u := by simpa using he'.2
          refine ⟨h1, ?_⟩
          show (u, e.2) ∈ g.m_edges
          rw [← h2]
          exact he'.1
        have hchild : ∀ v ∈ examine_new (out_edges u g) (done ++ u :: Qt),
            ∀ k, reach_within g k s u → reach_within g (k + 1) s v := by
          intro v hv k hk
          exact reach_within_step g k s u v hk (hnew v hv).2
        -- a vertex that is not coloured is at least as far as every new vertex
        have hB : ∀ v ∈ examine_new (out_edges u g) (done ++ u :: Qt), ∀ y,
            y ∉ done ++ u :: Qt → not_farther g s v y := by
          intro v hv y hy k hk
          obtain ⟨h1, h2⟩ := hfar k y hy hk
          have := hchild v hv (k - 1) h2
          have hk1 : k - 1 + 1 = k := by omega
          rw [hk1] at this
          exact this
        have hA : ∀ w ∈ done ++ u :: Qt, ∀ v ∈ examine_new (out_edges u g) (done ++ u :: Qt),
            not_farther g s w v := by
          intro w hw v hv k hk
          obtain ⟨h1, h2⟩ := hfar k v (hnew v hv).1 hk
          have := hnear u (List.mem_cons_self _ _) w hw (k - 1) h2
          have hk1 : k - 1 + 1 = k := by omega
          rw [hk1] at this
          exact this
        have hcolor : (done ++ [u]) ++ (Qt ++ examine_new (out_edges u g) (done ++ u :: Qt)) =
            (done ++ u :: Qt) ++ examine_new (out_edges u g) (done ++ u :: Qt) := by
          simp [List.append_assoc]
        have hsorted' : ((done ++ [u]) ++
            (Qt ++ examine_new (out_edges u g) (done ++ u :: Qt))).Pairwise (not_farther g s) := by
          rw [hcolor, List.pairwise_append]
          refine ⟨hsorted, ?_, hA⟩
          exact (List.pairwise_of_forall (fun _ _ => trivial)).imp_of_mem
            (fun {a b} ha hb _ => hB a ha b (hnew b hb).1)
        have hclosed' : ∀ x ∈ done ++ [u], ∀ y, g.has_edge x y →
            y ∈ (done ++ [u]) ++ (Qt ++ examine_new (out_edges u g) (done ++ u :: Qt)) := by
          intro x hx y hxy
          rw [hcolor]
          rcases List.mem_append.mp hx with hxd | hxu
          · exact List.mem_append_left _ (hclosed x hxd y hxy)
          · rw [List.mem_singleton] at hxu
            subst hxu
            have : (x, y) ∈ out_edges x g := by
              simp only [out_edges, List.mem_filter, beq_self_eq_true, and_true]
              exact hxy
            exact examine_new_complete (out_edges x g) _ (x, y) this
        have hnear' : ∀ u2 ∈ Qt ++ examine_new (out_edges u g) (done ++ u :: Qt),
            ∀ v ∈ (done ++ [u]) ++ (Qt ++ examine_new (out_edges u g) (done ++ u :: Qt)),
            ∀ k, reach_within g k s u2 → reach_within g (k + 1) s v := by
          intro u2 hu2 v hv k hk
          rw [hcolor] at hv
          have hku : reach_within g k s u := by
            rcases List.mem_append.mp hu2 with hq | hd
            · have hp := (List.pairwise_append.mp hsorted).2.1
              exact (List.pairwise_cons.mp hp).1 u2 hq k hk
            · exact hA u hu u2 hd k hk
          rcases List.mem_append.mp hv with hvc | hvd
          · exact hnear u (List.mem_cons_self _ _) v hvc k hku
          · exact hchild v hvd k hku
        have hD'' : bfs_rest g fuel
            ((done ++ [u]) ++ (Qt ++ examine_new (out_edges u g) (done ++ u :: Qt)))
            (Qt ++ examine_new (out_edges u g) (done ++ u :: Qt)) = some D' := by
          rw [hcolor]
          exact hD'
        have hs' : s ∈ (done ++ [u]) ++
            (Qt ++ examine_new (out_edges u g) (done ++ u :: Qt)) := by
          rw [hcolor]
          exact List.mem_append_left _ hs
        have := ih (done ++ [u]) _ D' hD'' hs' hsorted' hclosed' hnear'
        rw [hcolor] at this
        simpa [List.append_assoc] using this

/-- The discovery order from `start` goes from near to far. -/
theorem discovery_order_level_sorted (g : Graph P) (start : Nat) (D : List Nat)
    (h : bfs_rest g (num_vertices g) [start] [start] = some D) :
    (start :: D).Pairwise (not_farther g start) := by
  have := bfs_rest_level_sorted g start (num_vertices g) [] [start] D h
    (List.mem_singleton.mpr rfl) (List.pairwise_singleton _ _)
    (by intro x hx; exact absurd hx (List.not_mem_nil _))
    (by
      intro u hu v hv k _
      simp only [List.nil_append, List.mem_singleton] at hv
      subst hv
      exact reach_within_self g (k + 1) v)
  simpa using this

end graph_utils

end celerity

namespace celerity

namespace graph_utils

open Graph

variable {P σ : Type}

/-! ### The steps of `add_pull_cmd` in closed form -/

theorem insert_vertex_on_edge_eq [Inhabited P] (u v : Nat) (g : Graph P)
    (hu : u < g.m_vertices.length) (hv : v < g.m_vertices.length) :
    insert_vertex_on_edge u v g =
      (g.m_vertices.length,
        { m_vertices := g.m_vertices ++ [default]
          m_edges := g.m_edges.filter (fun e => !(e.1 == u && e.2 == v)) ++
            [(u, g.m_vertices.length), (g.m_vertices.length, v)] }) := by
  have h1 := insert_vertex_on_edge_vertices u v g hu hv
  have h2 := insert_vertex_on_edge_edges u v g
  have h3 := insert_vertex_on_edge_fst u v g
  rcases h : insert_vertex_on_edge u v g with ⟨w, ⟨vs, es⟩⟩
  rw [h] at h1 h2 h3
  simp only at h1 h2 h3
  rw [h1, h2, h3]

theorem update_last [Inhabited P] (l : List P) (d : P) (es : List edge_descriptor) (f : P → P) :
    (Graph.mk (l ++ [d]) es).update l.length f = Graph.mk (l ++ [f d]) es := by
  simp [Graph.update]

theorem getD_append_left (l r : List P) (d : P) (x : Nat) (hx : x < l.length) :
    (l ++ r).getD x d = l.getD x d := by
  simp only [List.getD_eq_getElem?_getD]
  rw [List.getElem?_append_left hx]

theorem get_append_left [Inhabited P] (l r : List P) (es : List edge_descriptor) (x : Nat)
    (hx : x < l.length) : (Graph.mk (l ++ r) es).get x = l.getD x default := by
  simp only [Graph.get, List.getD_eq_getElem?_getD]
  rw [List.getElem?_append_left hx]

theorem get_append_last [Inhabited P] (l : List P) (d : P) (r : List P)
    (es : List edge_descriptor) : (Graph.mk (l ++ d :: r) es).get l.length = d := by
  simp only [Graph.get, List.getD_eq_getElem?_getD]
  rw [List.getElem?_append_right (Nat.le_refl _)]
  simp

theorem add_pull_cmd_pull_eq (nid source_nid bid : Nat) (tv : task_vertices) (req_cmd : Nat)
    (req : GridBox) (cdag : command_dag)
    (h1 : tv.1 < cdag.m_vertices.length) (h2 : req_cmd < cdag.m_vertices.length) :
    add_pull_cmd_pull nid source_nid bid tv req_cmd req cdag =
      (cdag.m_vertices.length,
        { m_vertices := cdag.m_vertices ++ [pull_properties nid source_nid bid tv req cdag]
          m_edges := cdag.m_edges.filter (fun e => !(e.1 == tv.1 && e.2 == req_cmd)) ++
            [(tv.1, cdag.m_vertices.length), (cdag.m_vertices.length, req_cmd)] }) := by
  unfold add_pull_cmd_pull
  rw [insert_vertex_on_edge_eq tv.1 req_cmd cdag h1 h2]
  simp only [update_last, pull_properties, Graph.get, getD_append_left _ _ _ _ h1]

theorem add_edge_eq [Inhabited P] (u v : Nat) (g : Graph P)
    (hu : u < g.m_vertices.length) (hv : v < g.m_vertices.length) :
    add_edge u v g = { m_vertices := g.m_vertices, m_edges := g.m_edges ++ [(u, v)] } := by
  have h : max u v + 1 - g.m_vertices.length = 0 := by
    rw [Nat.max_def]; split <;> omega
  simp [add_edge, h]

theorem add_pull_cmd_pull_eq_pull_graph (nid source_nid bid : Nat) (tv : task_vertices)
    (req_cmd : Nat) (req : GridBox) (cdag : command_dag)
    (h1 : tv.1 < cdag.m_vertices.length) (h2 : req_cmd < cdag.m_vertices.length) :
    add_pull_cmd_pull nid source_nid bid tv req_cmd req cdag =
      (cdag.m_vertices.length, pull_graph nid source_nid bid tv req_cmd req cdag) :=
  add_pull_cmd_pull_eq nid source_nid bid tv req_cmd req cdag h1 h2

theorem pull_graph_length (nid source_nid bid : Nat) (tv : task_vertices) (req_cmd : Nat)
    (req : GridBox) (cdag : command_dag) :
    (pull_graph nid source_nid bid tv req_cmd req cdag).m_vertices.length =
      cdag.m_vertices.length + 1 := by
  simp [pull_graph]

theorem pull_graph_get_old (nid source_nid bid : Nat) (tv : task_vertices) (req_cmd : Nat)
    (req : GridBox) (cdag : command_dag) (x : Nat) (hx : x < cdag.m_vertices.length) :
    (pull_graph nid source_nid bid tv req_cmd req cdag).get x = cdag.get x := by
  simp only [pull_graph, Graph.get, getD_append_left _ _ _ _ hx]

theorem add_pull_cmd_await_eq (nid source_nid bid : Nat) (tv source_tv : task_vertices)
    (req_cmd : Nat) (req : GridBox) (cdag : command_dag) (m : Nat)
    (h1 : tv.1 < cdag.m_vertices.length) (h3 : source_tv.1 < cdag.m_vertices.length)
    (hm : m < cdag.m_vertices.length + 1) :
    add_pull_cmd_await nid source_nid bid tv source_tv req cdag.m_vertices.length m
        (pull_graph nid source_nid bid tv req_cmd req cdag) =
      (cdag.m_vertices.length + 1,
        pull_await_graph nid source_nid bid tv source_tv req_cmd req cdag m) := by
  have hl := pull_graph_length nid source_nid bid tv req_cmd req cdag
  have h3' : source_tv.1 < (pull_graph nid source_nid bid tv req_cmd req cdag).m_vertices.length := by
    omega
  have hm' : m < (pull_graph nid source_nid bid tv req_cmd req cdag).m_vertices.length := by omega
  unfold add_pull_cmd_await
  rw [insert_vertex_on_edge_eq source_tv.1 m _ h3' hm']
  simp only [update_last, Graph.get]
  rw [getD_append_left _ _ _ _ h3', getD_append_left _ _ _ _ (by omega : tv.1 < _)]
  rw [add_edge_eq _ cdag.m_vertices.length _ (by simp) (by simp [hl]; omega)]
  rw [add_edge_eq cdag.m_vertices.length _ _ (by simp [hl]; omega) (by simp)]
  have e1 : (pull_graph nid source_nid bid tv req_cmd req cdag).m_vertices.getD source_tv.1 default =
      cdag.m_vertices.getD source_tv.1 default := getD_append_left _ _ _ _ h3
  have e2 : (pull_graph nid source_nid bid tv req_cmd req cdag).m_vertices.getD tv.1 default =
      cdag.m_vertices.getD tv.1 default := getD_append_left _ _ _ _ h1
  rw [e1, e2]
  simp only [pull_await_graph, await_pull_properties, Graph.get, hl]
  simp [pull_graph]

theorem find_source_command_fst (source_nid : Nat) (source_tv : task_vertices) (s v : Nat)
    (g : command_dag) :
    (find_source_command source_nid source_tv s v g).1 = is_source_command source_nid g v := by
  unfold find_source_command is_source_command
  split <;> simp_all

theorem find_source_command_snd_of_true (source_nid : Nat) (source_tv : task_vertices) (s v : Nat)
    (g : command_dag) (h : is_source_command source_nid g v = true) :
    (find_source_command source_nid source_tv s v g).2 = v := by
  unfold is_source_command at h
  unfold find_source_command
  rw [if_pos (by simpa using h)]

theorem find_source_command_snd_of_false (source_nid : Nat) (source_tv : task_vertices) (s v : Nat)
    (g : command_dag) (h : is_source_command source_nid g v = false) :
    (find_source_command source_nid source_tv s v g).2 = s := by
  unfold is_source_command at h
  unfold find_source_command
  rw [if_neg (by simpa using h)]

/-- The state in which the search of `add_pull_cmd` ends: the first vertex of
the discovery order that the functor accepts, else the initial value. -/
theorem call_until_true_find_source_command (source_nid : Nat) (source_tv : task_vertices)
    (g : command_dag) (l : List Nat) (s : Nat) :
    (call_until_true (find_source_command source_nid source_tv) g l s).2.1 =
      (l.find? (is_source_command source_nid g)).getD s := by
  induction l generalizing s with
  | nil => simp [call_until_true]
  | cons v vs ih =>
    cases h : is_source_command source_nid g v with
    | true =>
      rw [call_until_true_cons_true _ g v vs s (by rw [find_source_command_fst]; exact h)]
      simp [List.find?_cons, h, find_source_command_snd_of_true source_nid source_tv s v g h]
    | false =>
      rw [call_until_true_cons_false _ g v vs s (by rw [find_source_command_fst]; exact h)]
      simp only [List.find?_cons, h]
      rw [ih, find_source_command_snd_of_false source_nid source_tv s v g h]

theorem is_vertex_of_reachable {g : Graph P} (hwf : g.well_formed) {a b : Nat}
    (ha : g.is_vertex a) (h : g.reachable a b) : g.is_vertex b := by
  induction h with
  | refl => exact ha
  | tail _ hbc _ => exact (hwf _ hbc).2

theorem pull_graph_well_formed (nid source_nid bid : Nat) (tv : task_vertices) (req_cmd : Nat)
    (req : GridBox) (cdag : command_dag) (hwf : cdag.well_formed)
    (h1 : tv.1 < cdag.m_vertices.length) (h2 : req_cmd < cdag.m_vertices.length) :
    (pull_graph nid source_nid bid tv req_cmd req cdag).well_formed := by
  intro e he
  simp only [pull_graph, List.mem_append, List.mem_filter, List.mem_cons, List.mem_singleton,
    List.not_mem_nil, or_false, List.length_append, List.length_singleton] at he ⊢
  rcases he with ⟨he, _⟩ | rfl | rfl
  · have := hwf e he
    omega
  · simp only; omega
  · simp only; omega

/-- The function `add_pull_cmd` in closed form.  The search runs on the graph
that already holds the PULL vertex; it always comes to an end. -/
theorem add_pull_cmd_eq (nid source_nid bid : Nat) (tv source_tv : task_vertices) (req_cmd : Nat)
    (req : GridBox) (cdag : command_dag) (hwf : cdag.well_formed)
    (hsize : cdag.m_vertices.length + 2 ≤ 2 ^ 64)
    (h1 : cdag.is_vertex tv.1) (h2 : cdag.is_vertex req_cmd) (h3 : cdag.is_vertex source_tv.1)
    (h4 : cdag.is_vertex source_tv.2) :
    ∃ order, discovery_order (pull_graph nid source_nid bid tv req_cmd req cdag) source_tv.1 =
        some order ∧ order.Nodup ∧
      (∀ x, x ∈ order ↔
        (pull_graph nid source_nid bid tv req_cmd req cdag).reachable source_tv.1 x) ∧
      (∀ x ∈ order, x < cdag.m_vertices.length + 1) ∧
      add_pull_cmd nid source_nid bid tv source_tv req_cmd req cdag =
        if (cdag.get req_cmd).cmd = command.COMPUTE ∨ (cdag.get req_cmd).cmd = command.MASTER_ACCESS
        then
          match order.find? (is_source_command source_nid
              (pull_graph nid source_nid bid tv req_cmd req cdag)) with
          | some m => some (cdag.m_vertices.length,
              pull_await_graph nid source_nid bid tv source_tv req_cmd req cdag m)
          | none =>
            if source_nid = 0 then
              some (cdag.m_vertices.length,
                pull_await_graph nid source_nid bid tv source_tv req_cmd req cdag source_tv.2)
            else none
        else none := by
  simp only [is_vertex] at h1 h2 h3 h4
  have hwf1 := pull_graph_well_formed nid source_nid bid tv req_cmd req cdag hwf h1 h2
  have hl := pull_graph_length nid source_nid bid tv req_cmd req cdag
  have hs1 : (pull_graph nid source_nid bid tv req_cmd req cdag).is_vertex source_tv.1 := by
    simp only [is_vertex, hl]; omega
  obtain ⟨D, hD, hord, hnd, hreach⟩ := discovery_order_spec _ source_tv.1 hwf1 hs1
  have hlt : ∀ x ∈ source_tv.1 :: D, x < cdag.m_vertices.length + 1 := by
    intro x hx
    have := is_vertex_of_reachable hwf1 hs1 ((hreach x).mp hx)
    simpa only [is_vertex, hl] using this
  refine ⟨source_tv.1 :: D, hord, hnd, hreach, hlt, ?_⟩
  unfold add_pull_cmd
  by_cases hc : (cdag.get req_cmd).cmd = command.COMPUTE ∨
      (cdag.get req_cmd).cmd = command.MASTER_ACCESS
  · rw [if_pos hc, if_pos hc]
    simp only [add_pull_cmd_pull_eq_pull_graph nid source_nid bid tv req_cmd req cdag h1 h2]
    rw [search_vertex_bf_eq _ _ _ _ D hD, call_until_true_find_source_command]
    have hmax : size_t_max = 2 ^ 64 - 1 := rfl
    cases hf : List.find? (is_source_command source_nid
        (pull_graph nid source_nid bid tv req_cmd req cdag)) (source_tv.1 :: D) with
    | some m =>
      have hm : m < cdag.m_vertices.length + 1 := hlt m (List.mem_of_find?_eq_some hf)
      have hne : m ≠ size_t_max := by omega
      simp only [Option.getD_some, master_fallback, hne, false_and, if_false, ne_eq,
        not_false_eq_true, if_true]
      rw [add_pull_cmd_await_eq nid source_nid bid tv source_tv req_cmd req cdag m h1 h3 hm]
    | none =>
      simp only [Option.getD_none, master_fallback, true_and]
      by_cases h0 : source_nid = 0
      · have hne : source_tv.2 ≠ size_t_max := by omega
        simp only [h0, if_true, ne_eq, hne, not_false_eq_true]
        rw [add_pull_cmd_await_eq nid 0 bid tv source_tv req_cmd req cdag source_tv.2 h1 h3
          (by omega)]
      · simp [h0]
  · rw [if_neg hc, if_neg hc]

end graph_utils

end celerity

namespace celerity

namespace graph_utils

open Graph

/-! ### The graph that `add_pull_cmd` returns -/

theorem has_edge_pull_await_graph (nid source_nid bid : Nat) (tv source_tv : task_vertices)
    (req_cmd : Nat) (req : GridBox) (cdag : command_dag) (m a b : Nat) :
    (pull_await_graph nid source_nid bid tv source_tv req_cmd req cdag m).has_edge a b ↔
      (((cdag.has_edge a b ∧ ¬ (a = tv.1 ∧ b = req_cmd)) ∨
          (a = tv.1 ∧ b = cdag.m_vertices.length) ∨ (a = cdag.m_vertices.length ∧ b = req_cmd)) ∧
        ¬ (a = source_tv.1 ∧ b = m)) ∨
      (a = source_tv.1 ∧ b = cdag.m_vertices.length + 1) ∨
      (a = cdag.m_vertices.length + 1 ∧ b = m) ∨
      (a = cdag.m_vertices.length + 1 ∧ b = cdag.m_vertices.length) ∨
      (a = cdag.m_vertices.length ∧ b = cdag.m_vertices.length + 1) := by
  simp only [has_edge, pull_await_graph, pull_graph, List.mem_append, List.mem_filter,
    List.mem_cons, List.mem_singleton, List.not_mem_nil, or_false, Bool.not_eq_true',
    Bool.and_eq_false_imp, beq_iff_eq, Prod.mk.injEq, beq_eq_false_iff_ne, ne_eq, not_and]

theorem pull_await_graph_length (nid source_nid bid : Nat) (tv source_tv : task_vertices)
    (req_cmd : Nat) (req : GridBox) (cdag : command_dag) (m : Nat) :
    (pull_await_graph nid source_nid bid tv source_tv req_cmd req cdag m).m_vertices.length =
      cdag.m_vertices.length + 2 := by
  simp [pull_await_graph]

theorem pull_await_graph_get_old (nid source_nid bid : Nat) (tv source_tv : task_vertices)
    (req_cmd : Nat) (req : GridBox) (cdag : command_dag) (m x : Nat)
    (hx : x < cdag.m_vertices.length) :
    (pull_await_graph nid source_nid bid tv source_tv req_cmd req cdag m).get x = cdag.get x := by
  simp only [pull_await_graph, Graph.get, getD_append_left _ _ _ _ hx]

theorem pull_await_graph_get_pull (nid source_nid bid : Nat) (tv source_tv : task_vertices)
    (req_cmd : Nat) (req : GridBox) (cdag : command_dag) (m : Nat) :
    (pull_await_graph nid source_nid bid tv source_tv req_cmd req cdag m).get
        cdag.m_vertices.length = pull_properties nid source_nid bid tv req cdag := by
  simp only [pull_await_graph]
  exact get_append_last _ _ _ _

theorem pull_await_graph_get_await (nid source_nid bid : Nat) (tv source_tv : task_vertices)
    (req_cmd : Nat) (req : GridBox) (cdag : command_dag) (m : Nat) :
    (pull_await_graph nid source_nid bid tv source_tv req_cmd req cdag m).get
        (cdag.m_vertices.length + 1) =
      await_pull_properties nid source_nid bid tv source_tv req cdag := by
  have h := get_append_last (cdag.m_vertices ++ [pull_properties nid source_nid bid tv req cdag])
    (await_pull_properties nid source_nid bid tv source_tv req cdag) []
    (pull_await_graph nid source_nid bid tv source_tv req_cmd req cdag m).m_edges
  simp only [List.length_append, List.length_singleton, List.append_assoc,
    List.singleton_append] at h
  exact h

theorem is_source_command_pull_graph_old (nid source_nid bid : Nat) (tv : task_vertices)
    (req_cmd : Nat) (req : GridBox) (cdag : command_dag) (x : Nat)
    (hx : x < cdag.m_vertices.length) :
    is_source_command source_nid (pull_graph nid source_nid bid tv req_cmd req cdag) x =
      is_source_command source_nid cdag x := by
  simp only [is_source_command, pull_graph_get_old nid source_nid bid tv req_cmd req cdag x hx]

theorem is_source_command_pull_graph_new (nid source_nid bid : Nat) (tv : task_vertices)
    (req_cmd : Nat) (req : GridBox) (cdag : command_dag) :
    is_source_command source_nid (pull_graph nid source_nid bid tv req_cmd req cdag)
      cdag.m_vertices.length = false := by
  have h : (pull_graph nid source_nid bid tv req_cmd req cdag).get cdag.m_vertices.length =
      pull_properties nid source_nid bid tv req cdag := by
    simp only [pull_graph]
    exact get_append_last _ _ _ _
  simp [is_source_command, h, pull_properties]

/-- What a successful `add_pull_cmd` returns: the PULL vertex is the first new
vertex, the vertex `m` before which the AWAIT_PULL vertex is put is an old
vertex, either the first accepted vertex of the discovery order or, without
one and with source node 0, the end vertex of the source task. -/
theorem add_pull_cmd_some (nid source_nid bid : Nat) (tv source_tv : task_vertices) (req_cmd : Nat)
    (req : GridBox) (cdag : command_dag) (hwf : cdag.well_formed)
    (hsize : cdag.m_vertices.length + 2 ≤ 2 ^ 64)
    (h1 : cdag.is_vertex tv.1) (h2 : cdag.is_vertex req_cmd) (h3 : cdag.is_vertex source_tv.1)
    (h4 : cdag.is_vertex source_tv.2) (p : Nat) (g' : command_dag)
    (hres : add_pull_cmd nid source_nid bid tv source_tv req_cmd req cdag = some (p, g')) :
    p = cdag.m_vertices.length ∧
    ((cdag.get req_cmd).cmd = command.COMPUTE ∨ (cdag.get req_cmd).cmd = command.MASTER_ACCESS) ∧
    ∃ order m,
      discovery_order (pull_graph nid source_nid bid tv req_cmd req cdag) source_tv.1 =
        some order ∧
      (∀ x, x ∈ order ↔
        (pull_graph nid source_nid bid tv req_cmd req cdag).reachable source_tv.1 x) ∧
      (order.find? (is_source_command source_nid
          (pull_graph nid source_nid bid tv req_cmd req cdag)) = some m ∨
        (order.find? (is_source_command source_nid
          (pull_graph nid source_nid bid tv req_cmd req cdag)) = none ∧
          source_nid = 0 ∧ m = source_tv.2)) ∧
      m < cdag.m_vertices.length ∧
      g' = pull_await_graph nid source_nid bid tv source_tv req_cmd req cdag m := by
  obtain ⟨order, hord, _, hreach, hlt, heq⟩ :=
    add_pull_cmd_eq nid source_nid bid tv source_tv req_cmd req cdag hwf hsize h1 h2 h3 h4
  rw [heq] at hres
  by_cases hc : (cdag.get req_cmd).cmd = command.COMPUTE ∨
      (cdag.get req_cmd).cmd = command.MASTER_ACCESS
  · rw [if_pos hc] at hres
    cases hf : List.find? (is_source_command source_nid
        (pull_graph nid source_nid bid tv req_cmd req cdag)) order with
    | some m =>
      rw [hf] at hres
      simp only [Option.some.injEq, Prod.mk.injEq] at hres
      have hm1 := hlt m (List.mem_of_find?_eq_some hf)
      have hm2 : m ≠ cdag.m_vertices.length := by
        intro h
        have h5 := List.find?_some hf
        rw [h, is_source_command_pull_graph_new] at h5
        exact absurd h5 (by simp)
      exact ⟨hres.1.symm, hc, order, m, hord, hreach, Or.inl hf, by omega, hres.2.symm⟩
    | none =>
      rw [hf] at hres
      by_cases h0 : source_nid = 0
      · simp only [h0, if_true, Option.some.injEq, Prod.mk.injEq] at hres
        refine ⟨hres.1.symm, hc, order, source_tv.2, hord, hreach, Or.inr ⟨hf, h0, rfl⟩, h4, ?_⟩
        rw [← hres.2, h0]
      · simp [h0] at hres
  · rw [if_neg hc] at hres
    exact absurd hres (by simp)

theorem pull_await_graph_edges_from_pull (nid source_nid bid : Nat)
    (tv source_tv : task_vertices) (req_cmd : Nat) (req : GridBox) (cdag : command_dag) (m b : Nat)
    (hwf : cdag.well_formed) (h1 : tv.1 < cdag.m_vertices.length)
    (h3 : source_tv.1 < cdag.m_vertices.length) :
    (pull_await_graph nid source_nid bid tv source_tv req_cmd req cdag m).has_edge
        cdag.m_vertices.length b ↔ b = req_cmd ∨ b = cdag.m_vertices.length + 1 := by
  rw [has_edge_pull_await_graph]
  constructor
  · rintro (⟨(⟨h, _⟩ | ⟨h, _⟩ | ⟨_, h⟩), _⟩ | ⟨h, _⟩ | ⟨h, _⟩ | ⟨h, _⟩ | ⟨_, h⟩)
    · have := (hwf _ h).1; simp only at this; omega
    · omega
    · exact Or.inl h
    · omega
    · omega
    · omega
    · exact Or.inr h
  · rintro (h | h)
    · exact Or.inl ⟨Or.inr (Or.inr ⟨rfl, h⟩), by omega⟩
    · exact Or.inr (Or.inr (Or.inr (Or.inr ⟨rfl, h⟩)))

theorem pull_await_graph_edges_to_pull (nid source_nid bid : Nat)
    (tv source_tv : task_vertices) (req_cmd : Nat) (req : GridBox) (cdag : command_dag) (m a : Nat)
    (hwf : cdag.well_formed) (h2 : req_cmd < cdag.m_vertices.length)
    (hm : m < cdag.m_vertices.length) :
    (pull_await_graph nid source_nid bid tv source_tv req_cmd req cdag m).has_edge a
        cdag.m_vertices.length ↔ a = tv.1 ∨ a = cdag.m_vertices.length + 1 := by
  rw [has_edge_pull_await_graph]
  constructor
  · rintro (⟨(⟨h, _⟩ | ⟨h, _⟩ | ⟨_, h⟩), _⟩ | ⟨_, h⟩ | ⟨_, h⟩ | ⟨h, _⟩ | ⟨_, h⟩)
    · have := (hwf _ h).2; simp only at this; omega
    · exact Or.inl h
    · omega
    · omega
    · omega
    · exact Or.inr h
    · omega
  · rintro (h | h)
    · exact Or.inl ⟨Or.inr (Or.inl ⟨h, rfl⟩), by omega⟩
    · exact Or.inr (Or.inr (Or.inr (Or.inl ⟨h, rfl⟩)))

theorem pull_await_graph_edges_from_await (nid source_nid bid : Nat)
    (tv source_tv : task_vertices) (req_cmd : Nat) (req : GridBox) (cdag : command_dag) (m b : Nat)
    (hwf : cdag.well_formed) (h1 : tv.1 < cdag.m_vertices.length)
    (h3 : source_tv.1 < cdag.m_vertices.length) :
    (pull_await_graph nid source_nid bid tv source_tv req_cmd req cdag m).has_edge
        (cdag.m_vertices.length + 1) b ↔ b = m ∨ b = cdag.m_vertices.length := by
  rw [has_edge_pull_await_graph]
  constructor
  · rintro (⟨(⟨h, _⟩ | ⟨h, _⟩ | ⟨h, _⟩), _⟩ | ⟨h, _⟩ | ⟨_, h⟩ | ⟨_, h⟩ | ⟨h, _⟩)
    · have := (hwf _ h).1; simp only at this; omega
    · omega
    · omega
    · omega
    · exact Or.inl h
    · exact Or.inr h
    · omega
  · rintro (h | h)
    · exact Or.inr (Or.inr (Or.inl ⟨rfl, h⟩))
    · exact Or.inr (Or.inr (Or.inr (Or.inl ⟨rfl, h⟩)))

theorem pull_await_graph_edges_to_await (nid source_nid bid : Nat)
    (tv source_tv : task_vertices) (req_cmd : Nat) (req : GridBox) (cdag : command_dag) (m a : Nat)
    (hwf : cdag.well_formed) (h2 : req_cmd < cdag.m_vertices.length)
    (hm : m < cdag.m_vertices.length) :
    (pull_await_graph nid source_nid bid tv source_tv req_cmd req cdag m).has_edge a
        (cdag.m_vertices.length + 1) ↔ a = source_tv.1 ∨ a = cdag.m_vertices.length := by
  rw [has_edge_pull_await_graph]
  constructor
  · rintro (⟨(⟨h, _⟩ | ⟨_, h⟩ | ⟨_, h⟩), _⟩ | ⟨h, _⟩ | ⟨_, h⟩ | ⟨_, h⟩ | ⟨h, _⟩)
    · have := (hwf _ h).2; simp only at this; omega
    · omega
    · omega
    · exact Or.inl h
    · omega
    · omega
    · exact Or.inr h
  · rintro (h | h)
    · exact Or.inr (Or.inl ⟨h, rfl⟩)
    · exact Or.inr (Or.inr (Or.inr (Or.inr ⟨h, rfl⟩)))

theorem pull_await_graph_edges_old (nid source_nid bid : Nat)
    (tv source_tv : task_vertices) (req_cmd : Nat) (req : GridBox) (cdag : command_dag)
    (m a b : Nat) (ha : a < cdag.m_vertices.length) (hb : b < cdag.m_vertices.length) :
    (pull_await_graph nid source_nid bid tv source_tv req_cmd req cdag m).has_edge a b ↔
      cdag.has_edge a b ∧ ¬ (a = tv.1 ∧ b = req_cmd) ∧ ¬ (a = source_tv.1 ∧ b = m) := by
  rw [has_edge_pull_await_graph]
  constructor
  · rintro (⟨(⟨h, h'⟩ | ⟨_, h⟩ | ⟨h, _⟩), h''⟩ | ⟨_, h⟩ | ⟨h, _⟩ | ⟨h, _⟩ | ⟨h, _⟩)
    · exact ⟨h, h', h''⟩
    · omega
    · omega
    · omega
    · omega
    · omega
    · omega
  · rintro ⟨h, h', h''⟩
    exact Or.inl ⟨Or.inl ⟨h, h'⟩, h''⟩

end graph_utils

end celerity

namespace celerity

namespace graph_utils

open Graph

/-! ### Pull/await pairing -/

theorem pull_await_graph_count_link (nid source_nid bid : Nat) (tv source_tv : task_vertices)
    (req_cmd : Nat) (req : GridBox) (cdag : command_dag) (m : Nat)
    (hwf : cdag.well_formed) (h1 : tv.1 < cdag.m_vertices.length)
    (h2 : req_cmd < cdag.m_vertices.length) (h3 : source_tv.1 < cdag.m_vertices.length)
    (hm : m < cdag.m_vertices.length) :
    (pull_await_graph nid source_nid bid tv source_tv req_cmd req cdag m).m_edges.count
        (cdag.m_vertices.length, cdag.m_vertices.length + 1) = 1 ∧
    (pull_await_graph nid source_nid bid tv source_tv req_cmd req cdag m).m_edges.count
        (cdag.m_vertices.length + 1, cdag.m_vertices.length) = 1 := by
  have hold : ∀ a b, (a, b) ∈ (pull_graph nid source_nid bid tv req_cmd req cdag).m_edges.filter
      (fun e => !(e.1 == source_tv.1 && e.2 == m)) → a < cdag.m_vertices.length ∨
        b < cdag.m_vertices.length := by
    intro a b hab
    have hab' := (List.mem_filter.mp hab).1
    simp only [pull_graph, List.mem_append, List.mem_filter, List.mem_cons, List.mem_singleton,
      List.not_mem_nil, or_false, Prod.mk.injEq] at hab'
    rcases hab' with ⟨h, _⟩ | ⟨h, _⟩ | ⟨_, h⟩
    · have := hwf _ h; simp only at this; omega
    · omega
    · omega
  have hn1 : (cdag.m_vertices.length, cdag.m_vertices.length + 1) ∉
      (pull_graph nid source_nid bid tv req_cmd req cdag).m_edges.filter
        (fun e => !(e.1 == source_tv.1 && e.2 == m)) := by
    intro h
    have := hold _ _ h
    omega
  have hn2 : (cdag.m_vertices.length + 1, cdag.m_vertices.length) ∉
      (pull_graph nid source_nid bid tv req_cmd req cdag).m_edges.filter
        (fun e => !(e.1 == source_tv.1 && e.2 == m)) := by
    intro h
    have := hold _ _ h
    omega
  have e1 : source_tv.1 ≠ cdag.m_vertices.length := by omega
  have e2 : source_tv.1 ≠ cdag.m_vertices.length + 1 := by omega
  have e3 : m ≠ cdag.m_vertices.length := by omega
  have e4 : m ≠ cdag.m_vertices.length + 1 := by omega
  constructor
  · simp only [pull_await_graph, List.count_append, List.count_eq_zero_of_not_mem hn1]
    simp [List.count_cons, e1, e2, e3, e4]
  · simp only [pull_await_graph, List.count_append, List.count_eq_zero_of_not_mem hn2]
    simp [List.count_cons, e1, e2, e3, e4]

/-- Pull/await pairing is kept by the graph that `add_pull_cmd` returns, as
long as the begin vertex of the source task is not itself a PULL or AWAIT_PULL
vertex. -/
theorem paired_pull_await_graph (nid source_nid bid : Nat) (tv source_tv : task_vertices)
    (req_cmd : Nat) (req : GridBox) (cdag : command_dag) (m : Nat)
    (hwf : cdag.well_formed) (h1 : tv.1 < cdag.m_vertices.length)
    (h2 : req_cmd < cdag.m_vertices.length) (h3 : source_tv.1 < cdag.m_vertices.length)
    (hm : m < cdag.m_vertices.length)
    (hkind : (cdag.get req_cmd).cmd = command.COMPUTE ∨
      (cdag.get req_cmd).cmd = command.MASTER_ACCESS)
    (hsrc : (cdag.get source_tv.1).cmd ≠ command.PULL ∧
      (cdag.get source_tv.1).cmd ≠ command.AWAIT_PULL)
    (hpaired : paired cdag) :
    paired (pull_await_graph nid source_nid bid tv source_tv req_cmd req cdag m) := by
  have hget := pull_await_graph_get_old nid source_nid bid tv source_tv req_cmd req cdag m
  have hgp : ((pull_await_graph nid source_nid bid tv source_tv req_cmd req cdag m).get
      cdag.m_vertices.length).cmd = command.PULL := by
    rw [pull_await_graph_get_pull]; rfl
  have hga : ((pull_await_graph nid source_nid bid tv source_tv req_cmd req cdag m).get
      (cdag.m_vertices.length + 1)).cmd = command.AWAIT_PULL := by
    rw [pull_await_graph_get_await]; rfl
  have hfp := pull_await_graph_edges_from_pull nid source_nid bid tv source_tv req_cmd req cdag m
  have htp := pull_await_graph_edges_to_pull nid source_nid bid tv source_tv req_cmd req cdag m
  have hfa := pull_await_graph_edges_from_await nid source_nid bid tv source_tv req_cmd req cdag m
  have hta := pull_await_graph_edges_to_await nid source_nid bid tv source_tv req_cmd req cdag m
  have hold := pull_await_graph_edges_old nid source_nid bid tv source_tv req_cmd req cdag m
  have hlen := pull_await_graph_length nid source_nid bid tv source_tv req_cmd req cdag m
  -- partners among old PULL and AWAIT_PULL vertices are the partners in `cdag`
  have key : ∀ k k', (k = command.PULL ∨ k = command.AWAIT_PULL) →
      (k' = command.PULL ∨ k' = command.AWAIT_PULL) →
      ∀ v, v < cdag.m_vertices.length → (cdag.get v).cmd = k' →
        has_one_partner cdag k v →
        has_one_partner (pull_await_graph nid source_nid bid tv source_tv req_cmd req cdag m) k
          v := by
    intro k k' hk hk' v hv hvk ⟨a, ha, ⟨hak, hva, hav⟩, huniq⟩
    have hvt : (cdag.get v).cmd = command.PULL ∨ (cdag.get v).cmd = command.AWAIT_PULL := by
      rw [hvk]; exact hk'
    have hvs : v ≠ source_tv.1 := by
      intro h; subst h
      rcases hvt with h | h
      · exact hsrc.1 h
      · exact hsrc.2 h
    have hvr : v ≠ req_cmd := by
      intro h; subst h
      rcases hvt with h | h <;> rcases hkind with h' | h' <;> rw [h] at h' <;> cases h'
    refine ⟨a, by omega, ⟨?_, ?_, ?_⟩, ?_⟩
    · rw [hget a ha]; exact hak
    · refine (hold v a hv ha).mpr ⟨hva, ?_, ?_⟩
      · rintro ⟨_, h⟩
        subst h
        rcases hk with h | h <;> rcases hkind with h' | h' <;> rw [hak, h] at h' <;> cases h'
      · rintro ⟨h, _⟩
        exact hvs h
    · refine (hold a v ha hv).mpr ⟨hav, ?_, ?_⟩
      · rintro ⟨_, h⟩
        exact hvr h
      · rintro ⟨h, _⟩
        subst h
        rcases hk with h | h
        · exact hsrc.1 (hak.trans h)
        · exact hsrc.2 (hak.trans h)
    · intro b hb ⟨hbk, hvb, hbv⟩
      rw [hlen] at hb
      by_cases hb1 : b < cdag.m_vertices.length
      · apply huniq b hb1
        rw [hget b hb1] at hbk
        exact ⟨hbk, ((hold v b hv hb1).mp hvb).1, ((hold b v hb1 hv).mp hbv).1⟩
      · by_cases hb2 : b = cdag.m_vertices.length
        · subst hb2
          rcases (hfp v hwf h1 h3).mp hbv with h | h
          · exact absurd h hvr
          · omega
        · have hb3 : b = cdag.m_vertices.length + 1 := by omega
          subst hb3
          rcases (hta v hwf h2 hm).mp hvb with h | h
          · exact absurd h hvs
          · omega
  intro v hv
  rw [hlen] at hv
  by_cases hv1 : v < cdag.m_vertices.length
  · rw [hget v hv1]
    exact ⟨fun h => key _ _ (Or.inr rfl) (Or.inl rfl) v hv1 h ((hpaired v hv1).1 h),
      fun h => key _ _ (Or.inl rfl) (Or.inr rfl) v hv1 h ((hpaired v hv1).2 h)⟩
  · by_cases hv2 : v = cdag.m_vertices.length
    · subst hv2
      constructor
      · intro _
        refine ⟨cdag.m_vertices.length + 1, by omega, ⟨hga, ?_, ?_⟩, ?_⟩
        · exact (hfp _ hwf h1 h3).mpr (Or.inr rfl)
        · exact (hfa _ hwf h1 h3).mpr (Or.inr rfl)
        · intro b _ ⟨hbk, hvb, _⟩
          rcases (hfp b hwf h1 h3).mp hvb with h | h
          · subst h
            rw [hget _ h2] at hbk
            rcases hkind with h' | h' <;> rw [hbk] at h' <;> cases h'
          · exact h
      · intro h
        rw [hgp] at h
        cases h
    · have hv3 : v = cdag.m_vertices.length + 1 := by omega
      subst hv3
      constructor
      · intro h
        rw [hga] at h
        cases h
      · intro _
        refine ⟨cdag.m_vertices.length, by omega, ⟨hgp, ?_, ?_⟩, ?_⟩
        · exact (hfa _ hwf h1 h3).mpr (Or.inr rfl)
        · exact (hfp _ hwf h1 h3).mpr (Or.inr rfl)
        · intro b _ ⟨hbk, hvb, hbv⟩
          rcases (hfa b hwf h1 h3).mp hvb with h | h
          · subst h
            rw [hget _ hm] at hbk
            rcases (hta _ hwf h2 hm).mp hbv with h | h
            · rw [h] at hbk
              exact absurd hbk hsrc.1
            · omega
          · exact h

end graph_utils

end celerity

namespace celerity

namespace graph_utils

open Graph

variable {P : Type}

/-! ### Deciding reachability -/

theorem reaches_iff (g : Graph P) (hwf : g.well_formed) (a b : Nat) (ha : g.is_vertex a) :
    reaches g a b = true ↔ g.reachable a b := by
  obtain ⟨D, _, hord, _, hreach⟩ := discovery_order_spec g a hwf ha
  have hc : ((a :: D).contains b = true) ↔ b ∈ a :: D := by simp
  unfold reaches
  rw [hord]
  exact hc.trans (hreach b)

theorem span_reachability_iff (g : command_dag) (hwf : g.well_formed) (tv : task_vertices)
    (h1 : g.is_vertex tv.1) :
    span_reachability g tv ↔ span_reachability_check g tv = true := by
  unfold span_reachability span_reachability_check
  simp only [Bool.and_eq_true, List.all_eq_true, List.mem_range, Bool.or_eq_true,
    decide_eq_true_eq]
  rw [reaches_iff g hwf _ _ h1]
  constructor
  · rintro ⟨hr, hall⟩
    refine ⟨hr, fun x hx => ?_⟩
    by_cases hk : (g.get x).cmd = command.NOP
    · exact Or.inl (Or.inl hk)
    · by_cases ht : (g.get x).tid = (g.get tv.1).tid
      · obtain ⟨hx1, hx2⟩ := hall x hx hk ht
        exact Or.inr ⟨(reaches_iff g hwf _ _ h1).mpr hx1, (reaches_iff g hwf _ _ hx).mpr hx2⟩
      · exact Or.inl (Or.inr ht)
  · rintro ⟨hr, hall⟩
    refine ⟨hr, fun x hx hk ht => ?_⟩
    rcases hall x hx with (h | h) | ⟨hx1, hx2⟩
    · exact absurd h hk
    · exact absurd ht h
    · exact ⟨(reaches_iff g hwf _ _ h1).mp hx1, (reaches_iff g hwf _ _ hx).mp hx2⟩

end graph_utils

end celerity

namespace celerity

namespace graph_utils

open Graph

variable {P : Type}

/-! ### `add_compute_cmd` in closed form, and edge splitting without the edge -/

theorem add_compute_cmd_eq (nid : Nat) (tv : task_vertices) (chunk : subrange)
    (cdag : command_dag) (h1 : tv.1 < cdag.m_vertices.length)
    (h2 : tv.2 < cdag.m_vertices.length) :
    add_compute_cmd nid tv chunk cdag =
      (cdag.m_vertices.length,
        { m_vertices := cdag.m_vertices ++ [compute_properties nid tv chunk cdag]
          m_edges := cdag.m_edges ++ [(tv.1, cdag.m_vertices.length),
            (cdag.m_vertices.length, tv.2)] }) := by
  unfold add_compute_cmd
  simp only [add_vertex]
  rw [add_edge_eq tv.1 cdag.m_vertices.length _ (by simp; omega) (by simp)]
  rw [add_edge_eq cdag.m_vertices.length tv.2 _ (by simp) (by simp; omega)]
  simp only [update_last, compute_properties, Graph.get, getD_append_left _ _ _ _ h1,
    List.append_assoc, List.singleton_append]

theorem filter_ne_of_not_mem (l : List edge_descriptor) (u v : Nat) (h : (u, v) ∉ l) :
    l.filter (fun e => !(e.1 == u && e.2 == v)) = l := by
  rw [List.filter_eq_self]
  intro e he
  rcases e with ⟨a, b⟩
  by_cases h1 : a = u
  · by_cases h2 : b = v
    · subst h1 h2; exact absurd he h
    · simp [h2]
  · simp [h1]

end graph_utils

end celerity

namespace celerity

namespace graph_utils

open Graph

/-! ### How often an edge occurs after `add_pull_cmd` -/

/-- The two edges around the PULL vertex occur exactly once. -/
theorem pull_await_graph_count_pull_edges (nid source_nid bid : Nat)
    (tv source_tv : task_vertices) (req_cmd : Nat) (req : GridBox) (cdag : command_dag) (m : Nat)
    (hwf : cdag.well_formed) (h1 : tv.1 < cdag.m_vertices.length)
    (h2 : req_cmd < cdag.m_vertices.length) (h3 : source_tv.1 < cdag.m_vertices.length)
    (hm : m < cdag.m_vertices.length) :
    (pull_await_graph nid source_nid bid tv source_tv req_cmd req cdag m).m_edges.count
        (tv.1, cdag.m_vertices.length) = 1 ∧
    (pull_await_graph nid source_nid bid tv source_tv req_cmd req cdag m).m_edges.count
        (cdag.m_vertices.length, req_cmd) = 1 := by
  have hold1 : (tv.1, cdag.m_vertices.length) ∉
      cdag.m_edges.filter (fun e => !(e.1 == tv.1 && e.2 == req_cmd)) := by
    intro h
    have := (hwf _ (List.mem_filter.mp h).1).2
    simp only at this
    omega
  have hold2 : (cdag.m_vertices.length, req_cmd) ∉
      cdag.m_edges.filter (fun e => !(e.1 == tv.1 && e.2 == req_cmd)) := by
    intro h
    have := (hwf _ (List.mem_filter.mp h).1).1
    simp only at this
    omega
  have e1 : source_tv.1 ≠ cdag.m_vertices.length := by omega
  have e2 : tv.1 ≠ cdag.m_vertices.length := by omega
  have e3 : m ≠ cdag.m_vertices.length := by omega
  have e4 : req_cmd ≠ cdag.m_vertices.length := by omega
  have e5 : tv.1 ≠ cdag.m_vertices.length + 1 := by omega
  have e6 : req_cmd ≠ cdag.m_vertices.length + 1 := by omega
  have p1 : (fun e : edge_descriptor => !(e.1 == source_tv.1 && e.2 == m))
      (tv.1, cdag.m_vertices.length) = true := by
    simp [Ne.symm e3]
  have p2 : (fun e : edge_descriptor => !(e.1 == source_tv.1 && e.2 == m))
      (cdag.m_vertices.length, req_cmd) = true := by
    simp [Ne.symm e1]
  have hE : (pull_await_graph nid source_nid bid tv source_tv req_cmd req cdag m).m_edges =
      List.filter (fun e : edge_descriptor => !(e.1 == source_tv.1 && e.2 == m))
        (List.filter (fun e : edge_descriptor => !(e.1 == tv.1 && e.2 == req_cmd)) cdag.m_edges ++
          [(tv.1, cdag.m_vertices.length), (cdag.m_vertices.length, req_cmd)]) ++
        [(source_tv.1, cdag.m_vertices.length + 1), (cdag.m_vertices.length + 1, m),
         (cdag.m_vertices.length + 1, cdag.m_vertices.length),
         (cdag.m_vertices.length, cdag.m_vertices.length + 1)] := rfl
  rw [hE]
  constructor
  · rw [List.count_append, (List.count_filter (p := fun e : edge_descriptor => !(e.1 == source_tv.1 && e.2 == m)) p1),
      List.count_append,
      List.count_eq_zero_of_not_mem hold1]
    simp [List.count_cons, e2, e5, Ne.symm e2]
  · rw [List.count_append, (List.count_filter (p := fun e : edge_descriptor => !(e.1 == source_tv.1 && e.2 == m)) p2),
      List.count_append,
      List.count_eq_zero_of_not_mem hold2]
    simp [List.count_cons, e1, e2, e3, e4, e6, Ne.symm e1, Ne.symm e2, Ne.symm e4]

/-- An edge between old vertices that is not one of the two split edges occurs
as often as before. -/
theorem pull_await_graph_count_old (nid source_nid bid : Nat)
    (tv source_tv : task_vertices) (req_cmd : Nat) (req : GridBox) (cdag : command_dag)
    (m a b : Nat) (ha : a < cdag.m_vertices.length) (hb : b < cdag.m_vertices.length)
    (hne1 : ¬ (a = tv.1 ∧ b = req_cmd)) (hne2 : ¬ (a = source_tv.1 ∧ b = m)) :
    (pull_await_graph nid source_nid bid tv source_tv req_cmd req cdag m).m_edges.count (a, b) =
      cdag.m_edges.count (a, b) := by
  have p1 : (fun e : edge_descriptor => !(e.1 == tv.1 && e.2 == req_cmd)) (a, b) = true := by
    simp only [Bool.not_eq_true', Bool.and_eq_false_imp, beq_iff_eq, beq_eq_false_iff_ne, ne_eq]
    intro h1 h2
    exact hne1 ⟨h1, h2⟩
  have p2 : (fun e : edge_descriptor => !(e.1 == source_tv.1 && e.2 == m)) (a, b) = true := by
    simp only [Bool.not_eq_true', Bool.and_eq_false_imp, beq_iff_eq, beq_eq_false_iff_ne, ne_eq]
    intro h1 h2
    exact hne2 ⟨h1, h2⟩
  have e1 : a ≠ cdag.m_vertices.length := by omega
  have e2 : a ≠ cdag.m_vertices.length + 1 := by omega
  have e3 : b ≠ cdag.m_vertices.length := by omega
  have e4 : b ≠ cdag.m_vertices.length + 1 := by omega
  have hE : (pull_await_graph nid source_nid bid tv source_tv req_cmd req cdag m).m_edges =
      List.filter (fun e : edge_descriptor => !(e.1 == source_tv.1 && e.2 == m))
        (List.filter (fun e : edge_descriptor => !(e.1 == tv.1 && e.2 == req_cmd)) cdag.m_edges ++
          [(tv.1, cdag.m_vertices.length), (cdag.m_vertices.length, req_cmd)]) ++
        [(source_tv.1, cdag.m_vertices.length + 1), (cdag.m_vertices.length + 1, m),
         (cdag.m_vertices.length + 1, cdag.m_vertices.length),
         (cdag.m_vertices.length, cdag.m_vertices.length + 1)] := rfl
  rw [hE, List.count_append, (List.count_filter (p := fun e : edge_descriptor => !(e.1 == source_tv.1 && e.2 == m)) p2),
    List.count_append, (List.count_filter (p := fun e : edge_descriptor => !(e.1 == tv.1 && e.2 == req_cmd)) p1)]
  simp [List.count_cons, e1, e2, e3, e4, Ne.symm e1, Ne.symm e2, Ne.symm e3, Ne.symm e4]

end graph_utils

end celerity

namespace celerity

namespace graph_utils

open Graph

variable {P σ : Type}

/-! ### Paths through a split edge -/

/-- Splitting an edge keeps every path: a graph that has all edges of `g` other
than `u -> v`, and the edges `u -> w` and `w -> v`, reaches whatever `g`
reaches. -/
theorem reachable_of_split {P Q : Type} (g : Graph P) (g' : Graph Q) (u v w : Nat)
    (hkeep : ∀ a b, g.has_edge a b → ¬ (a = u ∧ b = v) → g'.has_edge a b)
    (huw : g'.has_edge u w) (hwv : g'.has_edge w v) (x y : Nat) (h : g.reachable x y) :
    g'.reachable x y := by
  induction h with
  | refl => exact Relation.ReflTransGen.refl
  | @tail b c _ hbc ih =>
    by_cases hr : b = u ∧ c = v
    · obtain ⟨rfl, rfl⟩ := hr
      exact (ih.tail huw).tail hwv
    · exact ih.tail (hkeep b c hbc hr)

theorem has_edge_pull_graph (nid source_nid bid : Nat) (tv : task_vertices) (req_cmd : Nat)
    (req : GridBox) (cdag : command_dag) (a b : Nat) :
    (pull_graph nid source_nid bid tv req_cmd req cdag).has_edge a b ↔
      (cdag.has_edge a b ∧ ¬ (a = tv.1 ∧ b = req_cmd)) ∨
        (a = tv.1 ∧ b = cdag.m_vertices.length) ∨ (a = cdag.m_vertices.length ∧ b = req_cmd) := by
  simp only [has_edge, pull_graph, List.mem_append, List.mem_filter, List.mem_cons,
    List.mem_singleton, List.not_mem_nil, or_false, Bool.not_eq_true', Bool.and_eq_false_imp,
    beq_iff_eq, Prod.mk.injEq, beq_eq_false_iff_ne, ne_eq, not_and]

theorem reachable_pull_graph (nid source_nid bid : Nat) (tv : task_vertices) (req_cmd : Nat)
    (req : GridBox) (cdag : command_dag) (x y : Nat) (h : cdag.reachable x y) :
    (pull_graph nid source_nid bid tv req_cmd req cdag).reachable x y := by
  apply reachable_of_split cdag _ tv.1 req_cmd cdag.m_vertices.length _ _ _ x y h
  · intro a b hab hne
    exact (has_edge_pull_graph _ _ _ _ _ _ _ _ _).mpr (Or.inl ⟨hab, hne⟩)
  · exact (has_edge_pull_graph _ _ _ _ _ _ _ _ _).mpr (Or.inr (Or.inl ⟨rfl, rfl⟩))
  · exact (has_edge_pull_graph _ _ _ _ _ _ _ _ _).mpr (Or.inr (Or.inr ⟨rfl, rfl⟩))

theorem reachable_pull_await_graph_of_pull_graph (nid source_nid bid : Nat)
    (tv source_tv : task_vertices) (req_cmd : Nat) (req : GridBox) (cdag : command_dag)
    (m x y : Nat) (h : (pull_graph nid source_nid bid tv req_cmd req cdag).reachable x y) :
    (pull_await_graph nid source_nid bid tv source_tv req_cmd req cdag m).reachable x y := by
  apply reachable_of_split _ _ source_tv.1 m (cdag.m_vertices.length + 1) _ _ _ x y h
  · intro a b hab hne
    rw [has_edge_pull_await_graph]
    exact Or.inl ⟨(has_edge_pull_graph _ _ _ _ _ _ _ _ _).mp hab, hne⟩
  · rw [has_edge_pull_await_graph]
    exact Or.inr (Or.inl ⟨rfl, rfl⟩)
  · rw [has_edge_pull_await_graph]
    exact Or.inr (Or.inr (Or.inl ⟨rfl, rfl⟩))

/-- Every path of the given graph is still there after `add_pull_cmd`. -/
theorem reachable_pull_await_graph (nid source_nid bid : Nat)
    (tv source_tv : task_vertices) (req_cmd : Nat) (req : GridBox) (cdag : command_dag)
    (m x y : Nat) (h : cdag.reachable x y) :
    (pull_await_graph nid source_nid bid tv source_tv req_cmd req cdag m).reachable x y :=
  reachable_pull_await_graph_of_pull_graph _ _ _ _ _ _ _ _ _ _ _
    (reachable_pull_graph _ _ _ _ _ _ _ _ _ h)

/-- When `req_cmd` was reachable from `tv.first`, the PULL vertex adds no path
between old vertices. -/
theorem reachable_of_reachable_pull_graph (nid source_nid bid : Nat) (tv : task_vertices)
    (req_cmd : Nat) (req : GridBox) (cdag : command_dag) (hwf : cdag.well_formed)
    (h1 : tv.1 < cdag.m_vertices.length) (hr : cdag.reachable tv.1 req_cmd) (x y : Nat)
    (hx : x < cdag.m_vertices.length)
    (h : (pull_graph nid source_nid bid tv req_cmd req cdag).reachable x y) :
    (y < cdag.m_vertices.length → cdag.reachable x y) ∧
    (y = cdag.m_vertices.length → cdag.reachable x tv.1) := by
  induction h with
  | refl => exact ⟨fun _ => Relation.ReflTransGen.refl, fun h => by omega⟩
  | @tail b c _ hbc ih =>
    rcases (has_edge_pull_graph _ _ _ _ _ _ _ _ _).mp hbc with ⟨hbc', _⟩ | ⟨hb, hc⟩ | ⟨hb, hc⟩
    · have hb := (hwf _ hbc').1
      have hc := (hwf _ hbc').2
      simp only at hb hc
      exact ⟨fun _ => (ih.1 hb).tail hbc', fun h => by omega⟩
    · subst hb
      exact ⟨fun h => by omega, fun _ => ih.1 h1⟩
    · subst hc
      exact ⟨fun _ => (ih.2 hb).trans hr, fun h => by
        have := is_vertex_of_reachable hwf h1 hr
        simp only [is_vertex] at this
        omega⟩

theorem pull_await_graph_well_formed (nid source_nid bid : Nat) (tv source_tv : task_vertices)
    (req_cmd : Nat) (req : GridBox) (cdag : command_dag) (m : Nat) (hwf : cdag.well_formed)
    (h1 : tv.1 < cdag.m_vertices.length) (h2 : req_cmd < cdag.m_vertices.length)
    (h3 : source_tv.1 < cdag.m_vertices.length) (hm : m < cdag.m_vertices.length) :
    (pull_await_graph nid source_nid bid tv source_tv req_cmd req cdag m).well_formed := by
  intro e he
  rcases e with ⟨a, b⟩
  have he' : (pull_await_graph nid source_nid bid tv source_tv req_cmd req cdag m).has_edge a b :=
    he
  rw [pull_await_graph_length]
  rw [has_edge_pull_await_graph] at he'
  simp only
  rcases he' with ⟨(⟨h, _⟩ | ⟨ha, hb⟩ | ⟨ha, hb⟩), _⟩ | ⟨ha, hb⟩ | ⟨ha, hb⟩ | ⟨ha, hb⟩ | ⟨ha, hb⟩
  · have := hwf _ h; simp only at this; omega
  all_goals omega

theorem call_until_true_of_never (f : σ → Nat → Graph P → Bool × σ) (g : Graph P)
    (hnever : ∀ s v, (f s v g).1 = false) (l : List Nat) (s : σ) :
    (call_until_true f g l s).1 = false ∧ (call_until_true f g l s).2.2 = l := by
  induction l generalizing s with
  | nil => simp [call_until_true]
  | cons v vs ih =>
    rw [call_until_true_cons_false f g v vs s (hnever s v)]
    exact ⟨(ih _).1, by rw [(ih _).2]⟩

end graph_utils

end celerity

namespace celerity

namespace graph_utils

/-! ### Escaping the rendered graph -/

theorem replace_all_append (a b : List Char) (search : Char) (format : List Char) :
    replace_all (a ++ b) search format =
      replace_all a search format ++ replace_all b search format := by
  induction a with
  | nil => simp [replace_all]
  | cons c rest ih => simp [replace_all, ih, List.append_assoc]

theorem replace_all_twice_eq_escape_text (s : List Char) :
    replace_all (replace_all s newline_char [backslash_char, 'n']) quote_char
        [backslash_char, quote_char] = escape_text s := by
  induction s with
  | nil => simp [replace_all, escape_text]
  | cons c rest ih =>
    have hb : backslash_char ≠ quote_char := by decide
    have hn : 'n' ≠ quote_char := by decide
    have hqn : quote_char ≠ newline_char := by decide
    rw [replace_all, replace_all_append, ih, escape_text]
    congr 1
    unfold escape_char
    by_cases h1 : c = newline_char
    · simp [h1, replace_all, hb, hn]
    · by_cases h2 : c = quote_char
      · simp [h2, hqn, replace_all]
      · simp [h1, h2, replace_all]

theorem newline_not_mem_escape_text (s : List Char) : newline_char ∉ escape_text s := by
  induction s with
  | nil => simp [escape_text]
  | cons c rest ih =>
    have hb : newline_char ≠ backslash_char := by decide
    have hn : newline_char ≠ 'n' := by decide
    have hq : newline_char ≠ quote_char := by decide
    have hqn : quote_char ≠ newline_char := by decide
    rw [escape_text, List.mem_append]
    rintro (h | h)
    · unfold escape_char at h
      by_cases h1 : c = newline_char
      · simp [h1, hb, hn] at h
      · by_cases h2 : c = quote_char
        · simp [h2, hqn, hb, hq] at h
        · simp only [h1, h2, if_false, List.mem_singleton] at h
          exact h1 h.symm
    · exact ih h

theorem quotes_escaped_cons (x : Char) (l : List Char) (hx : x ≠ quote_char)
    (h : quotes_escaped l) : quotes_escaped (x :: l) := by
  intro pre post hl
  cases pre with
  | nil =>
    simp only [List.nil_append, List.cons.injEq] at hl
    exact absurd hl.1 hx
  | cons y pre2 =>
    simp only [List.cons_append, List.cons.injEq] at hl
    obtain ⟨p', hp'⟩ := h pre2 post hl.2
    exact ⟨y :: p', by rw [hp', List.cons_append]⟩

theorem quotes_escaped_backslash_quote (l : List Char) (h : quotes_escaped l) :
    quotes_escaped (backslash_char :: quote_char :: l) := by
  have hb : backslash_char ≠ quote_char := by decide
  intro pre post hl
  cases pre with
  | nil =>
    simp only [List.nil_append, List.cons.injEq] at hl
    exact absurd hl.1 hb
  | cons y pre2 =>
    simp only [List.cons_append, List.cons.injEq] at hl
    obtain ⟨hy, hl2⟩ := hl
    cases pre2 with
    | nil => exact ⟨[], by rw [← hy]; rfl⟩
    | cons z pre3 =>
      simp only [List.cons_append, List.cons.injEq] at hl2
      obtain ⟨p', hp'⟩ := h pre3 post hl2.2
      exact ⟨y :: z :: p', by rw [hp']; rfl⟩

theorem quotes_escaped_escape_text (s : List Char) : quotes_escaped (escape_text s) := by
  induction s with
  | nil =>
    intro pre post hl
    simp [escape_text] at hl
  | cons c rest ih =>
    have hb : backslash_char ≠ quote_char := by decide
    have hn : 'n' ≠ quote_char := by decide
    rw [escape_text]
    unfold escape_char
    by_cases h1 : c = newline_char
    · simp only [h1, if_true, List.cons_append, List.nil_append]
      exact quotes_escaped_cons _ _ hb (quotes_escaped_cons _ _ hn ih)
    · by_cases h2 : c = quote_char
      · have hqn : quote_char ≠ newline_char := by decide
        simp only [h2, hqn, if_true, if_false, List.cons_append, List.nil_append]
        exact quotes_escaped_backslash_quote _ ih
      · simp only [h1, h2, if_false, List.cons_append, List.nil_append]
        exact quotes_escaped_cons _ _ h2 ih

end graph_utils

end celerity

namespace celerity

namespace graph_utils

open Graph

/-- C1: on a graph with an edge `u -> v`, `insert_vertex_on_edge` returns a
vertex `w` that was not a vertex before; the new graph has the old vertices
plus `w`, with the old bundles kept; its edges are the old edges other than
`u -> v`, in their old order, followed by `u -> w` and `w -> v`; so `u -> v`
is gone, `u -> w` and `w -> v` are there, and any other pair of vertices is
joined by an edge exactly when it was before. -/
theorem C1_insert_vertex_on_edge {P : Type} [Inhabited P] (g : Graph P) (u v : Nat)
    (hwf : g.well_formed) (huv : g.has_edge u v) :
    ¬ g.is_vertex (insert_vertex_on_edge u v g).1 ∧
    (∀ x, (insert_vertex_on_edge u v g).2.is_vertex x ↔
      g.is_vertex x ∨ x = (insert_vertex_on_edge u v g).1) ∧
    (∀ x, g.is_vertex x → (insert_vertex_on_edge u v g).2.get x = g.get x) ∧
    (insert_vertex_on_edge u v g).2.m_edges =
      g.m_edges.filter (fun e => decide (e ≠ (u, v))) ++
        [(u, (insert_vertex_on_edge u v g).1), ((insert_vertex_on_edge u v g).1, v)] ∧
    ¬ (insert_vertex_on_edge u v g).2.has_edge u v ∧
    (insert_vertex_on_edge u v g).2.has_edge u (insert_vertex_on_edge u v g).1 ∧
    (insert_vertex_on_edge u v g).2.has_edge (insert_vertex_on_edge u v g).1 v ∧
    (∀ a b, (insert_vertex_on_edge u v g).2.has_edge a b ↔
      (g.has_edge a b ∧ (a, b) ≠ (u, v)) ∨ (a, b) = (u, (insert_vertex_on_edge u v g).1) ∨
        (a, b) = ((insert_vertex_on_edge u v g).1, v)) := by
  have hu := well_formed_fst hwf huv
  have hv := well_formed_snd hwf huv
  rw [insert_vertex_on_edge_fst]
  refine ⟨?_, ?_, ?_, ?_, ?_, ?_, ?_, ?_⟩
  · simp [is_vertex]
  · intro x
    simp only [is_vertex, insert_vertex_on_edge_vertices u v g hu hv, List.length_append,
      List.length_singleton]
    omega
  · intro x hx
    simp only [is_vertex] at hx
    simp only [Graph.get, insert_vertex_on_edge_vertices u v g hu hv, List.getD_eq_getElem?_getD]
    rw [List.getElem?_append_left hx]
  · rw [insert_vertex_on_edge_edges]
    congr 1
    apply List.filter_congr
    intro e _
    rcases e with ⟨a, b⟩
    by_cases h1 : a = u <;> by_cases h2 : b = v <;> simp [h1, h2]
  · rw [has_edge_insert_vertex_on_edge]
    simp only [ne_eq, not_true_eq_false, and_false, Prod.mk.injEq, true_and, false_or]
    omega
  · rw [has_edge_insert_vertex_on_edge]; simp
  · rw [has_edge_insert_vertex_on_edge]; simp
  · intro a b
    exact has_edge_insert_vertex_on_edge u v a b g

/-- C1 at the graph with the vertices 0, 1, 2 and the edges 0 -> 1, 1 -> 2,
0 -> 2, split at 0 -> 2. -/
theorem C1_insert_vertex_on_edge_witness :
    (⟨[(), (), ()], [(0, 1), (1, 2), (0, 2)]⟩ : Graph Unit).has_edge 0 2 ∧
    (insert_vertex_on_edge 0 2 (⟨[(), (), ()], [(0, 1), (1, 2), (0, 2)]⟩ : Graph Unit)).2.m_edges =
      (⟨[(), (), ()], [(0, 1), (1, 2), (0, 2)]⟩ : Graph Unit).m_edges.filter
          (fun e => decide (e ≠ (0, 2))) ++
        [(0, (insert_vertex_on_edge 0 2 (⟨[(), (), ()], [(0, 1), (1, 2), (0, 2)]⟩ : Graph Unit)).1),
         ((insert_vertex_on_edge 0 2 (⟨[(), (), ()], [(0, 1), (1, 2), (0, 2)]⟩ : Graph Unit)).1, 2)] :=
  ⟨by decide,
   (C1_insert_vertex_on_edge (⟨[(), (), ()], [(0, 1), (1, 2), (0, 2)]⟩ : Graph Unit) 0 2
      (by decide) (by decide)).2.2.2.1⟩

end graph_utils

end celerity

namespace celerity

namespace graph_utils

open Graph

/-- C2: when the edge `tv.first -> req_cmd` exists and `add_pull_cmd` succeeds,
the vertex `p` it returns is new, its kind is PULL, its node is the requesting
node, its payload holds the buffer id and the source node (and the requested
box); the new graph has the edges `tv.first -> p` and `p -> req_cmd` and no
edge `tv.first -> req_cmd`.  The spans are pairs of vertices of the graph. -/
theorem C2_add_pull_cmd_pull_before_req_cmd (nid source_nid bid : Nat)
    (tv source_tv : task_vertices) (req_cmd : Nat) (req : GridBox) (cdag : command_dag)
    (hwf : cdag.well_formed) (hsize : cdag.m_vertices.length + 2 ≤ 2 ^ 64)
    (h3 : cdag.is_vertex source_tv.1) (h4 : cdag.is_vertex source_tv.2)
    (hedge : cdag.has_edge tv.1 req_cmd)
    (p : Nat) (g' : command_dag)
    (hres : add_pull_cmd nid source_nid bid tv source_tv req_cmd req cdag = some (p, g')) :
    ((cdag.get req_cmd).cmd = command.COMPUTE ∨ (cdag.get req_cmd).cmd = command.MASTER_ACCESS) ∧
    ¬ cdag.is_vertex p ∧ g'.is_vertex p ∧
    (g'.get p).cmd = command.PULL ∧ (g'.get p).nid = nid ∧
    (g'.get p).data = command_data.pull bid source_nid (.of_grid_box req) ∧
    g'.has_edge tv.1 p ∧ g'.has_edge p req_cmd ∧ ¬ g'.has_edge tv.1 req_cmd := by
  have h1 : cdag.is_vertex tv.1 := well_formed_fst hwf hedge
  have h2 : cdag.is_vertex req_cmd := well_formed_snd hwf hedge
  obtain ⟨hp, hkind, order, m, _, _, _, hm, hg⟩ :=
    add_pull_cmd_some nid source_nid bid tv source_tv req_cmd req cdag hwf hsize h1 h2 h3 h4 p g'
      hres
  subst hp hg
  simp only [is_vertex] at h1 h2 h3 h4
  refine ⟨hkind, ?_, ?_, ?_, ?_, ?_, ?_, ?_, ?_⟩
  · simp [is_vertex]
  · simp [is_vertex, pull_await_graph_length]
  · rw [pull_await_graph_get_pull]; rfl
  · rw [pull_await_graph_get_pull]; rfl
  · rw [pull_await_graph_get_pull]; rfl
  · exact (pull_await_graph_edges_to_pull nid source_nid bid tv source_tv req_cmd req cdag m tv.1
      hwf h2 hm).mpr (Or.inl rfl)
  · exact (pull_await_graph_edges_from_pull nid source_nid bid tv source_tv req_cmd req cdag m
      req_cmd hwf h1 h3).mpr (Or.inl rfl)
  · intro h
    have := (pull_await_graph_edges_old nid source_nid bid tv source_tv req_cmd req cdag m tv.1
      req_cmd h1 h2).mp h
    exact this.2.1 ⟨rfl, rfl⟩

/-- C2 in the end-to-end scenario: the PULL vertex is 6, between the begin 2 of
task 2 and its COMPUTE command 5. -/
theorem C2_add_pull_cmd_pull_before_req_cmd_witness :
    (two_tasks true).well_formed ∧ (two_tasks true).has_edge 2 5 ∧
    add_pull_cmd 1 0 7 (2, 3) (0, 1) 5 box_0_10 (two_tasks true) =
      some (6, pull_await_graph 1 0 7 (2, 3) (0, 1) 5 box_0_10 (two_tasks true) 4) ∧
    (pull_await_graph 1 0 7 (2, 3) (0, 1) 5 box_0_10 (two_tasks true) 4).has_edge 2 6 ∧
    (pull_await_graph 1 0 7 (2, 3) (0, 1) 5 box_0_10 (two_tasks true) 4).has_edge 6 5 ∧
    ¬ (pull_await_graph 1 0 7 (2, 3) (0, 1) 5 box_0_10 (two_tasks true) 4).has_edge 2 5 :=
  ⟨by decide, by decide, by decide,
   (C2_add_pull_cmd_pull_before_req_cmd 1 0 7 (2, 3) (0, 1) 5 box_0_10 (two_tasks true)
      (by decide) (by decide) (by decide) (by decide) (by decide) 6
      (pull_await_graph 1 0 7 (2, 3) (0, 1) 5 box_0_10 (two_tasks true) 4)
      (by decide)).2.2.2.2.2.2⟩

/-- C3: when `add_pull_cmd` succeeds and a vertex that the functor accepts (a
MASTER_ACCESS command, or a COMPUTE command on `source_nid`) is reachable from
`source_tv.first`, then the vertex `m` that the search matched is the first
accepted vertex of the breadth-first discovery order from `source_tv.first`;
the new AWAIT_PULL vertex `a` has node `source_nid` and sits on the edge
`source_tv.first -> m`: the edges `source_tv.first -> a` and `a -> m` exist,
the edge `source_tv.first -> m` does not.  The search runs on the graph that
already holds the PULL vertex (`pull_graph`), so that graph gives the order. -/
theorem C3_add_pull_cmd_await_before_first_match (nid source_nid bid : Nat)
    (tv source_tv : task_vertices) (req_cmd : Nat) (req : GridBox) (cdag : command_dag)
    (hwf : cdag.well_formed) (hsize : cdag.m_vertices.length + 2 ≤ 2 ^ 64)
    (h1 : cdag.is_vertex tv.1) (h2 : cdag.is_vertex req_cmd)
    (h3 : cdag.is_vertex source_tv.1) (h4 : cdag.is_vertex source_tv.2)
    (p : Nat) (g' : command_dag)
    (hres : add_pull_cmd nid source_nid bid tv source_tv req_cmd req cdag = some (p, g'))
    (hmatch : ∃ x, (pull_graph nid source_nid bid tv req_cmd req cdag).reachable source_tv.1 x ∧
      is_source_command source_nid (pull_graph nid source_nid bid tv req_cmd req cdag) x = true) :
    ∃ order m a,
      discovery_order (pull_graph nid source_nid bid tv req_cmd req cdag) source_tv.1 =
        some order ∧
      order.find? (is_source_command source_nid
        (pull_graph nid source_nid bid tv req_cmd req cdag)) = some m ∧
      ¬ cdag.is_vertex a ∧ a ≠ p ∧ g'.is_vertex a ∧
      (g'.get a).cmd = command.AWAIT_PULL ∧ (g'.get a).nid = source_nid ∧
      g'.has_edge source_tv.1 a ∧ g'.has_edge a m ∧ ¬ g'.has_edge source_tv.1 m := by
  obtain ⟨hp, _, order, m, hord, hreach, hfind, hm, hg⟩ :=
    add_pull_cmd_some nid source_nid bid tv source_tv req_cmd req cdag hwf hsize h1 h2 h3 h4 p g'
      hres
  subst hp hg
  simp only [is_vertex] at h1 h2 h3 h4
  have hfind' : order.find? (is_source_command source_nid
      (pull_graph nid source_nid bid tv req_cmd req cdag)) = some m := by
    rcases hfind with h | ⟨h, _, _⟩
    · exact h
    · obtain ⟨x, hx1, hx2⟩ := hmatch
      have := List.find?_eq_none.mp h x ((hreach x).mpr hx1)
      exact absurd hx2 this
  refine ⟨order, m, cdag.m_vertices.length + 1, hord, hfind', ?_, ?_, ?_, ?_, ?_, ?_, ?_, ?_⟩
  · simp [is_vertex]
  · omega
  · simp [is_vertex, pull_await_graph_length]
  · rw [pull_await_graph_get_await]; rfl
  · rw [pull_await_graph_get_await]; rfl
  · exact (pull_await_graph_edges_to_await nid source_nid bid tv source_tv req_cmd req cdag m
      source_tv.1 hwf h2 hm).mpr (Or.inl rfl)
  · exact (pull_await_graph_edges_from_await nid source_nid bid tv source_tv req_cmd req cdag m
      m hwf h1 h3).mpr (Or.inl rfl)
  · intro h
    have := (pull_await_graph_edges_old nid source_nid bid tv source_tv req_cmd req cdag m
      source_tv.1 m h3 hm).mp h
    exact this.2.2 ⟨rfl, rfl⟩

/-- C3 in the end-to-end scenario: the discovery order from the begin 0 of task 1
is 0, 1, 4, 2, 3, 6, 5; its first accepted vertex is the COMPUTE command 4 on
node 0. -/
theorem C3_add_pull_cmd_await_before_first_match_witness :
    discovery_order (pull_graph 1 0 7 (2, 3) 5 box_0_10 (two_tasks true)) 0 =
      some [0, 1, 4, 2, 3, 6, 5] ∧
    ∃ order m a,
      discovery_order (pull_graph 1 0 7 (2, 3) 5 box_0_10 (two_tasks true)) 0 = some order ∧
      order.find? (is_source_command 0 (pull_graph 1 0 7 (2, 3) 5 box_0_10 (two_tasks true))) =
        some m ∧
      ¬ (two_tasks true).is_vertex a ∧ a ≠ 6 ∧
      (pull_await_graph 1 0 7 (2, 3) (0, 1) 5 box_0_10 (two_tasks true) 4).is_vertex a ∧
      ((pull_await_graph 1 0 7 (2, 3) (0, 1) 5 box_0_10 (two_tasks true) 4).get a).cmd =
        command.AWAIT_PULL ∧
      ((pull_await_graph 1 0 7 (2, 3) (0, 1) 5 box_0_10 (two_tasks true) 4).get a).nid = 0 ∧
      (pull_await_graph 1 0 7 (2, 3) (0, 1) 5 box_0_10 (two_tasks true) 4).has_edge 0 a ∧
      (pull_await_graph 1 0 7 (2, 3) (0, 1) 5 box_0_10 (two_tasks true) 4).has_edge a m ∧
      ¬ (pull_await_graph 1 0 7 (2, 3) (0, 1) 5 box_0_10 (two_tasks true) 4).has_edge 0 m :=
  ⟨by decide,
   C3_add_pull_cmd_await_before_first_match 1 0 7 (2, 3) (0, 1) 5 box_0_10 (two_tasks true)
     (by decide) (by decide) (by decide) (by decide) (by decide) (by decide) 6
     (pull_await_graph 1 0 7 (2, 3) (0, 1) 5 box_0_10 (two_tasks true) 4) (by decide)
     ⟨4, Relation.ReflTransGen.single (by decide), by decide⟩⟩

end graph_utils

end celerity

namespace celerity

namespace graph_utils

open Graph

/-- C4: when pull/await pairing holds in a command graph and `add_pull_cmd`
succeeds, pairing holds in the new graph; the PULL vertex `p` and the
AWAIT_PULL vertex `a` of this call are new and joined by exactly one edge
`p -> a` and exactly one edge `a -> p`.  The spans are pairs of vertices of the
graph, and the begin vertex of the source task is not itself a PULL or
AWAIT_PULL vertex. -/
theorem C4_add_pull_cmd_keeps_pairing (nid source_nid bid : Nat)
    (tv source_tv : task_vertices) (req_cmd : Nat) (req : GridBox) (cdag : command_dag)
    (hwf : cdag.well_formed) (hsize : cdag.m_vertices.length + 2 ≤ 2 ^ 64)
    (h1 : cdag.is_vertex tv.1) (h2 : cdag.is_vertex req_cmd)
    (h3 : cdag.is_vertex source_tv.1) (h4 : cdag.is_vertex source_tv.2)
    (hsrc : (cdag.get source_tv.1).cmd ≠ command.PULL ∧
      (cdag.get source_tv.1).cmd ≠ command.AWAIT_PULL)
    (hpaired : paired cdag) (p : Nat) (g' : command_dag)
    (hres : add_pull_cmd nid source_nid bid tv source_tv req_cmd req cdag = some (p, g')) :
    paired g' ∧
    ∃ a, ¬ cdag.is_vertex p ∧ ¬ cdag.is_vertex a ∧ a ≠ p ∧ g'.is_vertex p ∧ g'.is_vertex a ∧
      (g'.get p).cmd = command.PULL ∧ (g'.get a).cmd = command.AWAIT_PULL ∧
      g'.m_edges.count (p, a) = 1 ∧ g'.m_edges.count (a, p) = 1 := by
  obtain ⟨hp, hkind, order, m, _, _, _, hm, hg⟩ :=
    add_pull_cmd_some nid source_nid bid tv source_tv req_cmd req cdag hwf hsize h1 h2 h3 h4 p g'
      hres
  subst hp hg
  simp only [is_vertex] at h1 h2 h3 h4
  have hcount := pull_await_graph_count_link nid source_nid bid tv source_tv req_cmd req cdag m
    hwf h1 h2 h3 hm
  refine ⟨paired_pull_await_graph nid source_nid bid tv source_tv req_cmd req cdag m hwf h1 h2 h3
    hm hkind hsrc hpaired, cdag.m_vertices.length + 1, ?_, ?_, ?_, ?_, ?_, ?_, ?_, hcount.1,
    hcount.2⟩
  · simp [is_vertex]
  · simp [is_vertex]
  · omega
  · simp [is_vertex, pull_await_graph_length]
  · simp [is_vertex, pull_await_graph_length]
  · rw [pull_await_graph_get_pull]; rfl
  · rw [pull_await_graph_get_await]; rfl

/-- C4 for a second pull in the end-to-end scenario: the graph already holds the
pair 6, 7 from a first call; the second call adds the pair 8, 9. -/
theorem C4_add_pull_cmd_keeps_pairing_witness :
    paired (pull_await_graph 1 0 7 (2, 3) (0, 1) 5 box_0_10 (two_tasks true) 4) ∧
    add_pull_cmd 1 0 8 (2, 3) (0, 1) 5 box_0_10
        (pull_await_graph 1 0 7 (2, 3) (0, 1) 5 box_0_10 (two_tasks true) 4) =
      some (8, pull_await_graph 1 0 8 (2, 3) (0, 1) 5 box_0_10
        (pull_await_graph 1 0 7 (2, 3) (0, 1) 5 box_0_10 (two_tasks true) 4) 4) ∧
    paired (pull_await_graph 1 0 8 (2, 3) (0, 1) 5 box_0_10
      (pull_await_graph 1 0 7 (2, 3) (0, 1) 5 box_0_10 (two_tasks true) 4) 4) :=
  ⟨by decide, by decide,
   (C4_add_pull_cmd_keeps_pairing 1 0 8 (2, 3) (0, 1) 5 box_0_10
      (pull_await_graph 1 0 7 (2, 3) (0, 1) 5 box_0_10 (two_tasks true) 4)
      (by decide) (by decide) (by decide) (by decide) (by decide) (by decide) (by decide)
      (by decide) 8
      (pull_await_graph 1 0 8 (2, 3) (0, 1) 5 box_0_10
        (pull_await_graph 1 0 7 (2, 3) (0, 1) 5 box_0_10 (two_tasks true) 4) 4)
      (by decide)).1⟩

/-- C5, the code at the failing input: task 1 (begin 0, end 1) has no COMPUTE
command on node 0 and no MASTER_ACCESS command, and the source node is 0; the
search from the begin of task 1 walks on into task 2 and accepts its COMPUTE
command 5 on node 0, so the AWAIT_PULL vertex 8 is put before the command 5 of
task 2 and has no edge to the end 1 of task 1. -/
theorem C5_master_fallback_not_taken :
    (∀ x, x < (three_commands true).m_vertices.length →
      ((three_commands true).get x).tid = ((three_commands true).get 0).tid →
      is_source_command 0 (three_commands true) x = false) ∧
    add_pull_cmd 1 0 7 (2, 3) (0, 1) 6 box_0_10 (three_commands true) =
      some (7, pull_await_graph 1 0 7 (2, 3) (0, 1) 6 box_0_10 (three_commands true) 5) ∧
    ((pull_await_graph 1 0 7 (2, 3) (0, 1) 6 box_0_10 (three_commands true) 5).get 8).cmd =
      command.AWAIT_PULL ∧
    (pull_await_graph 1 0 7 (2, 3) (0, 1) 6 box_0_10 (three_commands true) 5).has_edge 0 8 ∧
    (pull_await_graph 1 0 7 (2, 3) (0, 1) 6 box_0_10 (three_commands true) 5).has_edge 8 5 ∧
    ((pull_await_graph 1 0 7 (2, 3) (0, 1) 6 box_0_10 (three_commands true) 5).get 5).tid =
      ((three_commands true).get 2).tid ∧
    ¬ (pull_await_graph 1 0 7 (2, 3) (0, 1) 6 box_0_10 (three_commands true) 5).has_edge 8 1 := by
  decide!

/-- C6, as the code has it: in the end-to-end scenario (with or without the
edges from each begin to its end) the call puts the PULL vertex 6 (node 1,
source node 0, buffer 7, box `[0, 10)`) on the edge from the begin 2 of task 2
to its COMPUTE command 5, puts the AWAIT_PULL vertex 7 on the edge from the
begin 0 of task 1 to its COMPUTE command 4, that is before that command, and
links 6 and 7 in both directions. -/
theorem C6_end_to_end_await_before_compute (span_edges : Bool) :
    add_pull_cmd 1 0 7 (2, 3) (0, 1) 5 box_0_10 (two_tasks span_edges) =
      some (6, pull_await_graph 1 0 7 (2, 3) (0, 1) 5 box_0_10 (two_tasks span_edges) 4) ∧
    (pull_await_graph 1 0 7 (2, 3) (0, 1) 5 box_0_10 (two_tasks span_edges) 4).get 6 =
      { label := label_text.pull_label 1 7 0 box_0_10, cmd := command.PULL, nid := 1, tid := 2,
        data := command_data.pull 7 0 (.of_grid_box box_0_10) } ∧
    (pull_await_graph 1 0 7 (2, 3) (0, 1) 5 box_0_10 (two_tasks span_edges) 4).get 7 =
      { label := label_text.await_pull_label 0 7 1 box_0_10, cmd := command.AWAIT_PULL, nid := 0,
        tid := 1, data := command_data.await_pull 7 1 2 (.of_grid_box box_0_10) } ∧
    (pull_await_graph 1 0 7 (2, 3) (0, 1) 5 box_0_10 (two_tasks span_edges) 4).has_edge 2 6 ∧
    (pull_await_graph 1 0 7 (2, 3) (0, 1) 5 box_0_10 (two_tasks span_edges) 4).has_edge 6 5 ∧
    ¬ (pull_await_graph 1 0 7 (2, 3) (0, 1) 5 box_0_10 (two_tasks span_edges) 4).has_edge 2 5 ∧
    (pull_await_graph 1 0 7 (2, 3) (0, 1) 5 box_0_10 (two_tasks span_edges) 4).has_edge 0 7 ∧
    (pull_await_graph 1 0 7 (2, 3) (0, 1) 5 box_0_10 (two_tasks span_edges) 4).has_edge 7 4 ∧
    ¬ (pull_await_graph 1 0 7 (2, 3) (0, 1) 5 box_0_10 (two_tasks span_edges) 4).has_edge 0 4 ∧
    ¬ (pull_await_graph 1 0 7 (2, 3) (0, 1) 5 box_0_10 (two_tasks span_edges) 4).has_edge 4 7 ∧
    (pull_await_graph 1 0 7 (2, 3) (0, 1) 5 box_0_10 (two_tasks span_edges) 4).has_edge 6 7 ∧
    (pull_await_graph 1 0 7 (2, 3) (0, 1) 5 box_0_10 (two_tasks span_edges) 4).has_edge 7 6 := by
  cases span_edges <;> decide

/-- C6 fails as stated: in the end-to-end scenario (the graph has the edges
0 -> 4 -> 1 of task 1 with the COMPUTE command 4 on node 0, 2 -> 5 -> 3 of task
2 with the COMPUTE command 5 on node 1, and 1 -> 2) the call succeeds, and in
the graph it returns no AWAIT_PULL vertex has an edge from the COMPUTE command 4
of task 1; the one AWAIT_PULL vertex, 7, has an edge to it instead. -/
theorem C6_counterexample :
    (two_tasks false).m_edges = [(1, 2), (0, 4), (4, 1), (2, 5), (5, 3)] ∧
    ((two_tasks false).get 4).cmd = command.COMPUTE ∧ ((two_tasks false).get 4).nid = 0 ∧
    ((two_tasks false).get 5).cmd = command.COMPUTE ∧ ((two_tasks false).get 5).nid = 1 ∧
    add_pull_cmd 1 0 7 (2, 3) (0, 1) 5 box_0_10 (two_tasks false) =
      some (6, pull_await_graph 1 0 7 (2, 3) (0, 1) 5 box_0_10 (two_tasks false) 4) ∧
    (∀ a, a < (pull_await_graph 1 0 7 (2, 3) (0, 1) 5 box_0_10
          (two_tasks false) 4).m_vertices.length →
      ((pull_await_graph 1 0 7 (2, 3) (0, 1) 5 box_0_10 (two_tasks false) 4).get a).cmd =
        command.AWAIT_PULL →
      ¬ (pull_await_graph 1 0 7 (2, 3) (0, 1) 5 box_0_10 (two_tasks false) 4).has_edge 4 a) ∧
    (pull_await_graph 1 0 7 (2, 3) (0, 1) 5 box_0_10 (two_tasks false) 4).has_edge 7 4 := by
  decide

/-- C7, the code at the failing input: span reachability holds for both tasks
before the call; the call succeeds; the AWAIT_PULL vertex 8 it creates carries
the task id of task 1 (begin 0, end 1), but the end 1 of task 1 is not
reachable from it, so span reachability no longer holds for task 1. -/
theorem C7_span_reachability_lost :
    span_reachability (three_commands true) (0, 1) ∧
    span_reachability (three_commands true) (2, 3) ∧
    add_pull_cmd 1 0 7 (2, 3) (0, 1) 6 box_0_10 (three_commands true) =
      some (7, pull_await_graph 1 0 7 (2, 3) (0, 1) 6 box_0_10 (three_commands true) 5) ∧
    ((pull_await_graph 1 0 7 (2, 3) (0, 1) 6 box_0_10 (three_commands true) 5).get 8).cmd =
      command.AWAIT_PULL ∧
    ((pull_await_graph 1 0 7 (2, 3) (0, 1) 6 box_0_10 (three_commands true) 5).get 8).tid =
      ((pull_await_graph 1 0 7 (2, 3) (0, 1) 6 box_0_10 (three_commands true) 5).get 0).tid ∧
    ¬ (pull_await_graph 1 0 7 (2, 3) (0, 1) 6 box_0_10 (three_commands true) 5).reachable 8 1 ∧
    ¬ span_reachability
      (pull_await_graph 1 0 7 (2, 3) (0, 1) 6 box_0_10 (three_commands true) 5) (0, 1) := by
  refine ⟨?_, ?_, by decide!, by decide!, by decide!, ?_, ?_⟩
  · exact (span_reachability_iff _ (by decide!) _ (by decide!)).mpr
      (by decide!)
  · exact (span_reachability_iff _ (by decide!) _ (by decide!)).mpr
      (by decide!)
  · rw [← reaches_iff _ (by decide!) _ _ (by decide!)]
    decide!
  · rw [span_reachability_iff _ (by decide!) _ (by decide!)]
    decide!

end graph_utils

end celerity

namespace celerity

namespace graph_utils

open Graph

/-- C8, as the code has it: a `bool` functor that returns `false` on its first
call is invoked on exactly one vertex, the first successor (respectively
predecessor) in storage order, and the traversal returns `false`. -/
theorem C8_abort_on_false {P σ : Type} (g : Graph P) (v : Nat) (fn : σ → Nat → Bool × σ) (s : σ) :
    (∀ e rest, out_edges v g = e :: rest → (fn s (target e)).1 = false →
      for_successors g v (logged (.returns_bool fn)) (s, []) =
        (false, ((fn s (target e)).2, [target e]))) ∧
    (∀ e rest, in_edges v g = e :: rest → (fn s (source e)).1 = false →
      for_predecessors g v (logged (.returns_bool fn)) (s, []) =
        (false, ((fn s (source e)).2, [source e]))) := by
  constructor
  · intro e rest he hf
    simp [for_successors, he, for_successors_loop, call_for_vertex_fn, logged, hf]
  · intro e rest he hf
    simp [for_predecessors, he, for_predecessors_loop, call_for_vertex_fn, logged, hf]

/-- C8 as the code has it, at vertex 0 (successors 1, 2) and vertex 3
(predecessors 1, 2) of the diamond with the functor that always returns
`false`. -/
theorem C8_abort_on_false_witness :
    for_successors diamond 0 (logged (.returns_bool always_false)) ((), []) = (false, ((), [1])) ∧
    for_predecessors diamond 3 (logged (.returns_bool always_false)) ((), []) =
      (false, ((), [1])) :=
  ⟨(C8_abort_on_false diamond 0 always_false ()).1 (0, 1) [(0, 2)] (by decide) (by decide),
   (C8_abort_on_false diamond 3 always_false ()).2 (1, 3) [(2, 3)] (by decide) (by decide)⟩

/-- C8 fails as stated: at vertex 0 (successors 1, 2) and vertex 3
(predecessors 1, 2) of the diamond, the functor that returns `true` on its
first call is invoked on both vertices and the traversal returns `true`. -/
theorem C8_counterexample :
    out_edges 0 diamond ≠ [] ∧ in_edges 3 diamond ≠ [] ∧
    (always_true () 1).1 = true ∧
    for_successors diamond 0 (logged (.returns_bool always_true)) ((), []) =
      (true, ((), [1, 2])) ∧
    for_predecessors diamond 3 (logged (.returns_bool always_true)) ((), []) =
      (true, ((), [1, 2])) ∧
    ¬ ((for_successors diamond 0 (logged (.returns_bool always_true)) ((), [])).1 = false ∧
        (for_successors diamond 0 (logged (.returns_bool always_true)) ((), [])).2.2.length = 1) ∧
    ¬ ((for_predecessors diamond 3 (logged (.returns_bool always_true)) ((), [])).1 = false ∧
        (for_predecessors diamond 3 (logged (.returns_bool always_true)) ((), [])).2.2.length = 1) := by
  decide

/-- C9: with a functor that returns nothing, `for_predecessors` (respectively
`for_successors`) calls it on the sources of the in-edges (targets of the
out-edges) of `v` in storage order and on nothing else, once per edge, and
returns `true`. -/
theorem C9_void_functor_visits_each {P σ : Type} (g : Graph P) (v : Nat) (fn : σ → Nat → σ)
    (s : σ) :
    for_predecessors g v (logged (.returns_void fn)) (s, []) =
      (true, (((in_edges v g).map source).foldl fn s, (in_edges v g).map source)) ∧
    for_successors g v (logged (.returns_void fn)) (s, []) =
      (true, (((out_edges v g).map target).foldl fn s, (out_edges v g).map target)) ∧
    (in_edges v g).Sublist g.m_edges ∧ (out_edges v g).Sublist g.m_edges ∧
    (∀ x, x ∈ (in_edges v g).map source ↔ g.has_edge x v) ∧
    (∀ x, x ∈ (out_edges v g).map target ↔ g.has_edge v x) ∧
    (∀ x, ((in_edges v g).map source).count x = g.m_edges.count (x, v)) ∧
    (∀ x, ((out_edges v g).map target).count x = g.m_edges.count (v, x)) := by
  refine ⟨?_, ?_, ?_, ?_, ?_, ?_, ?_, ?_⟩
  · simp [for_predecessors, for_predecessors_loop_void]
  · simp [for_successors, for_successors_loop_void]
  · exact List.filter_sublist _
  · exact List.filter_sublist _
  · exact mem_in_edges_source g v
  · exact mem_out_edges_target g v
  · intro x; exact count_in_edges_source g.m_edges v x
  · intro x; exact count_out_edges_target g.m_edges v x

end graph_utils

end celerity

namespace celerity

namespace graph_utils

open Graph

/-- C10: in a well-formed graph, the vertices on which `search_vertex_bf` calls
the functor are the breadth-first discovery order from `start`, cut off right
after the first vertex on which the functor returns `true`; the search returns
normally (it yields the functor's state after the last call), whether or not it
was stopped.  The discovery order begins with `start`, repeats no vertex, holds
exactly the vertices reachable from `start`, and goes level by level: a vertex
never comes before one that is nearer to `start`.  It is the order that the
queue discipline alone gives (`bfs_rest`), whatever the functor. -/
theorem C10_search_vertex_bf_cut_at_first_true {P σ : Type} (g : Graph P) (start : Nat)
    (f : σ → Nat → Graph P → Bool × σ) (s : σ)
    (hwf : g.well_formed) (hstart : g.is_vertex start) :
    ∃ order, discovery_order g start = some order ∧
      order.head? = some start ∧ order.Nodup ∧
      (∀ x, x ∈ order ↔ g.reachable start x) ∧
      (∀ x, g.reachable start x ↔ ∃ k, reach_within g k start x) ∧
      order.Pairwise (not_farther g start) ∧
      (∃ D, order = start :: D ∧ bfs_rest g (num_vertices g) [start] [start] = some D) ∧
      search_vertex_bf start g (traced f) (s, []) =
        some ((call_until_true f g order s).2.1, (call_until_true f g order s).2.2) ∧
      search_vertex_bf start g f s = some (call_until_true f g order s).2.1 ∧
      (call_until_true f g order s).2.2 <+: order := by
  obtain ⟨D, hD, hord, hnd, hreach⟩ := discovery_order_spec g start hwf hstart
  refine ⟨start :: D, hord, rfl, hnd, hreach, fun x => reachable_iff_reach_within g start x,
    discovery_order_level_sorted g start D hD, ⟨D, rfl, hD⟩, ?_, ?_, ?_⟩
  · rw [search_vertex_bf_eq (traced f) g start (s, []) D hD, call_until_true_traced]
    simp
  · exact search_vertex_bf_eq f g start s D hD
  · exact call_until_true_calls_prefix f g _ s

/-- C10 on the diamond from vertex 0, with a functor that counts its calls and
returns `true` on vertex 2: the discovery order is 0, 1, 2, 3 and the functor
is called on 0, 1, 2. -/
theorem C10_search_vertex_bf_cut_at_first_true_witness :
    diamond.well_formed ∧ diamond.is_vertex 0 ∧
    discovery_order diamond 0 = some [0, 1, 2, 3] ∧
    search_vertex_bf 0 diamond (traced (fun (s : Nat) v _ => (v == 2, s + 1))) (0, []) =
      some (3, [0, 1, 2]) ∧
    ∃ order, discovery_order diamond 0 = some order ∧
      order.head? = some 0 ∧ order.Nodup ∧
      (∀ x, x ∈ order ↔ diamond.reachable 0 x) ∧
      (∀ x, diamond.reachable 0 x ↔ ∃ k, reach_within diamond k 0 x) ∧
      order.Pairwise (not_farther diamond 0) ∧
      (∃ D, order = 0 :: D ∧ bfs_rest diamond (num_vertices diamond) [0] [0] = some D) ∧
      search_vertex_bf 0 diamond (traced (fun (s : Nat) v _ => (v == 2, s + 1))) (0, []) =
        some ((call_until_true (fun (s : Nat) v _ => (v == 2, s + 1)) diamond order 0).2.1,
          (call_until_true (fun (s : Nat) v _ => (v == 2, s + 1)) diamond order 0).2.2) ∧
      search_vertex_bf 0 diamond (fun (s : Nat) v _ => (v == 2, s + 1)) 0 =
        some (call_until_true (fun (s : Nat) v _ => (v == 2, s + 1)) diamond order 0).2.1 ∧
      (call_until_true (fun (s : Nat) v _ => (v == 2, s + 1)) diamond order 0).2.2 <+: order :=
  ⟨by decide, by decide, by decide, by decide,
   C10_search_vertex_bf_cut_at_first_true diamond 0 (fun (s : Nat) v _ => (v == 2, s + 1)) 0
     (by decide) (by decide)⟩

end graph_utils

end celerity

namespace celerity

namespace graph_utils

open Graph

/-- C12, as the code has it: when the graph has no edge `u -> v` (and `u`, `v`
are vertices), `insert_vertex_on_edge` does not fail: it returns the new vertex
`w` and the graph with one more vertex and with all old edges, followed by
`u -> w` and `w -> v`. -/
theorem C12_insert_vertex_on_edge_without_edge {P : Type} [Inhabited P] (g : Graph P) (u v : Nat)
    (hu : g.is_vertex u) (hv : g.is_vertex v) (hno : ¬ g.has_edge u v) :
    insert_vertex_on_edge u v g =
      (g.m_vertices.length,
        { m_vertices := g.m_vertices ++ [default]
          m_edges := g.m_edges ++ [(u, g.m_vertices.length), (g.m_vertices.length, v)] }) := by
  rw [insert_vertex_on_edge_eq u v g hu hv, filter_ne_of_not_mem g.m_edges u v hno]

/-- C12 as the code has it, on the diamond, which has no edge 0 -> 3. -/
theorem C12_insert_vertex_on_edge_without_edge_witness :
    ¬ diamond.has_edge 0 3 ∧
    insert_vertex_on_edge 0 3 diamond =
      (diamond.m_vertices.length,
        { m_vertices := diamond.m_vertices ++ [default]
          m_edges := diamond.m_edges ++
            [(0, diamond.m_vertices.length), (diamond.m_vertices.length, 3)] }) :=
  ⟨by decide,
   C12_insert_vertex_on_edge_without_edge diamond 0 3 (by decide) (by decide) (by decide)⟩

/-- C12 fails as stated: the diamond has no edge 0 -> 3, and
`insert_vertex_on_edge` at 0, 3 still returns a vertex, 4, and a graph that
differs from the diamond: it has the vertex 4 and the edges 0 -> 4 and 4 -> 3. -/
theorem C12_counterexample :
    ¬ diamond.has_edge 0 3 ∧
    insert_vertex_on_edge 0 3 diamond =
      (4, { m_vertices := [(), (), (), (), ()]
            m_edges := [(0, 1), (0, 2), (1, 3), (2, 3), (0, 4), (4, 3)] }) ∧
    (insert_vertex_on_edge 0 3 diamond).2 ≠ diamond := by
  decide

/-- C13: for a span of vertices of the graph, `add_compute_cmd` returns a new
vertex `v` of kind COMPUTE, with node `nid`, the task id stored on the begin
vertex, and the chunk as payload; the new graph has the edges `begin -> v` and
`v -> end`. -/
theorem C13_add_compute_cmd (nid : Nat) (tv : task_vertices) (chunk : subrange)
    (cdag : command_dag) (h1 : cdag.is_vertex tv.1) (h2 : cdag.is_vertex tv.2) :
    ¬ cdag.is_vertex (add_compute_cmd nid tv chunk cdag).1 ∧
    (add_compute_cmd nid tv chunk cdag).2.is_vertex (add_compute_cmd nid tv chunk cdag).1 ∧
    ((add_compute_cmd nid tv chunk cdag).2.get (add_compute_cmd nid tv chunk cdag).1).cmd =
      command.COMPUTE ∧
    ((add_compute_cmd nid tv chunk cdag).2.get (add_compute_cmd nid tv chunk cdag).1).nid = nid ∧
    ((add_compute_cmd nid tv chunk cdag).2.get (add_compute_cmd nid tv chunk cdag).1).tid =
      (cdag.get tv.1).tid ∧
    ((add_compute_cmd nid tv chunk cdag).2.get tv.1).tid = (cdag.get tv.1).tid ∧
    ((add_compute_cmd nid tv chunk cdag).2.get (add_compute_cmd nid tv chunk cdag).1).data =
      command_data.compute (.of_subrange chunk) ∧
    (add_compute_cmd nid tv chunk cdag).2.has_edge tv.1 (add_compute_cmd nid tv chunk cdag).1 ∧
    (add_compute_cmd nid tv chunk cdag).2.has_edge (add_compute_cmd nid tv chunk cdag).1 tv.2 := by
  simp only [is_vertex] at h1 h2
  rw [add_compute_cmd_eq nid tv chunk cdag h1 h2]
  refine ⟨?_, ?_, ?_, ?_, ?_, ?_, ?_, ?_, ?_⟩
  · simp [is_vertex]
  · simp [is_vertex]
  · simp only [get_append_last]; rfl
  · simp only [get_append_last]; rfl
  · simp only [get_append_last]; rfl
  · simp only [Graph.get, getD_append_left _ _ _ _ h1]
  · simp only [get_append_last]; rfl
  · simp [has_edge]
  · simp [has_edge]

/-- C13 for the first command of the end-to-end scenario: the COMPUTE vertex 4
on node 0 in task 1. -/
theorem C13_add_compute_cmd_witness :
    (two_spans true).is_vertex 0 ∧ (two_spans true).is_vertex 1 ∧
    (add_compute_cmd 0 (0, 1) chunk_0_10 (two_spans true)).1 = 4 ∧
    ((add_compute_cmd 0 (0, 1) chunk_0_10 (two_spans true)).2.get
        (add_compute_cmd 0 (0, 1) chunk_0_10 (two_spans true)).1).cmd = command.COMPUTE :=
  ⟨by decide, by decide, by decide,
   (C13_add_compute_cmd 0 (0, 1) chunk_0_10 (two_spans true) (by decide) (by decide)).2.2.1⟩

/-- C14, as the code has it: after a successful `add_pull_cmd` the PULL vertex
has the task id stored on the begin vertex of the requesting span; the
AWAIT_PULL vertex has the task id stored on the begin vertex of the source
span, and keeps the task id of the requesting span in its payload, as
`target_tid`. -/
theorem C14_add_pull_cmd_task_ids (nid source_nid bid : Nat)
    (tv source_tv : task_vertices) (req_cmd : Nat) (req : GridBox) (cdag : command_dag)
    (hwf : cdag.well_formed) (hsize : cdag.m_vertices.length + 2 ≤ 2 ^ 64)
    (h1 : cdag.is_vertex tv.1) (h2 : cdag.is_vertex req_cmd)
    (h3 : cdag.is_vertex source_tv.1) (h4 : cdag.is_vertex source_tv.2)
    (p : Nat) (g' : command_dag)
    (hres : add_pull_cmd nid source_nid bid tv source_tv req_cmd req cdag = some (p, g')) :
    (g'.get p).cmd = command.PULL ∧ (g'.get p).tid = (cdag.get tv.1).tid ∧
    ∃ a, ¬ cdag.is_vertex a ∧ a ≠ p ∧ g'.is_vertex a ∧ (g'.get a).cmd = command.AWAIT_PULL ∧
      (g'.get a).tid = (cdag.get source_tv.1).tid ∧
      (g'.get a).data =
        command_data.await_pull bid nid (cdag.get tv.1).tid (.of_grid_box req) := by
  obtain ⟨hp, _, order, m, _, _, _, hm, hg⟩ :=
    add_pull_cmd_some nid source_nid bid tv source_tv req_cmd req cdag hwf hsize h1 h2 h3 h4 p g'
      hres
  subst hp hg
  refine ⟨?_, ?_, cdag.m_vertices.length + 1, ?_, ?_, ?_, ?_, ?_, ?_⟩
  · rw [pull_await_graph_get_pull]; rfl
  · rw [pull_await_graph_get_pull]; rfl
  · simp [is_vertex]
  · omega
  · simp [is_vertex, pull_await_graph_length]
  · rw [pull_await_graph_get_await]; rfl
  · rw [pull_await_graph_get_await]; rfl
  · rw [pull_await_graph_get_await]; rfl

/-- C14 as the code has it, in the end-to-end scenario. -/
theorem C14_add_pull_cmd_task_ids_witness :
    add_pull_cmd 1 0 7 (2, 3) (0, 1) 5 box_0_10 (two_tasks true) =
      some (6, pull_await_graph 1 0 7 (2, 3) (0, 1) 5 box_0_10 (two_tasks true) 4) ∧
    ((pull_await_graph 1 0 7 (2, 3) (0, 1) 5 box_0_10 (two_tasks true) 4).get 6).tid =
      ((two_tasks true).get 2).tid :=
  ⟨by decide,
   (C14_add_pull_cmd_task_ids 1 0 7 (2, 3) (0, 1) 5 box_0_10 (two_tasks true)
      (by decide) (by decide) (by decide) (by decide) (by decide) (by decide) 6
      (pull_await_graph 1 0 7 (2, 3) (0, 1) 5 box_0_10 (two_tasks true) 4) (by decide)).2.1⟩

/-- C14 fails as stated: in the end-to-end scenario the call succeeds, the
requesting span's begin vertex 2 stores task id 2, and the AWAIT_PULL vertex 7
gets task id 1, the task id stored on the source span's begin vertex 0. -/
theorem C14_counterexample :
    add_pull_cmd 1 0 7 (2, 3) (0, 1) 5 box_0_10 (two_tasks true) =
      some (6, pull_await_graph 1 0 7 (2, 3) (0, 1) 5 box_0_10 (two_tasks true) 4) ∧
    ((two_tasks true).get 2).tid = 2 ∧
    ((pull_await_graph 1 0 7 (2, 3) (0, 1) 5 box_0_10 (two_tasks true) 4).get 7).cmd =
      command.AWAIT_PULL ∧
    ((pull_await_graph 1 0 7 (2, 3) (0, 1) 5 box_0_10 (two_tasks true) 4).get 7).tid = 1 ∧
    ((pull_await_graph 1 0 7 (2, 3) (0, 1) 5 box_0_10 (two_tasks true) 4).get 7).tid ≠
      ((two_tasks true).get 2).tid := by
  decide

/-- C17: on every command graph, `add_compute_cmd` (for a span of vertices of
the graph) adds exactly one vertex and a successful `add_pull_cmd` adds exactly
two; the vertices are the indices below the vertex count, so none is removed;
and every vertex that existed before keeps its whole bundle (label, kind, node,
task, payload).  The two halves are independent of each other. -/
theorem C17_append_only (cdag : command_dag) :
    (∀ (nid : Nat) (tv : task_vertices) (chunk : subrange),
      cdag.is_vertex tv.1 → cdag.is_vertex tv.2 →
      (add_compute_cmd nid tv chunk cdag).2.m_vertices.length = cdag.m_vertices.length + 1 ∧
      ∀ x, cdag.is_vertex x →
        (add_compute_cmd nid tv chunk cdag).2.is_vertex x ∧
        (add_compute_cmd nid tv chunk cdag).2.get x = cdag.get x) ∧
    (∀ (nid source_nid bid : Nat) (tv source_tv : task_vertices) (req_cmd : Nat) (req : GridBox)
        (p : Nat) (g' : command_dag),
      cdag.well_formed → cdag.m_vertices.length + 2 ≤ 2 ^ 64 →
      cdag.is_vertex tv.1 → cdag.is_vertex req_cmd →
      cdag.is_vertex source_tv.1 → cdag.is_vertex source_tv.2 →
      add_pull_cmd nid source_nid bid tv source_tv req_cmd req cdag = some (p, g') →
      g'.m_vertices.length = cdag.m_vertices.length + 2 ∧
      ∀ x, cdag.is_vertex x → g'.is_vertex x ∧ g'.get x = cdag.get x) := by
  constructor
  · intro nid tv chunk hc1 hc2
    simp only [is_vertex] at hc1 hc2
    rw [add_compute_cmd_eq nid tv chunk cdag hc1 hc2]
    refine ⟨by simp, fun x hx => ⟨?_, ?_⟩⟩
    · simp only [is_vertex, List.length_append, List.length_singleton] at hx ⊢; omega
    · simp only [is_vertex] at hx
      simp only [Graph.get, getD_append_left _ _ _ _ hx]
  · intro nid source_nid bid tv source_tv req_cmd req p g' hwf hsize h1 h2 h3 h4 hres
    obtain ⟨_, _, order, m, _, _, _, _, hg⟩ :=
      add_pull_cmd_some nid source_nid bid tv source_tv req_cmd req cdag hwf hsize h1 h2 h3 h4 p
        g' hres
    subst hg
    refine ⟨pull_await_graph_length _ _ _ _ _ _ _ _ _, fun x hx => ⟨?_, ?_⟩⟩
    · simp only [is_vertex, pull_await_graph_length] at hx ⊢; omega
    · exact pull_await_graph_get_old _ _ _ _ _ _ _ _ _ x hx

/-- C17 at the first command added to two empty spans (a graph on which no
`add_pull_cmd` can succeed), and at the pull of the end-to-end scenario. -/
theorem C17_append_only_witness :
    (two_spans true).is_vertex 0 ∧ (two_spans true).is_vertex 1 ∧
    ((add_compute_cmd 0 (0, 1) chunk_0_10 (two_spans true)).2.m_vertices.length =
        (two_spans true).m_vertices.length + 1 ∧
      ∀ x, (two_spans true).is_vertex x →
        (add_compute_cmd 0 (0, 1) chunk_0_10 (two_spans true)).2.is_vertex x ∧
        (add_compute_cmd 0 (0, 1) chunk_0_10 (two_spans true)).2.get x =
          (two_spans true).get x) ∧
    add_pull_cmd 1 0 7 (2, 3) (0, 1) 5 box_0_10 (two_tasks true) =
      some (6, pull_await_graph 1 0 7 (2, 3) (0, 1) 5 box_0_10 (two_tasks true) 4) ∧
    ((pull_await_graph 1 0 7 (2, 3) (0, 1) 5 box_0_10 (two_tasks true) 4).m_vertices.length =
        (two_tasks true).m_vertices.length + 2 ∧
      ∀ x, (two_tasks true).is_vertex x →
        (pull_await_graph 1 0 7 (2, 3) (0, 1) 5 box_0_10 (two_tasks true) 4).is_vertex x ∧
        (pull_await_graph 1 0 7 (2, 3) (0, 1) 5 box_0_10 (two_tasks true) 4).get x =
          (two_tasks true).get x) :=
  ⟨by decide, by decide,
   (C17_append_only (two_spans true)).1 0 (0, 1) chunk_0_10 (by decide) (by decide),
   by decide,
   (C17_append_only (two_tasks true)).2 1 0 7 (2, 3) (0, 1) 5 box_0_10 6
     (pull_await_graph 1 0 7 (2, 3) (0, 1) 5 box_0_10 (two_tasks true) 4)
     (by decide) (by decide) (by decide) (by decide) (by decide) (by decide) (by decide)⟩

end graph_utils

end celerity

namespace celerity

namespace graph_utils

open Graph

/-- C11: for `req_cmd` of kind COMPUTE or MASTER_ACCESS, `add_pull_cmd` fails
exactly when no vertex reachable from `source_tv.first` is accepted by the
functor (a MASTER_ACCESS command, or a COMPUTE command on `source_nid`) and
`source_nid` is not 0.  The search runs on the graph that already holds the
PULL vertex; when `req_cmd` was reachable from `tv.first`, the same holds with
reachability in the given graph.  When the call succeeds the new graph is well
formed, and the AWAIT_PULL vertex is attached before a vertex of the given
graph; all its edges end in vertices. -/
theorem C11_add_pull_cmd_fails_iff (nid source_nid bid : Nat)
    (tv source_tv : task_vertices) (req_cmd : Nat) (req : GridBox) (cdag : command_dag)
    (hwf : cdag.well_formed) (hsize : cdag.m_vertices.length + 2 ≤ 2 ^ 64)
    (h1 : cdag.is_vertex tv.1) (h2 : cdag.is_vertex req_cmd)
    (h3 : cdag.is_vertex source_tv.1) (h4 : cdag.is_vertex source_tv.2)
    (hkind : (cdag.get req_cmd).cmd = command.COMPUTE ∨
      (cdag.get req_cmd).cmd = command.MASTER_ACCESS) :
    (add_pull_cmd nid source_nid bid tv source_tv req_cmd req cdag = none ↔
      (¬ ∃ x, (pull_graph nid source_nid bid tv req_cmd req cdag).reachable source_tv.1 x ∧
        is_source_command source_nid (pull_graph nid source_nid bid tv req_cmd req cdag) x =
          true) ∧ source_nid ≠ 0) ∧
    (cdag.reachable tv.1 req_cmd →
      (add_pull_cmd nid source_nid bid tv source_tv req_cmd req cdag = none ↔
        (¬ ∃ x, cdag.reachable source_tv.1 x ∧ is_source_command source_nid cdag x = true) ∧
          source_nid ≠ 0)) ∧
    (∀ p g', add_pull_cmd nid source_nid bid tv source_tv req_cmd req cdag = some (p, g') →
      g'.well_formed ∧
      ∃ a m, (g'.get a).cmd = command.AWAIT_PULL ∧ ¬ cdag.is_vertex a ∧ cdag.is_vertex m ∧
        g'.has_edge source_tv.1 a ∧ g'.has_edge a m ∧ ∀ b, g'.has_edge a b → g'.is_vertex b) := by
  have hmain : add_pull_cmd nid source_nid bid tv source_tv req_cmd req cdag = none ↔
      (¬ ∃ x, (pull_graph nid source_nid bid tv req_cmd req cdag).reachable source_tv.1 x ∧
        is_source_command source_nid (pull_graph nid source_nid bid tv req_cmd req cdag) x =
          true) ∧ source_nid ≠ 0 := by
    obtain ⟨order, _, _, hreach, _, heq⟩ :=
      add_pull_cmd_eq nid source_nid bid tv source_tv req_cmd req cdag hwf hsize h1 h2 h3 h4
    rw [heq, if_pos hkind]
    cases hf : List.find? (is_source_command source_nid
        (pull_graph nid source_nid bid tv req_cmd req cdag)) order with
    | some m =>
      simp only [false_iff, not_and, reduceCtorEq]
      intro hno
      exact absurd ⟨m, (hreach m).mp (List.mem_of_find?_eq_some hf), List.find?_some hf⟩ hno
    | none =>
      have hnone : ¬ ∃ x,
          (pull_graph nid source_nid bid tv req_cmd req cdag).reachable source_tv.1 x ∧
          is_source_command source_nid (pull_graph nid source_nid bid tv req_cmd req cdag) x =
            true := by
        rintro ⟨x, hx1, hx2⟩
        exact absurd hx2 (List.find?_eq_none.mp hf x ((hreach x).mpr hx1))
      by_cases h0 : source_nid = 0
      · simp [h0]
      · simp only [h0, if_false, true_iff, ne_eq, not_false_eq_true, and_true]
        exact hnone
  simp only [is_vertex] at h1 h2 h3 h4
  refine ⟨hmain, ?_, ?_⟩
  · intro hr
    rw [hmain]
    have hex : (∃ x, (pull_graph nid source_nid bid tv req_cmd req cdag).reachable source_tv.1 x ∧
        is_source_command source_nid (pull_graph nid source_nid bid tv req_cmd req cdag) x =
          true) ↔
        ∃ x, cdag.reachable source_tv.1 x ∧ is_source_command source_nid cdag x = true := by
      constructor
      · rintro ⟨x, hx1, hx2⟩
        have hxv := is_vertex_of_reachable
          (pull_graph_well_formed nid source_nid bid tv req_cmd req cdag hwf h1 h2)
          (by simp only [is_vertex, pull_graph_length]; omega) hx1
        simp only [is_vertex, pull_graph_length] at hxv
        by_cases hxn : x = cdag.m_vertices.length
        · subst hxn
          rw [is_source_command_pull_graph_new] at hx2
          exact absurd hx2 (by simp)
        · have hxo : x < cdag.m_vertices.length := by omega
          rw [is_source_command_pull_graph_old _ _ _ _ _ _ _ x hxo] at hx2
          exact ⟨x, (reachable_of_reachable_pull_graph nid source_nid bid tv req_cmd req cdag hwf
            h1 hr source_tv.1 x h3 hx1).1 hxo, hx2⟩
      · rintro ⟨x, hx1, hx2⟩
        have hxo := is_vertex_of_reachable hwf h3 hx1
        simp only [is_vertex] at hxo
        refine ⟨x, reachable_pull_graph _ _ _ _ _ _ _ _ _ hx1, ?_⟩
        rw [is_source_command_pull_graph_old _ _ _ _ _ _ _ x hxo]
        exact hx2
    rw [hex]
  · intro p g' hres
    obtain ⟨hp, _, order, m, _, _, _, hm, hg⟩ :=
      add_pull_cmd_some nid source_nid bid tv source_tv req_cmd req cdag hwf hsize h1 h2 h3 h4 p
        g' hres
    subst hp hg
    refine ⟨pull_await_graph_well_formed _ _ _ _ _ _ _ _ m hwf h1 h2 h3 hm,
      cdag.m_vertices.length + 1, m, ?_, ?_, hm, ?_, ?_, ?_⟩
    · rw [pull_await_graph_get_await]; rfl
    · simp [is_vertex]
    · exact (pull_await_graph_edges_to_await nid source_nid bid tv source_tv req_cmd req cdag m
        source_tv.1 hwf h2 hm).mpr (Or.inl rfl)
    · exact (pull_await_graph_edges_from_await nid source_nid bid tv source_tv req_cmd req cdag m
        m hwf h1 h3).mpr (Or.inl rfl)
    · intro b hb
      rcases (pull_await_graph_edges_from_await nid source_nid bid tv source_tv req_cmd req cdag
        m b hwf h1 h3).mp hb with h | h
      · simp only [is_vertex, pull_await_graph_length]; omega
      · simp only [is_vertex, pull_await_graph_length]; omega

/-- C11 in the end-to-end scenario with source node 2: no MASTER_ACCESS command
and no COMPUTE command on node 2 is reachable from the begin of task 1, and the
call fails. -/
theorem C11_add_pull_cmd_fails_iff_witness :
    add_pull_cmd 1 2 7 (2, 3) (0, 1) 5 box_0_10 (two_tasks true) = none ∧
    (add_pull_cmd 1 2 7 (2, 3) (0, 1) 5 box_0_10 (two_tasks true) = none ↔
      (¬ ∃ x, (pull_graph 1 2 7 (2, 3) 5 box_0_10 (two_tasks true)).reachable 0 x ∧
        is_source_command 2 (pull_graph 1 2 7 (2, 3) 5 box_0_10 (two_tasks true)) x = true) ∧
      2 ≠ 0) :=
  ⟨by decide,
   (C11_add_pull_cmd_fails_iff 1 2 7 (2, 3) (0, 1) 5 box_0_10 (two_tasks true)
      (by decide) (by decide) (by decide) (by decide) (by decide) (by decide) (by decide)).1⟩

/-- C15, the code at the failing input: span reachability holds for both tasks;
the search from the begin 0 of task 1 discovers 0, 1, 4, 2, 3, 5 and accepts
the COMPUTE command 5 on node 0, whose task id is that of task 2 (begin 2), not
that of the source task 1. -/
theorem C15_search_leaves_source_task :
    span_reachability (three_commands true) (0, 1) ∧
    span_reachability (three_commands true) (2, 3) ∧
    add_pull_cmd 1 0 7 (2, 3) (0, 1) 6 box_0_10 (three_commands true) =
      some (7, pull_await_graph 1 0 7 (2, 3) (0, 1) 6 box_0_10 (three_commands true) 5) ∧
    search_vertex_bf 0 (pull_graph 1 0 7 (2, 3) 6 box_0_10 (three_commands true))
        (traced (find_source_command 0 (0, 1))) (size_t_max, []) =
      some (5, [0, 1, 4, 2, 3, 5]) ∧
    ((three_commands true).get 5).tid = ((three_commands true).get 2).tid ∧
    ((three_commands true).get 5).tid ≠ ((three_commands true).get 0).tid := by
  refine ⟨?_, ?_, by decide!, by decide!, by decide!, by decide!⟩
  · exact (span_reachability_iff _ (by decide!) _ (by decide!)).mpr (by decide!)
  · exact (span_reachability_iff _ (by decide!) _ (by decide!)).mpr (by decide!)

/-- C18: for a functor that never returns `true`, the search on a well-formed
graph comes to an end and calls the functor exactly once on every vertex
reachable from `start` (`start` included) and never on another vertex. -/
theorem C18_search_visits_reachable_once {P σ : Type} (g : Graph P) (start : Nat)
    (f : σ → Nat → Graph P → Bool × σ) (s : σ)
    (hwf : g.well_formed) (hstart : g.is_vertex start)
    (hnever : ∀ s v, (f s v g).1 = false) :
    ∃ r calls, search_vertex_bf start g (traced f) (s, []) = some (r, calls) ∧
      search_vertex_bf start g f s = some r ∧
      g.reachable start start ∧
      (∀ x, g.reachable start x → calls.count x = 1) ∧
      (∀ x, ¬ g.reachable start x → calls.count x = 0) := by
  obtain ⟨D, hD, _, hnd, hreach⟩ := discovery_order_spec g start hwf hstart
  have hc := call_until_true_of_never f g hnever (start :: D) s
  refine ⟨(call_until_true f g (start :: D) s).2.1, start :: D, ?_, ?_,
    Relation.ReflTransGen.refl, ?_, ?_⟩
  · rw [search_vertex_bf_eq (traced f) g start (s, []) D hD, call_until_true_traced, hc.2]
    simp
  · exact search_vertex_bf_eq f g start s D hD
  · intro x hx
    exact List.count_eq_one_of_mem hnd ((hreach x).mpr hx)
  · intro x hx
    exact List.count_eq_zero_of_not_mem (fun h => hx ((hreach x).mp h))

/-- C18 on the diamond from vertex 1, with the functor that counts its calls:
it is called on 1 and 3. -/
theorem C18_search_visits_reachable_once_witness :
    search_vertex_bf 1 diamond (traced (fun (s : Nat) _ _ => (false, s + 1))) (0, []) =
      some (2, [1, 3]) ∧
    ∃ r calls,
      search_vertex_bf 1 diamond (traced (fun (s : Nat) _ _ => (false, s + 1))) (0, []) =
        some (r, calls) ∧
      search_vertex_bf 1 diamond (fun (s : Nat) _ _ => (false, s + 1)) 0 = some r ∧
      diamond.reachable 1 1 ∧
      (∀ x, diamond.reachable 1 x → calls.count x = 1) ∧
      (∀ x, ¬ diamond.reachable 1 x → calls.count x = 0) :=
  ⟨by decide,
   C18_search_visits_reachable_once diamond 1 (fun (s : Nat) _ _ => (false, s + 1)) 0
     (by decide) (by decide) (fun _ _ => rfl)⟩

end graph_utils

end celerity

namespace celerity

namespace graph_utils

/-- C16: the text that `write_graph_mux` hands to the logger as "data" is the
rendered text with every newline replaced by backslash and `n` and then every
double quote replaced by backslash and double quote.  That is the rendered
text with each character escaped on its own; it holds no newline, and each of
its double quotes stands right after a backslash. -/
theorem C16_write_graph_mux_escapes (rendered name : List Char) :
    write_graph_mux rendered name =
      [("name", name),
       ("data", replace_all (replace_all rendered newline_char [backslash_char, 'n']) quote_char
          [backslash_char, quote_char])] ∧
    write_graph_mux rendered name = [("name", name), ("data", escape_text rendered)] ∧
    newline_char ∉ escape_text rendered ∧
    (∀ pre post, escape_text rendered = pre ++ quote_char :: post →
      ∃ pre', pre = pre' ++ [backslash_char]) ∧
    newline_char = '\n' ∧ quote_char = '"' ∧ backslash_char = '\\' := by
  refine ⟨rfl, ?_, newline_not_mem_escape_text rendered, quotes_escaped_escape_text rendered,
    by decide, by decide, by decide⟩
  unfold write_graph_mux
  simp only [replace_all_twice_eq_escape_text]

end graph_utils

end celerity

namespace celerity

namespace graph_utils

open Graph

/-- C19: after two successive successful `add_pull_cmd` calls with the same
requesting span `tv` and the same `req_cmd`, on a graph with the edge
`tv.first -> req_cmd`, the two PULL vertices `p1` and `p2` are two different
new vertices; each has exactly one edge from `tv.first` and exactly one edge to
`req_cmd`, so it is reachable from `tv.first`; and whenever there was a path
from `x` to `y` before the calls there is one afterwards.  The source spans of
both calls are pairs of vertices of the given graph. -/
theorem C19_two_pulls_compose (nid1 source_nid1 bid1 nid2 source_nid2 bid2 : Nat)
    (tv source_tv1 source_tv2 : task_vertices) (req_cmd : Nat) (req1 req2 : GridBox)
    (cdag : command_dag)
    (hwf : cdag.well_formed) (hsize : cdag.m_vertices.length + 4 ≤ 2 ^ 64)
    (hedge : cdag.has_edge tv.1 req_cmd)
    (h3 : cdag.is_vertex source_tv1.1) (h4 : cdag.is_vertex source_tv1.2)
    (h5 : cdag.is_vertex source_tv2.1) (h6 : cdag.is_vertex source_tv2.2)
    (p1 p2 : Nat) (g1 g2 : command_dag)
    (hres1 : add_pull_cmd nid1 source_nid1 bid1 tv source_tv1 req_cmd req1 cdag = some (p1, g1))
    (hres2 : add_pull_cmd nid2 source_nid2 bid2 tv source_tv2 req_cmd req2 g1 = some (p2, g2)) :
    p1 ≠ p2 ∧ ¬ cdag.is_vertex p1 ∧ ¬ cdag.is_vertex p2 ∧
    (g2.get p1).cmd = command.PULL ∧ (g2.get p2).cmd = command.PULL ∧
    g2.has_edge tv.1 p1 ∧ g2.has_edge p1 req_cmd ∧
    g2.has_edge tv.1 p2 ∧ g2.has_edge p2 req_cmd ∧
    g2.reachable tv.1 p1 ∧ g2.reachable tv.1 p2 ∧
    g2.m_edges.count (tv.1, p1) = 1 ∧ g2.m_edges.count (p1, req_cmd) = 1 ∧
    g2.m_edges.count (tv.1, p2) = 1 ∧ g2.m_edges.count (p2, req_cmd) = 1 ∧
    ∀ x y, cdag.reachable x y → g2.reachable x y := by
  have h1 : cdag.is_vertex tv.1 := well_formed_fst hwf hedge
  have h2 : cdag.is_vertex req_cmd := well_formed_snd hwf hedge
  obtain ⟨hp1, _, _, m1, _, _, _, hm1, hg1⟩ :=
    add_pull_cmd_some nid1 source_nid1 bid1 tv source_tv1 req_cmd req1 cdag hwf (by omega) h1 h2
      h3 h4 p1 g1 hres1
  simp only [is_vertex] at h1 h2 h3 h4 h5 h6
  have hwf1 : g1.well_formed := by
    rw [hg1]
    exact pull_await_graph_well_formed _ _ _ _ _ _ _ _ m1 hwf h1 h2 h3 hm1
  have hl1 : g1.m_vertices.length = cdag.m_vertices.length + 2 := by
    rw [hg1]; exact pull_await_graph_length _ _ _ _ _ _ _ _ _
  obtain ⟨hp2, _, order2, m2, _, _, hfind2, hm2, hg2⟩ :=
    add_pull_cmd_some nid2 source_nid2 bid2 tv source_tv2 req_cmd req2 g1 hwf1 (by omega)
      (by simp only [is_vertex]; omega) (by simp only [is_vertex]; omega)
      (by simp only [is_vertex]; omega) (by simp only [is_vertex]; omega) p2 g2 hres2
  have hkp1 : (g1.get cdag.m_vertices.length).cmd = command.PULL := by
    rw [hg1, pull_await_graph_get_pull]; rfl
  -- the second AWAIT_PULL vertex is not put before the first PULL vertex
  have hm2ne : m2 ≠ cdag.m_vertices.length := by
    rcases hfind2 with h | ⟨_, _, h⟩
    · intro hme
      have hacc := List.find?_some h
      rw [hme, is_source_command_pull_graph_old _ _ _ _ _ _ _ _ (by omega),
        is_source_command] at hacc
      simp [hkp1] at hacc
    · omega
  have e1 : g1.has_edge tv.1 cdag.m_vertices.length := by
    rw [hg1]
    exact (pull_await_graph_edges_to_pull _ _ _ _ _ _ _ _ m1 tv.1 hwf h2 hm1).mpr (Or.inl rfl)
  have e2 : g1.has_edge cdag.m_vertices.length req_cmd := by
    rw [hg1]
    exact (pull_await_graph_edges_from_pull _ _ _ _ _ _ _ _ m1 req_cmd hwf h1 h3).mpr
      (Or.inl rfl)
  have c1 := pull_await_graph_count_pull_edges nid1 source_nid1 bid1 tv source_tv1 req_cmd req1
    cdag m1 hwf h1 h2 h3 hm1
  rw [← hg1] at c1
  have c2 := pull_await_graph_count_pull_edges nid2 source_nid2 bid2 tv source_tv2 req_cmd req2
    g1 m2 hwf1 (by omega) (by omega) (by omega) hm2
  have n1 : ¬ (tv.1 = tv.1 ∧ cdag.m_vertices.length = req_cmd) := by omega
  have n2 : ¬ (tv.1 = source_tv2.1 ∧ cdag.m_vertices.length = m2) := by omega
  have n3 : ¬ (cdag.m_vertices.length = tv.1 ∧ req_cmd = req_cmd) := by omega
  have n4 : ¬ (cdag.m_vertices.length = source_tv2.1 ∧ req_cmd = m2) := by omega
  have f1 : g2.has_edge tv.1 cdag.m_vertices.length := by
    rw [hg2]
    exact (pull_await_graph_edges_old _ _ _ _ _ _ _ g1 m2 tv.1 cdag.m_vertices.length
      (by omega) (by omega)).mpr ⟨e1, n1, n2⟩
  have f2 : g2.has_edge cdag.m_vertices.length req_cmd := by
    rw [hg2]
    exact (pull_await_graph_edges_old _ _ _ _ _ _ _ g1 m2 cdag.m_vertices.length req_cmd
      (by omega) (by omega)).mpr ⟨e2, n3, n4⟩
  have f3 : g2.has_edge tv.1 g1.m_vertices.length := by
    rw [hg2]
    exact (pull_await_graph_edges_to_pull _ _ _ _ _ _ _ g1 m2 tv.1 hwf1 (by omega) hm2).mpr
      (Or.inl rfl)
  have f4 : g2.has_edge g1.m_vertices.length req_cmd := by
    rw [hg2]
    exact (pull_await_graph_edges_from_pull _ _ _ _ _ _ _ g1 m2 req_cmd hwf1 (by omega)
      (by omega)).mpr (Or.inl rfl)
  subst hp1 hp2
  refine ⟨by omega, by simp [is_vertex], by simp only [is_vertex]; omega, ?_, ?_, f1, f2, f3, f4,
    Relation.ReflTransGen.single f1, Relation.ReflTransGen.single f3, ?_, ?_, ?_, ?_, ?_⟩
  · rw [hg2, pull_await_graph_get_old _ _ _ _ _ _ _ _ _ _ (by omega)]
    exact hkp1
  · rw [hg2, pull_await_graph_get_pull]; rfl
  · rw [hg2, pull_await_graph_count_old _ _ _ _ _ _ _ g1 m2 tv.1 cdag.m_vertices.length
      (by omega) (by omega) n1 n2]
    exact c1.1
  · rw [hg2, pull_await_graph_count_old _ _ _ _ _ _ _ g1 m2 cdag.m_vertices.length req_cmd
      (by omega) (by omega) n3 n4]
    exact c1.2
  · rw [hg2]; exact c2.1
  · rw [hg2]; exact c2.2
  · intro x y hxy
    rw [hg2]
    apply reachable_pull_await_graph
    rw [hg1]
    exact reachable_pull_await_graph _ _ _ _ _ _ _ _ _ _ _ hxy

/-- C19 in the end-to-end scenario: two pulls for the COMPUTE command 5 of task
2 give the PULL vertices 6 and 8, each between the begin 2 and the command 5. -/
theorem C19_two_pulls_compose_witness :
    (two_tasks true).has_edge 2 5 ∧
    add_pull_cmd 1 0 7 (2, 3) (0, 1) 5 box_0_10 (two_tasks true) =
      some (6, pull_await_graph 1 0 7 (2, 3) (0, 1) 5 box_0_10 (two_tasks true) 4) ∧
    add_pull_cmd 1 0 8 (2, 3) (0, 1) 5 box_0_10
        (pull_await_graph 1 0 7 (2, 3) (0, 1) 5 box_0_10 (two_tasks true) 4) =
      some (8, pull_await_graph 1 0 8 (2, 3) (0, 1) 5 box_0_10
        (pull_await_graph 1 0 7 (2, 3) (0, 1) 5 box_0_10 (two_tasks true) 4) 4) ∧
    (pull_await_graph 1 0 8 (2, 3) (0, 1) 5 box_0_10
      (pull_await_graph 1 0 7 (2, 3) (0, 1) 5 box_0_10 (two_tasks true) 4) 4).has_edge 2 6 ∧
    (pull_await_graph 1 0 8 (2, 3) (0, 1) 5 box_0_10
      (pull_await_graph 1 0 7 (2, 3) (0, 1) 5 box_0_10 (two_tasks true) 4) 4).has_edge 6 5 ∧
    (pull_await_graph 1 0 8 (2, 3) (0, 1) 5 box_0_10
      (pull_await_graph 1 0 7 (2, 3) (0, 1) 5 box_0_10 (two_tasks true) 4) 4).has_edge 2 8 ∧
    (pull_await_graph 1 0 8 (2, 3) (0, 1) 5 box_0_10
      (pull_await_graph 1 0 7 (2, 3) (0, 1) 5 box_0_10 (two_tasks true) 4) 4).has_edge 8 5 :=
  have h := C19_two_pulls_compose 1 0 7 1 0 8 (2, 3) (0, 1) (0, 1) 5 box_0_10 box_0_10
    (two_tasks true) (by decide) (by decide) (by decide) (by decide) (by decide) (by decide)
    (by decide) 6 8 (pull_await_graph 1 0 7 (2, 3) (0, 1) 5 box_0_10 (two_tasks true) 4)
    (pull_await_graph 1 0 8 (2, 3) (0, 1) 5 box_0_10
      (pull_await_graph 1 0 7 (2, 3) (0, 1) 5 box_0_10 (two_tasks true) 4) 4)
    (by decide) (by decide)
  ⟨by decide, by decide, by decide, h.2.2.2.2.2.1, h.2.2.2.2.2.2.1, h.2.2.2.2.2.2.2.1,
    h.2.2.2.2.2.2.2.2.1⟩

end graph_utils

end celerity

namespace celerity

namespace graph_utils

open Graph

theorem not_has_local_cycle_of_ranked (g : command_dag) (rank : List Nat) (h : ranked g rank) :
    ¬ has_local_cycle g := by
  have hlt : ∀ a b, Relation.TransGen (local_edge g) a b → rank.getD a 0 < rank.getD b 0 := by
    intro a b hab
    induction hab with
    | single hbc => exact h _ hbc.1 hbc.2
    | tail _ hbc ih => exact Nat.lt_trans ih (h _ hbc.1 hbc.2)
  rintro ⟨x, hx⟩
  exact Nat.lt_irrefl _ (hlt x x hx)

/-- C20, the code at the failing input.  The three-node scenario after a first,
successful pull has no cycle in its local ordering, and has the edge from the
begin 2 of task 2 to its COMPUTE command 6.  Node 2 then pulls buffer 8 from
node 0 for the command 6, with task 2 itself as source task.  Task 2 has no
command on node 0, but the search from its begin walks over the link between
the PULL vertex 7 and the AWAIT_PULL vertex 8 into task 1 and accepts the
COMPUTE command 4 there; the new AWAIT_PULL vertex 10 is put between the begin
2 of task 2 and the command 4 of task 1, which closes the cycle
2 -> 10 -> 4 -> 1 -> 2 in the local ordering. -/
theorem C20_local_cycle_created :
    add_pull_cmd 1 0 7 (2, 3) (0, 1) 5 box_0_10 three_nodes = some (7, three_nodes_pulled) ∧
    ¬ has_local_cycle three_nodes_pulled ∧
    three_nodes_pulled.has_edge 2 6 ∧
    add_pull_cmd 2 0 8 (2, 3) (2, 3) 6 box_0_10 three_nodes_pulled =
      some (9, pull_await_graph 2 0 8 (2, 3) (2, 3) 6 box_0_10 three_nodes_pulled 4) ∧
    (∀ x, x < three_nodes_pulled.m_vertices.length →
      (three_nodes_pulled.get x).tid = (three_nodes_pulled.get 2).tid →
      is_source_command 0 three_nodes_pulled x = false) ∧
    local_edge (pull_await_graph 2 0 8 (2, 3) (2, 3) 6 box_0_10 three_nodes_pulled 4) 2 10 ∧
    local_edge (pull_await_graph 2 0 8 (2, 3) (2, 3) 6 box_0_10 three_nodes_pulled 4) 10 4 ∧
    local_edge (pull_await_graph 2 0 8 (2, 3) (2, 3) 6 box_0_10 three_nodes_pulled 4) 4 1 ∧
    local_edge (pull_await_graph 2 0 8 (2, 3) (2, 3) 6 box_0_10 three_nodes_pulled 4) 1 2 ∧
    has_local_cycle (pull_await_graph 2 0 8 (2, 3) (2, 3) 6 box_0_10 three_nodes_pulled 4) := by
  have e1 : local_edge (pull_await_graph 2 0 8 (2, 3) (2, 3) 6 box_0_10 three_nodes_pulled 4)
      2 10 := by decide!
  have e2 : local_edge (pull_await_graph 2 0 8 (2, 3) (2, 3) 6 box_0_10 three_nodes_pulled 4)
      10 4 := by decide!
  have e3 : local_edge (pull_await_graph 2 0 8 (2, 3) (2, 3) 6 box_0_10 three_nodes_pulled 4)
      4 1 := by decide!
  have e4 : local_edge (pull_await_graph 2 0 8 (2, 3) (2, 3) 6 box_0_10 three_nodes_pulled 4)
      1 2 := by decide!
  refine ⟨by decide!, ?_, by decide!, by decide!, by decide!, e1, e2, e3, e4, 2, ?_⟩
  · exact not_has_local_cycle_of_ranked three_nodes_pulled [0, 3, 4, 7, 2, 6, 6, 5, 1]
      (by decide!)
  · exact (((Relation.TransGen.single e1).tail e2).tail e3).tail e4

end graph_utils

end celerity
